import Mathlib

/-! # Student roster manager (`project.c`, `project.h`)

A shallow embedding of the C program and theorems about it.

Modelling conventions
* A C string is the list of its bytes before the terminating NUL; a byte is a `Char` and the
  character classes are those of the C locale.
* `int` values are `Int`. The width of a machine integer decides a result only in `strtol`
  (a 64-bit `long` that saturates) and in the conversion to `int` after it; the points the
  program stores are validated to `[0, 999]`, so sums of six of them stay far below `2^31`.
* The linked list behind the dummy head is the `List Student` of the nodes after the head, in
  list order; `Node` is the C struct as `sort_students` sees it through a pointer.
* A function that returns a code and changes the list or a stream returns the pair of both.
* Every `malloc` is taken to succeed and every `fprintf` writes; `fopen` may fail. A `free`
  of an allocated block has no effect on the values. `free_parsed_input` is the one place
  where the program can leave an object: it frees `arg_count` slots of an array of
  `MAX_ARGS`. The functions `load_lines`, `load_file` and `run` give the result of a call
  that returns, and `load_lines_returns`, `load_file_returns` and `run_returns` say whether
  it does.
-/

namespace Project

/-! ## Constants of `project.h` -/

/-- A C string, without its terminator. -/
abbrev CStr := List Char

def INT_MIN : Int := -2147483648
def INT_MAX : Int := 2147483647
def LONG_MIN : Int := -9223372036854775808
def LONG_MAX : Int := 9223372036854775807

def INPUT_BUFFER_SIZE : Nat := 1024
def STDNT_ID_LEN : Nat := 6
def EXCRS_RNDS : Nat := 6
def EXCRS_PTS : Int := 999
def QUIT_FLAG : Int := 1
def NO_CMND_CHAR : Char := '*'
def INT_ERR_BOUND : Int := INT_MIN + 10

def ERR_UNKNOWN : Int := -1
def ERR_CRITICAL : Int := -2
def ERR_MEM_ALLOC_FAIL : Int := -3
def ERR_NON_VIABLE_INP : Int := -4
def ERR_INV_CMND_CHAR : Int := -5
def ERR_NO_CMND_CHAR : Int := -6
def ERR_UPD_PTS_ON_EMPT : Int := -7
def ERR_STDNT_NOT_FND : Int := -8
def ERR_STDNT_IN_LIST : Int := -9
def ERR_EMPTY_INP : Int := -20
def ERR_TOO_MANY_ARGS : Int := -21
def ERR_TOO_FEW_ARGS : Int := -22
def ERR_ROUND_CNV : Int := -30
def ERR_RND_NUM_OOB : Int := -31
def ERR_POINTS_CNV : Int := -40
def ERR_PTS_OOB : Int := -41
def ERR_NULL_STRM : Int := -50
def ERR_WRT_EMPT_LST : Int := -51
def ERR_FILE_OPEN : Int := -52
def ERR_FILE_CORR : Int := -53
def ERR_FILENAME_INV : Int := -54
def ERR_FILENAME_LEN : Int := -55
def ERR_ID_TOO_LONG : Int := -60
def ERR_ID_EMPTY : Int := -61
def ERR_ID_NOT_ALNUM : Int := -62
def ERR_INT_CNV : Int := INT_MIN
def ERR_INT_OOB : Int := INT_MIN + 1
def ERR_INT_NEG : Int := INT_MIN + 2
def ERR_CHAR : Char := '1'

def ADD_ARGS : Int := 4
def UPDATE_ARGS : Int := 4
def LIST_ARGS : Int := 1
def WRITE_ARGS : Int := 2
def LOAD_ARGS : Int := 2
def QUIT_ARGS : Int := 1
def MAX_ARGS : Nat := 10

/-- The command characters of `enum Command`. -/
def ADD : Char := 'A'
def UPDATE : Char := 'U'
def LIST : Char := 'L'
def WRITE : Char := 'W'
def LOAD : Char := 'O'
def QUIT : Char := 'Q'

/-! ## The C library, as far as the program uses it -/

/-- The `isupper` of the C locale. -/
def isupper (c : Char) : Bool := 65 ≤ c.toNat && c.toNat ≤ 90

/-- The `islower` of the C locale. -/
def islower (c : Char) : Bool := 97 ≤ c.toNat && c.toNat ≤ 122

/-- The `isdigit` of C. -/
def isdigit (c : Char) : Bool := 48 ≤ c.toNat && c.toNat ≤ 57

/-- The `isalnum` of the C locale. -/
def isalnum (c : Char) : Bool := isupper c || islower c || isdigit c

/-- The `isspace` of the C locale: space, and `\t \n \v \f \r`. -/
def isspace (c : Char) : Bool := c.toNat = 32 || (9 ≤ c.toNat && c.toNat ≤ 13)

/-- The character at an index of a C string; past the last byte stands the terminator. -/
def charAt (s : CStr) (i : Nat) : Char := s.getD i (Char.ofNat 0)

/-- The `strcmp` of C, bytes compared as unsigned values. Only the sign of the result is
specified by C; the model returns `-1`, `0` or `1`. -/
def strcmp : CStr → CStr → Int
  | [], [] => 0
  | [], _ :: _ => -1
  | _ :: _, [] => 1
  | a :: as, b :: bs =>
    if a = b then strcmp as bs else if a.toNat < b.toNat then -1 else 1

/-- The digits `strtol` consumes, accumulated in base 10, and the unread rest. -/
def strtol_digits (acc : Nat) : CStr → Nat × CStr
  | [] => (acc, [])
  | c :: cs =>
    if isdigit c then strtol_digits (acc * 10 + (c.toNat - 48)) cs else (acc, c :: cs)

/-- The leading white space `strtol` skips. -/
def skip_space : CStr → CStr
  | [] => []
  | c :: cs => if isspace c then skip_space cs else c :: cs

/-- A value saturated to the range of `long`, as `strtol` does on overflow. -/
def clamp_long (v : Int) : Int :=
  if v < LONG_MIN then LONG_MIN else if LONG_MAX < v then LONG_MAX else v

/-- The sign `strtol` reads after the white space: whether it is `-`, and the rest. -/
def strtol_sign : CStr → Bool × CStr
  | '-' :: cs => (true, cs)
  | '+' :: cs => (false, cs)
  | cs => (false, cs)

/-- The `strtol(str, &endp, 10)` of C: the value, and what `endp` points at. When no digit
follows the optional white space and sign, nothing is converted: the value is `0` and `endp`
is `str`. -/
def strtol (str : CStr) : Int × CStr :=
  let signed := strtol_sign (skip_space str)
  match signed.2 with
  | [] => (0, str)
  | c :: cs =>
    if isdigit c then
      let r := strtol_digits 0 (c :: cs)
      (clamp_long (if signed.1 then -(r.1 : Int) else (r.1 : Int)), r.2)
    else (0, str)

/-- The conversion of a `long` to `int`, modulo `2^32`. -/
def long_to_int (v : Int) : Int := (v + 2147483648) % 4294967296 - 2147483648

/-- The `atoi` of C, which is `(int)strtol(str, NULL, 10)`. -/
def atoi (str : CStr) : Int := long_to_int (strtol str).1

/-- The output of `printf("%d", v)`. -/
def print_int (v : Int) : CStr :=
  if v < 0 then '-' :: Nat.toDigits 10 v.natAbs else Nat.toDigits 10 v.toNat

/-- Whether a byte is one of the delimiters `" \n"` handed to `strtok`. -/
def is_delim (c : Char) : Bool := c = ' ' || c = '\n'

/-- The tokens successive `strtok(_, " \n")` calls return: the maximal runs of bytes other
than space and newline. `cur` is the run being read, last byte first. -/
def strtok_all (cur : CStr) : CStr → List CStr
  | [] => if cur.isEmpty then [] else [cur.reverse]
  | c :: cs =>
    if is_delim c then
      (if cur.isEmpty then strtok_all [] cs else cur.reverse :: strtok_all [] cs)
    else strtok_all (c :: cur) cs

/-- The tokens of a line. -/
def tokens (input : CStr) : List CStr := strtok_all [] input

/-! ## Validators -/

def count_arguments (input : CStr) : Int :=
  match tokens input with
  | [] => ERR_NON_VIABLE_INP
  | t :: ts => ((t :: ts).length : Int)

def validate_int_input (str : CStr) (allow_neg : Bool) : Int :=
  let r := strtol str
  if r.2.length = str.length ∨ r.2 ≠ [] then ERR_INT_CNV
  else if r.1 < INT_MIN ∨ r.1 > INT_MAX then ERR_INT_OOB
  else if allow_neg = false ∧ r.1 < 0 then ERR_INT_NEG
  else r.1

def validate_id (student_id : CStr) : Int :=
  if student_id.length > STDNT_ID_LEN then ERR_ID_TOO_LONG
  else if student_id.length = 0 then ERR_ID_EMPTY
  else if student_id.all isalnum then 0
  else ERR_ID_NOT_ALNUM

def validate_rounds (round_str : CStr) : Int :=
  let val := validate_int_input round_str false
  if val = ERR_INT_CNV then ERR_ROUND_CNV
  else if val < INT_ERR_BOUND then val
  else if val < 1 ∨ val > (EXCRS_RNDS : Int) then ERR_RND_NUM_OOB
  else val

def validate_points (points_str : CStr) : Int :=
  let val := validate_int_input points_str false
  if val = ERR_INT_CNV then ERR_POINTS_CNV
  else if val < INT_ERR_BOUND then val
  else if val < 0 ∨ val > EXCRS_PTS then ERR_PTS_OOB
  else val

/-- The characters `<>:"/\|?*` that `validate_filename` rejects. -/
def invalid_chars : List Char :=
  ['<', '>', ':', Char.ofNat 34, '/', Char.ofNat 92, '|', '?', '*']

/-- The filename check. The last test reads `filename[len - 1]`, which for the empty string
lies before the array; the empty string is modelled as passing that test. -/
def validate_filename (filename : CStr) : Int :=
  if filename.any (fun c => invalid_chars.contains c) then ERR_FILENAME_INV
  else if filename.length > 255 then ERR_FILENAME_LEN
  else if filename.getLast? = some '.' then ERR_FILENAME_INV
  else 0

/-! ## Parsing a line -/

/-- The `Input` struct: `arg_arr` has `MAX_ARGS` slots, `none` for a NULL slot. -/
structure Input where
  arg_count : Int
  cmnd : Char
  arg_arr : List (Option CStr)
  deriving DecidableEq, Repr

/-- The string in slot `i` of an `Input` (empty when the slot is NULL). -/
def Input.arg (inp : Input) (i : Nat) : CStr := (inp.arg_arr.getD i none).getD []

/-- The result of `parse_command`: the returned character and the value of `*error`
afterwards (`error` is the value before). -/
def parse_command (input : CStr) (error : Int) : Char × Int :=
  if !isupper (charAt input 0) || !isspace (charAt input 1) then (ERR_CHAR, error)
  else if charAt input 0 = ADD then (ADD, error)
  else if charAt input 0 = UPDATE then (UPDATE, error)
  else if charAt input 0 = LIST then (LIST, error)
  else if charAt input 0 = WRITE then (WRITE, error)
  else if charAt input 0 = LOAD then (LOAD, error)
  else if charAt input 0 = QUIT then (QUIT, error)
  else (charAt input 0, ERR_INV_CMND_CHAR)

/-- The result of `parse_input`: the returned pointer (`none` for NULL) and the value of
`*error` afterwards. In the special case of an invalid command character the C code returns
the freshly allocated struct with only `cmnd` set; the other two fields are not initialised
there, and the model shows them as zero and NULL (`load_lines_returns` records that nothing
may be read from them). -/
def parse_input (input : CStr) (error : Int) (user_input : Bool) : Option Input × Int :=
  if input.length ≤ 1 then
    (none, if user_input then ERR_EMPTY_INP else ERR_FILE_CORR)
  else
    let pc := parse_command input error
    if pc.2 = ERR_INV_CMND_CHAR then
      (some { arg_count := 0, cmnd := pc.1, arg_arr := List.replicate MAX_ARGS none }, pc.2)
    else if user_input && pc.1 = ERR_CHAR then (none, ERR_NO_CMND_CHAR)
    else
      let arg_count := count_arguments input
      if arg_count < 0 then (none, arg_count)
      else
        (some { arg_count := arg_count
                cmnd := if user_input then pc.1 else NO_CMND_CHAR
                arg_arr := (List.range MAX_ARGS).map (fun i => (tokens input)[i]?) }, pc.2)

/-- Whether a call of `free_parsed_input` stays inside the struct. The loop frees
`arg_arr[i]` for every `i` below `arg_count`; `arg_arr` has `MAX_ARGS` slots, so slot `i` is
part of the struct only for `i < MAX_ARGS`. With a larger `arg_count` the loop reads and
frees what lies behind the array, which C leaves undefined (the process may end there). -/
def free_parsed_input (parsed_inp : Input) : Bool :=
  (List.range parsed_inp.arg_count.toNat).all (fun i => decide (i < MAX_ARGS))

/-- The loop of `validate_input` over the seven point fields of a file record. -/
def validate_file_points (inp : Input) : List Nat → Int
  | [] => 0
  | i :: rest =>
    if validate_points (inp.arg (i + 3)) < 0 then ERR_FILE_CORR
    else validate_file_points inp rest

def validate_input (parsed_inp : Input) : Int :=
  let command := parsed_inp.cmnd
  let arg_count := parsed_inp.arg_count
  if command ≠ NO_CMND_CHAR then
    if command = ADD then
      if arg_count > ADD_ARGS then ERR_TOO_MANY_ARGS
      else if arg_count < ADD_ARGS then ERR_TOO_FEW_ARGS
      else if validate_id (parsed_inp.arg 1) ≠ 0 then validate_id (parsed_inp.arg 1)
      else 0
    else if command = UPDATE then
      if arg_count > UPDATE_ARGS then ERR_TOO_MANY_ARGS
      else if arg_count < UPDATE_ARGS then ERR_TOO_FEW_ARGS
      else if validate_id (parsed_inp.arg 1) ≠ 0 then validate_id (parsed_inp.arg 1)
      else if validate_rounds (parsed_inp.arg 2) < 1 then validate_rounds (parsed_inp.arg 2)
      else if validate_points (parsed_inp.arg 3) < 0 then validate_points (parsed_inp.arg 3)
      else 0
    else if command = LIST then
      if arg_count > LIST_ARGS then ERR_TOO_MANY_ARGS else 0
    else if command = WRITE then
      if arg_count > WRITE_ARGS then ERR_TOO_MANY_ARGS
      else if arg_count < WRITE_ARGS then ERR_TOO_FEW_ARGS
      else if validate_filename (parsed_inp.arg 1) ≠ 0 then validate_filename (parsed_inp.arg 1)
      else 0
    else if command = LOAD then
      if arg_count > LOAD_ARGS then ERR_TOO_MANY_ARGS
      else if arg_count < LOAD_ARGS then ERR_TOO_FEW_ARGS
      else if validate_filename (parsed_inp.arg 1) ≠ 0 then validate_filename (parsed_inp.arg 1)
      else 0
    else if command = QUIT then
      if arg_count > QUIT_ARGS then ERR_TOO_MANY_ARGS else 0
    else ERR_UNKNOWN
  else
    if arg_count ≠ (MAX_ARGS : Int) then ERR_FILE_CORR
    else if validate_id (parsed_inp.arg 0) ≠ 0 then ERR_FILE_CORR
    else validate_file_points parsed_inp (List.range (EXCRS_RNDS + 1))

/-! ## Students and the ordering -/

/-- The array `int points[EXCRS_RNDS]` of a student. -/
structure Points where
  p0 : Int
  p1 : Int
  p2 : Int
  p3 : Int
  p4 : Int
  p5 : Int
  deriving DecidableEq, Repr

/-- The array read `points[i]`. -/
def Points.get (p : Points) (i : Nat) : Int :=
  match i with
  | 0 => p.p0
  | 1 => p.p1
  | 2 => p.p2
  | 3 => p.p3
  | 4 => p.p4
  | 5 => p.p5
  | _ => 0

/-- The array write `points[i] = v`. An index outside `0..5` is outside the array in C; the
model leaves the array as it is. -/
def Points.set (p : Points) (i : Int) (v : Int) : Points :=
  if i = 0 then { p with p0 := v }
  else if i = 1 then { p with p1 := v }
  else if i = 2 then { p with p2 := v }
  else if i = 3 then { p with p3 := v }
  else if i = 4 then { p with p4 := v }
  else if i = 5 then { p with p5 := v }
  else p

/-- The six zeros `init_student` writes. -/
def Points.zero : Points := ⟨0, 0, 0, 0, 0, 0⟩

/-- The C struct `Student` behind a pointer: each string may be NULL. The `next` field is
the position in the list. -/
structure Node where
  student_id : Option CStr
  lastname : Option CStr
  firstname : Option CStr
  points : Points
  deriving DecidableEq, Repr

/-- A student of the roster: a node as `init_student` builds it, all three strings set. -/
structure Student where
  student_id : CStr
  lastname : CStr
  firstname : CStr
  points : Points
  deriving DecidableEq, Repr

/-- The node of a student. -/
def Student.node (s : Student) : Node :=
  ⟨some s.student_id, some s.lastname, some s.firstname, s.points⟩

/-- The dummy head `init_linked_list` builds: the three strings NULL, the points array left
as allocated. -/
def list_head (uninit : Points) : Node := ⟨none, none, none, uninit⟩

def count_points (points : Points) : Int :=
  (List.range EXCRS_RNDS).foldl (fun acc i => acc + points.get i) 0

/-- The comparison; `none` is a NULL pointer. -/
def sort_students (a b : Option Node) : Int :=
  match a, b with
  | none, _ => 1
  | some _, none => -1
  | some a, some b =>
    if a.lastname = none ∧ a.firstname = none ∧ a.student_id = none then -1
    else if b.lastname = none ∧ b.firstname = none ∧ b.student_id = none then 1
    else if count_points a.points ≠ count_points b.points then
      (if count_points a.points > count_points b.points then -1 else 1)
    else
      match a.lastname, b.lastname with
      | none, _ => 1
      | some _, none => -1
      | some a_lname, some b_lname =>
        if strcmp a_lname b_lname ≠ 0 then strcmp a_lname b_lname
        else
          match a.firstname, b.firstname with
          | none, _ => 1
          | some _, none => -1
          | some a_fname, some b_fname =>
            if strcmp a_fname b_fname ≠ 0 then strcmp a_fname b_fname
            else
              match a.student_id, b.student_id with
              | none, _ => 1
              | some _, none => -1
              | some a_num, some b_num => strcmp a_num b_num

/-! ## The roster -/

def init_student (student_id lastname firstname : CStr) : Student :=
  ⟨student_id, lastname, firstname, Points.zero⟩

/-- The list after the head once `student` is linked in: it goes before the first node
`curr` for which `sort_students(curr, student) < 0` fails. -/
def place_into_list (student : Student) : List Student → List Student
  | [] => [student]
  | curr :: rest =>
    if sort_students (some curr.node) (some student.node) < 0 then
      curr :: place_into_list student rest
    else student :: curr :: rest

/-- The return value, and the list after the head afterwards. -/
def add_student (student_id lastname firstname : CStr) (students : List Student) :
    Int × List Student :=
  if students.any (fun curr => strcmp curr.student_id student_id = 0) then
    (ERR_STDNT_IN_LIST, students)
  else (0, place_into_list (init_student student_id lastname firstname) students)

/-- The search loop of `update_points`: the nodes before the first one with the given id,
that node, and the nodes after it. -/
def find_target (student_id : CStr) : List Student → Option (List Student × Student × List Student)
  | [] => none
  | trgt :: rest =>
    if strcmp trgt.student_id student_id ≠ 0 then
      match find_target student_id rest with
      | none => none
      | some (before, t, after) => some (trgt :: before, t, after)
    else some ([], trgt, rest)

/-- The return value, and the list after the head afterwards. -/
def update_points (student_id round points : CStr) (students : List Student) :
    Int × List Student :=
  match students with
  | [] => (ERR_UPD_PTS_ON_EMPT, [])
  | _ :: _ =>
    match find_target student_id students with
    | none => (ERR_STDNT_NOT_FND, students)
    | some (before, trgt, after) =>
      (0, place_into_list { trgt with points := trgt.points.set (atoi round - 1) (atoi points) }
            (before ++ after))

/-! ## Printing, writing and loading -/

/-- The text of one student: `"%s %s %s "`, six times `"%d "`, then the total and `"\n"`. -/
def student_line (student : Student) : CStr :=
  student.student_id ++ [' '] ++ student.lastname ++ [' '] ++ student.firstname ++ [' ']
    ++ ((List.range EXCRS_RNDS).map (fun i => print_int (student.points.get i) ++ [' '])).flatten
    ++ print_int (count_points student.points) ++ ['\n']

/-- A stream is NULL (`none`) or the text written to it so far. The result is the return
value and the stream afterwards. -/
def print_to_stream (stream : Option CStr) (student : Student) : Int × Option CStr :=
  match stream with
  | none => (ERR_NULL_STRM, none)
  | some text => (0, some (text ++ student_line student))

/-- The printing loop shared by `print_status` and `write_to_file`. -/
def print_all (stream : Option CStr) : List Student → Int × Option CStr
  | [] => (0, stream)
  | curr :: rest =>
    let r := print_to_stream stream curr
    if r.1 ≠ 0 then r else print_all r.2 rest

/-- The return value and what standard output (`out` before the call) holds afterwards. -/
def print_status (out : CStr) (students : List Student) : Int × CStr :=
  let r := print_all (some out) students
  (r.1, r.2.getD out)

/-- The return value, and the content of the file afterwards when it was opened.
`can_open` tells whether `fopen(filename, "w")` succeeds. -/
def write_to_file (can_open : Bool) (students : List Student) : Int × Option CStr :=
  match students with
  | [] => (ERR_WRT_EMPT_LST, none)
  | _ :: _ =>
    if !can_open then (ERR_FILE_OPEN, none)
    else
      let r := print_all (some []) students
      (r.1, r.2)

/-- The buffers successive `fgets(buffer, INPUT_BUFFER_SIZE, file)` calls fill: each ends
after a newline, after `room` more bytes, or at the end of the file. `cur` is the buffer
being filled, last byte first. -/
def fgets_all (room : Nat) (cur : List Char) : List Char → List (List Char)
  | [] => if cur.isEmpty then [] else [cur.reverse]
  | c :: cs =>
    if c = '\n' ∨ room ≤ 1 then (c :: cur).reverse :: fgets_all (INPUT_BUFFER_SIZE - 1) [] cs
    else fgets_all (room - 1) (c :: cur) cs

/-- The lines `load_file` sees: the `fgets` buffers, each read as a C string, so up to its
first NUL byte. -/
def file_lines (content : List Char) : List CStr :=
  (fgets_all (INPUT_BUFFER_SIZE - 1) [] content).map
    (fun buffer => buffer.takeWhile (fun c => c ≠ Char.ofNat 0))

/-- The `for` loop of `load_file` over the rounds `i`, which stops at the first error. -/
def load_points (inp : Input) : List Nat → List Student → Int × List Student
  | [], students => (0, students)
  | i :: rest, students =>
    let r := update_points (inp.arg 0) (print_int ((i : Int) + 1)) (inp.arg (3 + i)) students
    if r.1 ≠ 0 then r else load_points inp rest r.2

/-- The `while` loop of `load_file` over the lines still to read: the value of `err` when
the loop ends and the list built behind the head. The loop is entered with `err = 0`. The
calls of `free_parsed_input` change neither; whether they stay inside the struct, so
whether the loop reaches its end at all, is `load_lines_returns`. -/
def load_lines : List CStr → List Student → Int × List Student
  | [], students => (0, students)
  | buffer :: rest, students =>
    let p := parse_input buffer 0 false
    match p.1 with
    | none => (p.2, students)
    | some parsed_inp =>
      if validate_input parsed_inp ≠ 0 then (validate_input parsed_inp, students)
      else
        let a := add_student (parsed_inp.arg 0) (parsed_inp.arg 1) (parsed_inp.arg 2) students
        if a.1 ≠ 0 then (if a.1 = ERR_STDNT_IN_LIST then ERR_FILE_CORR else a.1, a.2)
        else
          let u := load_points parsed_inp (List.range EXCRS_RNDS) a.2
          if u.1 ≠ 0 then u else load_lines rest u.2

/-- The return value, and the list after the head afterwards. `file` is the content of the
named file, `none` when `fopen(filename, "r")` fails. -/
def load_file (file : Option (List Char)) (students : List Student) : Int × List Student :=
  match file with
  | none => (ERR_FILE_OPEN, students)
  | some content =>
    let r := load_lines (file_lines content) []
    if r.1 ≠ 0 then (r.1, students) else (0, r.2)

/-- Whether the `while` loop of `load_file` reaches its end, branch by branch as in
`load_lines`: every call of `free_parsed_input` it makes has to stay inside the struct. The
struct that `parse_input` returns in the special case of an invalid command character has
only `cmnd` set; `arg_count` and `arg_arr` are what `malloc` left there, so the call of
`free_parsed_input` that follows the failed validation is not defined. -/
def load_lines_returns : List CStr → List Student → Bool
  | [], _ => true
  | buffer :: rest, students =>
    let p := parse_input buffer 0 false
    match p.1 with
    | none => true
    | some parsed_inp =>
      if p.2 = ERR_INV_CMND_CHAR then false
      else if validate_input parsed_inp ≠ 0 then free_parsed_input parsed_inp
      else
        let a := add_student (parsed_inp.arg 0) (parsed_inp.arg 1) (parsed_inp.arg 2) students
        if a.1 ≠ 0 then free_parsed_input parsed_inp
        else
          let u := load_points parsed_inp (List.range EXCRS_RNDS) a.2
          free_parsed_input parsed_inp && (if u.1 ≠ 0 then true else load_lines_returns rest u.2)

/-- Whether `load_file` reaches one of its `return` statements. -/
def load_file_returns (file : Option (List Char)) : Bool :=
  match file with
  | none => true
  | some content => load_lines_returns (file_lines content) []

/-! ## The dispatcher -/

/-- The files `run` can reach: what `fopen(name, "r")` would read (`none` when it fails), and
whether `fopen(name, "w")` succeeds. -/
structure Files where
  read : CStr → Option (List Char)
  can_write : CStr → Bool

/-- What a call of `run` that returns leaves behind: the return value, the list after the
head, the text printed to standard output, and the file written (name and content), if any.
Whether the call returns (its `free_parsed_input` stays inside the struct) is
`run_returns`. -/
structure Outcome where
  ret : Int
  students : List Student
  out : CStr
  written : Option (CStr × CStr)

def run (files : Files) (input : CStr) (students : List Student) : Outcome :=
  let p := parse_input input 0 true
  match p.1 with
  | some parsed_inp =>
    if p.2 ≠ 0 then
      ⟨0, students, "Invalid command ".toList ++ [parsed_inp.cmnd, '\n'], none⟩
    else if validate_input parsed_inp ≠ 0 then ⟨validate_input parsed_inp, students, [], none⟩
    else if parsed_inp.cmnd = ADD then
      let r := add_student (parsed_inp.arg 1) (parsed_inp.arg 2) (parsed_inp.arg 3) students
      ⟨r.1, r.2, if r.1 = 0 then "SUCCESS\n".toList else [], none⟩
    else if parsed_inp.cmnd = UPDATE then
      let r := update_points (parsed_inp.arg 1) (parsed_inp.arg 2) (parsed_inp.arg 3) students
      ⟨r.1, r.2, if r.1 = 0 then "SUCCESS\n".toList else [], none⟩
    else if parsed_inp.cmnd = LIST then
      let r := print_status [] students
      ⟨r.1, students, if r.1 = 0 then r.2 ++ "SUCCESS\n".toList else r.2, none⟩
    else if parsed_inp.cmnd = WRITE then
      let r := write_to_file (files.can_write (parsed_inp.arg 1)) students
      ⟨r.1, students, if r.1 = 0 then "SUCCESS\n".toList else [],
        r.2.map (fun text => (parsed_inp.arg 1, text))⟩
    else if parsed_inp.cmnd = LOAD then
      let r := load_file (files.read (parsed_inp.arg 1)) students
      ⟨r.1, r.2, if r.1 = 0 then "SUCCESS\n".toList else [], none⟩
    else if parsed_inp.cmnd = QUIT then ⟨QUIT_FLAG, students, "SUCCESS\n".toList, none⟩
    else ⟨ERR_UNKNOWN, students, [], none⟩
  | none =>
    if p.2 ≠ 0 then ⟨p.2, students, [], none⟩ else ⟨ERR_UNKNOWN, students, [], none⟩

/-- Whether `run` reaches one of its `return` statements. In the special case of an invalid
command character `run` calls `free` on the struct alone; after a failed validation and
after the `switch` it calls `free_parsed_input`. -/
def run_returns (files : Files) (input : CStr) : Bool :=
  let p := parse_input input 0 true
  match p.1 with
  | some parsed_inp =>
    if p.2 ≠ 0 then true
    else if validate_input parsed_inp ≠ 0 then free_parsed_input parsed_inp
    else
      (if parsed_inp.cmnd = LOAD then load_file_returns (files.read (parsed_inp.arg 1))
        else true) && free_parsed_input parsed_inp
  | none => true

/-! ## Vocabulary of the claims -/

/-- Byte-wise (lexicographic, unsigned) order of two strings. -/
def byte_less (a b : CStr) : Prop :=
  List.Lex (fun x y : Nat => x < y) (a.map Char.toNat) (b.map Char.toNat)

/-- The student `a` is ordered before `b`: `sort_students(a, b) < 0`. -/
def before (a b : Student) : Prop := sort_students (some a.node) (some b.node) < 0

instance (a b : Student) : Decidable (before a b) := by unfold before; infer_instance

/-- The roster is ordered by `sort_students`, for all pairs. -/
def Sorted (students : List Student) : Prop := students.Pairwise before

/-- No two students of the roster share an id. -/
def DistinctIds (students : List Student) : Prop :=
  (students.map (fun s => s.student_id)).Nodup

/-- The student an update leaves: `points[round - 1] = points` written. -/
def updated (t : Student) (round points : CStr) : Student :=
  { t with points := t.points.set (atoi round - 1) (atoi points) }

/-- Token `i` of a line (empty when the line has fewer tokens). -/
def field (line : CStr) (i : Nat) : CStr := (tokens line).getD i []

/-- The line starts with an upper-case letter other than the six command characters,
followed by a white-space character. -/
def starts_unknown_command (line : CStr) : Bool :=
  isupper (charAt line 0) && isspace (charAt line 1) &&
    !(['A', 'U', 'L', 'W', 'O', 'Q'].contains (charAt line 0))

/-- A valid record line: exactly ten fields, field 0 passes `validate_id` and fields 3 to 9
pass `validate_points`. -/
def valid_record (line : CStr) : Bool :=
  decide ((tokens line).length = 10) && decide (validate_id (field line 0) = 0) &&
    (List.range 7).all (fun i => decide (0 ≤ validate_points (field line (3 + i))))

/-- The student a record line describes: fields 0, 1, 2 and the integer values of fields
3 to 8. -/
def record_of (line : CStr) : Student :=
  ⟨field line 0, field line 1, field line 2,
    ⟨atoi (field line 3), atoi (field line 4), atoi (field line 5), atoi (field line 6),
      atoi (field line 7), atoi (field line 8)⟩⟩

/-- The first line that is not a valid record or repeats the id of an earlier line (`seen`
holds the ids of the lines before). -/
def first_bad (seen : List CStr) : List CStr → Option CStr
  | [] => none
  | line :: rest =>
    if valid_record line = true ∧ field line 0 ∉ seen then first_bad (field line 0 :: seen) rest
    else some line

/-- The student after the updates of `load_points` for the rounds `is`. -/
def load_points_student (inp : Input) (is : List Nat) (t : Student) : Student :=
  is.foldl (fun t (i : Nat) => updated t (print_int ((i : Int) + 1)) (inp.arg (3 + i))) t

/-- The error a line that stops the loading loop leaves in `err`. -/
def line_error (line : CStr) : Int :=
  if line.length ≤ 1 then ERR_FILE_CORR
  else if starts_unknown_command line then ERR_UNKNOWN
  else if tokens line = [] then ERR_NON_VIABLE_INP
  else ERR_FILE_CORR

instance (l : List Student) : Decidable (Sorted l) := by unfold Sorted; infer_instance

instance (l : List Student) : Decidable (DistinctIds l) := by unfold DistinctIds; infer_instance

/-- A file system with one readable file content under every name, where every file can be
opened for writing. -/
def Files.single (content : List Char) : Files := ⟨fun _ => some content, fun _ => true⟩

/-! ## Vocabulary of the claims on validation and parsing -/

/-- The number a non-empty string of decimal digits denotes; `none` for any other string. -/
def digits_value (ds : CStr) : Option Nat :=
  if ds ≠ [] ∧ ds.all Char.isDigit = true then
    some (ds.foldl (fun acc c => acc * 10 + (c.toNat - 48)) 0)
  else none

/-- The integer a string denotes when it is, in its entirety, a base-10 integer: an optional
sign `+` or `-` followed by one or more decimal digits; `none` for any other string. -/
def integer_value (s : CStr) : Option Int :=
  match s with
  | '-' :: ds => (digits_value ds).map (fun n : Nat => -(n : Int))
  | '+' :: ds => (digits_value ds).map (fun n : Nat => (n : Int))
  | ds => (digits_value ds).map (fun n : Nat => (n : Int))

/-- The white-space characters of the C locale: space, `\t`, `\n`, `\v`, `\f`, `\r`. -/
def white_space : List Char :=
  [' ', '\t', '\n', Char.ofNat 11, Char.ofNat 12, '\r']

/-- The six command characters. -/
def command_chars : List Char := ['A', 'U', 'L', 'W', 'O', 'Q']

/-! ## Vocabulary of the claims on dispatch, writing and the roster algebra -/

/-- The number of tokens each command takes, the command token counted: `A` 4, `U` 4,
`L` 1, `W` 2, `O` 2, `Q` 1. -/
def expected_args (command : Char) : Int :=
  if command = 'A' then 4
  else if command = 'U' then 4
  else if command = 'L' then 1
  else if command = 'W' then 2
  else if command = 'O' then 2
  else 1

/-- The record line of a student as the file format gives it: id, last name, first name,
the six round values and their sum, in decimal, single spaces between them and a newline
at the end. -/
def record_line (s : Student) : CStr :=
  s.student_id ++ " ".toList ++ s.lastname ++ " ".toList ++ s.firstname ++ " ".toList ++
    (toString s.points.p0).toList ++ " ".toList ++ (toString s.points.p1).toList ++ " ".toList ++
    (toString s.points.p2).toList ++ " ".toList ++ (toString s.points.p3).toList ++ " ".toList ++
    (toString s.points.p4).toList ++ " ".toList ++ (toString s.points.p5).toList ++ " ".toList ++
    (toString (s.points.p0 + s.points.p1 + s.points.p2 + s.points.p3 + s.points.p4 +
      s.points.p5)).toList ++ "\n".toList

/-- The list is ordered by `sort_students` in the weak sense: no student stands before one
that sorts before it. -/
def WeaklySorted (students : List Student) : Prop :=
  students.Pairwise (fun a b => sort_students (some a.node) (some b.node) ≤ 0)

instance (l : List Student) : Decidable (WeaklySorted l) := by
  unfold WeaklySorted; infer_instance

/-- Each of the six round values lies in `[0, 999]`. -/
def points_in_range (p : Points) : Prop := ∀ i, i < 6 → 0 ≤ p.get i ∧ p.get i ≤ 999

/-- The roster after a sequence of `run` calls, each with its line and the files it finds. -/
def run_all (steps : List (Files × CStr)) (students : List Student) : List Student :=
  steps.foldl (fun st step => (run step.1 step.2 st).students) students

/-! # Theorems -/

/-! ## Strings -/

theorem char_eq_of_toNat_eq {a b : Char} (h : a.toNat = b.toNat) : a = b := by
  rw [← Char.ofNat_toNat a, ← Char.ofNat_toNat b, h]

theorem strcmp_self (a : CStr) : strcmp a a = 0 := by
  induction a with
  | nil => rfl
  | cons c cs ih => simp [strcmp, ih]

theorem strcmp_eq_zero_iff (a b : CStr) : strcmp a b = 0 ↔ a = b := by
  induction a generalizing b with
  | nil => cases b <;> simp [strcmp]
  | cons c cs ih =>
    cases b with
    | nil => simp [strcmp]
    | cons d ds =>
      by_cases h : c = d
      · simp [strcmp, h, ih]
      · by_cases h2 : c.toNat < d.toNat <;> simp [strcmp, h, h2]

theorem strcmp_swap (a b : CStr) : strcmp b a = -strcmp a b := by
  induction a generalizing b with
  | nil => cases b <;> simp [strcmp]
  | cons c cs ih =>
    cases b with
    | nil => simp [strcmp]
    | cons d ds =>
      by_cases h : c = d
      · subst h; simp [strcmp, ih]
      · have h1 : ¬ d = c := fun e => h e.symm
        have h2 : c.toNat ≠ d.toNat := fun e => h (char_eq_of_toNat_eq e)
        by_cases h3 : c.toNat < d.toNat
        · have h4 : ¬ d.toNat < c.toNat := by omega
          simp [strcmp, h, h1, h3, h4]
        · have h4 : d.toNat < c.toNat := by omega
          simp [strcmp, h, h1, h3, h4]

theorem lex_cons_cons (x y : Nat) (xs ys : List Nat) :
    List.Lex (fun x y : Nat => x < y) (x :: xs) (y :: ys) ↔
      x < y ∨ (x = y ∧ List.Lex (fun x y : Nat => x < y) xs ys) := by
  constructor
  · intro h
    cases h with
    | cons h => exact Or.inr ⟨rfl, h⟩
    | rel h => exact Or.inl h
  · rintro (h | ⟨rfl, h⟩)
    · exact List.Lex.rel h
    · exact List.Lex.cons h

theorem strcmp_neg_iff (a b : CStr) : strcmp a b < 0 ↔ byte_less a b := by
  unfold byte_less
  induction a generalizing b with
  | nil =>
    cases b with
    | nil => simp [strcmp, List.Lex.not_nil_right]
    | cons d ds => simp [strcmp, List.Lex.nil]
  | cons c cs ih =>
    cases b with
    | nil => simp [strcmp, List.Lex.not_nil_right]
    | cons d ds =>
      rw [List.map_cons, List.map_cons, lex_cons_cons]
      by_cases h : c = d
      · subst h
        have : strcmp (c :: cs) (c :: ds) = strcmp cs ds := by simp [strcmp]
        rw [this, ih]
        simp
      · have h2 : c.toNat ≠ d.toNat := fun e => h (char_eq_of_toNat_eq e)
        by_cases h3 : c.toNat < d.toNat
        · simp [strcmp, h, h3]
        · simp [strcmp, h, h3, h2]

theorem strcmp_pos_iff (a b : CStr) : 0 < strcmp a b ↔ byte_less b a := by
  rw [← strcmp_neg_iff, strcmp_swap a b]; omega

theorem strcmp_trans {a b c : CStr} (h1 : strcmp a b < 0) (h2 : strcmp b c < 0) :
    strcmp a c < 0 := by
  induction a generalizing b c with
  | nil =>
    cases c with
    | nil => cases b <;> simp [strcmp] at h1 h2
    | cons z zs => simp [strcmp]
  | cons x xs ih =>
    cases b with
    | nil => simp [strcmp] at h1
    | cons y ys =>
      cases c with
      | nil => simp [strcmp] at h2
      | cons z zs =>
        by_cases hxy : x = y
        · subst hxy
          by_cases hxz : x = z
          · subst hxz
            simp only [strcmp, if_true] at h1 h2 ⊢
            exact ih h1 h2
          · simp only [strcmp, if_true] at h1
            simp only [strcmp, hxz, if_false] at h2 ⊢
            exact h2
        · by_cases hyz : y = z
          · subst hyz
            simp only [strcmp, hxy, if_false] at h1 ⊢
            exact h1
          · have hxy2 : x.toNat < y.toNat := by
              by_contra hc; simp [strcmp, hxy, hc] at h1
            have hyz2 : y.toNat < z.toNat := by
              by_contra hc; simp [strcmp, hyz, hc] at h2
            have hxz : x ≠ z := by
              intro e; subst e; omega
            have hxz2 : x.toNat < z.toNat := by omega
            simp [strcmp, hxz, hxz2]

/-! ## The ordering on students -/

theorem sort_students_real (a b : Student) :
    sort_students (some a.node) (some b.node) =
      if count_points a.points ≠ count_points b.points then
        (if count_points a.points > count_points b.points then -1 else 1)
      else if strcmp a.lastname b.lastname ≠ 0 then strcmp a.lastname b.lastname
      else if strcmp a.firstname b.firstname ≠ 0 then strcmp a.firstname b.firstname
      else strcmp a.student_id b.student_id := by
  simp [sort_students, Student.node]

theorem before_iff (a b : Student) :
    before a b ↔
      count_points a.points > count_points b.points ∨
      (count_points a.points = count_points b.points ∧
        (strcmp a.lastname b.lastname < 0 ∨
          (a.lastname = b.lastname ∧
            (strcmp a.firstname b.firstname < 0 ∨
              (a.firstname = b.firstname ∧ strcmp a.student_id b.student_id < 0))))) := by
  unfold before
  rw [sort_students_real]
  by_cases ht : count_points a.points = count_points b.points
  · by_cases hl : a.lastname = b.lastname
    · by_cases hf : a.firstname = b.firstname
      · simp [ht, hl, hf, strcmp_self]
      · have hf0 : strcmp a.firstname b.firstname ≠ 0 := fun e => hf ((strcmp_eq_zero_iff _ _).1 e)
        simp [ht, hl, hf, hf0, strcmp_self]
    · have hl0 : strcmp a.lastname b.lastname ≠ 0 := fun e => hl ((strcmp_eq_zero_iff _ _).1 e)
      simp [ht, hl, hl0]
  · by_cases hgt : count_points a.points > count_points b.points
    · simp [ht, hgt]
    · simp [ht, hgt]

theorem sort_students_swap (a b : Student) :
    sort_students (some b.node) (some a.node) = -sort_students (some a.node) (some b.node) := by
  rw [sort_students_real, sort_students_real, strcmp_swap a.lastname b.lastname,
    strcmp_swap a.firstname b.firstname, strcmp_swap a.student_id b.student_id]
  by_cases ht : count_points a.points = count_points b.points
  · simp only [ht, ne_eq, not_true_eq_false, if_false, neg_eq_zero]
    split_ifs <;> rfl
  · have ht2 : ¬ count_points b.points = count_points a.points := fun e => ht e.symm
    simp only [ne_eq, ht, ht2, not_false_eq_true, if_true]
    split_ifs <;> first | rfl | omega

theorem sort_students_eq_zero_iff (a b : Student) :
    sort_students (some a.node) (some b.node) = 0 ↔
      count_points a.points = count_points b.points ∧ a.lastname = b.lastname ∧
        a.firstname = b.firstname ∧ a.student_id = b.student_id := by
  rw [sort_students_real]
  by_cases ht : count_points a.points = count_points b.points
  · by_cases hl : a.lastname = b.lastname
    · by_cases hf : a.firstname = b.firstname
      · simp [ht, hl, hf, strcmp_self, strcmp_eq_zero_iff]
      · have hf0 : strcmp a.firstname b.firstname ≠ 0 := fun e => hf ((strcmp_eq_zero_iff _ _).1 e)
        simp [ht, hl, hf, hf0, strcmp_self]
    · have hl0 : strcmp a.lastname b.lastname ≠ 0 := fun e => hl ((strcmp_eq_zero_iff _ _).1 e)
      simp [ht, hl, hl0]
  · by_cases hgt : count_points a.points > count_points b.points
    · simp [ht, hgt]
    · simp [ht, hgt]

theorem before_trans {a b c : Student} (h1 : before a b) (h2 : before b c) : before a c := by
  rw [before_iff] at h1 h2 ⊢
  rcases h1 with h1 | ⟨e1, h1⟩
  · rcases h2 with h2 | ⟨e2, _⟩
    · left; omega
    · left; omega
  · rcases h2 with h2 | ⟨e2, h2⟩
    · left; omega
    · right
      refine ⟨by omega, ?_⟩
      rcases h1 with h1 | ⟨l1, h1⟩
      · rcases h2 with h2 | ⟨l2, _⟩
        · exact Or.inl (strcmp_trans h1 h2)
        · left; rw [← l2]; exact h1
      · rcases h2 with h2 | ⟨l2, h2⟩
        · left; rw [l1]; exact h2
        · right
          refine ⟨l1.trans l2, ?_⟩
          rcases h1 with h1 | ⟨f1, h1⟩
          · rcases h2 with h2 | ⟨f2, _⟩
            · exact Or.inl (strcmp_trans h1 h2)
            · left; rw [← f2]; exact h1
          · rcases h2 with h2 | ⟨f2, h2⟩
            · left; rw [f1]; exact h2
            · exact Or.inr ⟨f1.trans f2, strcmp_trans h1 h2⟩

theorem before_asymm {a b : Student} (h1 : before a b) : ¬ before b a := by
  unfold before at *
  rw [sort_students_swap]; omega

theorem before_of_not_before {a b : Student} (hid : a.student_id ≠ b.student_id)
    (h : ¬ before a b) : before b a := by
  unfold before at *
  have h0 : sort_students (some a.node) (some b.node) ≠ 0 := by
    intro e
    exact hid ((sort_students_eq_zero_iff a b).1 e).2.2.2
  rw [sort_students_swap]; omega

theorem before_antisymm : IsAntisymm Student before :=
  ⟨fun _ _ h1 h2 => absurd h2 (before_asymm h1)⟩

/-! ## Insertion, add and update -/

theorem place_into_list_split (s : Student) (l : List Student) :
    ∃ l1 l2, l = l1 ++ l2 ∧ place_into_list s l = l1 ++ s :: l2 ∧
      (∀ c ∈ l1, before c s) ∧ (∀ c, l2.head? = some c → ¬ before c s) := by
  induction l with
  | nil => exact ⟨[], [], rfl, rfl, by simp, by simp⟩
  | cons c rest ih =>
    by_cases h : before c s
    · obtain ⟨l1, l2, e1, e2, h1, h2⟩ := ih
      refine ⟨c :: l1, l2, by simp [e1], ?_, ?_, h2⟩
      · have h' : sort_students (some c.node) (some s.node) < 0 := h
        simp [place_into_list, h', e2]
      · intro x hx
        rcases List.mem_cons.1 hx with rfl | hx
        · exact h
        · exact h1 x hx
    · refine ⟨[], c :: rest, rfl, ?_, by simp, ?_⟩
      · have h' : ¬ sort_students (some c.node) (some s.node) < 0 := h
        simp [place_into_list, h']
      · intro x hx
        simp at hx
        subst hx
        exact h

theorem place_into_list_perm (s : Student) (l : List Student) :
    (place_into_list s l).Perm (s :: l) := by
  obtain ⟨l1, l2, e1, e2, _, _⟩ := place_into_list_split s l
  rw [e2, e1]
  exact List.perm_middle

theorem place_into_list_sorted (s : Student) (l : List Student) (hs : Sorted l)
    (hid : ∀ c ∈ l, c.student_id ≠ s.student_id) : Sorted (place_into_list s l) := by
  unfold Sorted at *
  induction l with
  | nil => simp [place_into_list]
  | cons c rest ih =>
    have hc := List.pairwise_cons.1 hs
    by_cases h : before c s
    · have h' : sort_students (some c.node) (some s.node) < 0 := h
      simp only [place_into_list, h', if_true]
      refine List.pairwise_cons.2 ⟨?_, ih hc.2 (fun x hx => hid x (List.mem_cons_of_mem _ hx))⟩
      intro x hx
      rcases List.mem_cons.1 ((place_into_list_perm s rest).mem_iff.1 hx) with rfl | hx
      · exact h
      · exact hc.1 x hx
    · have h' : ¬ sort_students (some c.node) (some s.node) < 0 := h
      simp only [place_into_list, h', if_false]
      have hsc : before s c :=
        before_of_not_before (hid c (List.mem_cons_self _ _)) h
      refine List.pairwise_cons.2 ⟨?_, hs⟩
      intro x hx
      rcases List.mem_cons.1 hx with rfl | hx
      · exact hsc
      · exact before_trans hsc (hc.1 x hx)

theorem distinct_of_perm {l1 l2 : List Student} (hp : l1.Perm l2) (hd : DistinctIds l2) :
    DistinctIds l1 := by
  unfold DistinctIds at *
  exact ((hp.map _).nodup_iff).2 hd

theorem distinct_cons (s : Student) (l : List Student) :
    DistinctIds (s :: l) ↔ (∀ c ∈ l, c.student_id ≠ s.student_id) ∧ DistinctIds l := by
  unfold DistinctIds
  rw [List.map_cons, List.nodup_cons]
  constructor
  · rintro ⟨h1, h2⟩
    refine ⟨fun c hc e => h1 ?_, h2⟩
    rw [← e]
    exact List.mem_map_of_mem _ hc
  · rintro ⟨h1, h2⟩
    refine ⟨fun hm => ?_, h2⟩
    obtain ⟨c, hc, e⟩ := List.mem_map.1 hm
    exact h1 c hc e

theorem place_into_list_distinct (s : Student) (l : List Student) (hd : DistinctIds l)
    (hid : ∀ c ∈ l, c.student_id ≠ s.student_id) : DistinctIds (place_into_list s l) :=
  distinct_of_perm (place_into_list_perm s l) ((distinct_cons s l).2 ⟨hid, hd⟩)

theorem any_id_iff (student_id : CStr) (l : List Student) :
    l.any (fun curr => strcmp curr.student_id student_id = 0) = true ↔
      ∃ s ∈ l, s.student_id = student_id := by
  simp [List.any_eq_true, strcmp_eq_zero_iff]

theorem add_student_dup (student_id lastname firstname : CStr) (l : List Student)
    (h : ∃ s ∈ l, s.student_id = student_id) :
    add_student student_id lastname firstname l = (ERR_STDNT_IN_LIST, l) := by
  have := (any_id_iff student_id l).2 h
  simp [add_student, this]

theorem add_student_new (student_id lastname firstname : CStr) (l : List Student)
    (h : ∀ s ∈ l, s.student_id ≠ student_id) :
    add_student student_id lastname firstname l =
      (0, place_into_list (init_student student_id lastname firstname) l) := by
  have : ¬ (l.any (fun curr => strcmp curr.student_id student_id = 0) = true) := by
    rw [any_id_iff]
    rintro ⟨s, hs, e⟩
    exact h s hs e
  simp [add_student, this]

theorem find_target_none (student_id : CStr) (l : List Student) :
    find_target student_id l = none ↔ ∀ s ∈ l, s.student_id ≠ student_id := by
  induction l with
  | nil => simp [find_target]
  | cons c rest ih =>
    by_cases h : c.student_id = student_id
    · simp [find_target, h, strcmp_self]
    · have h0 : strcmp c.student_id student_id ≠ 0 := fun e => h ((strcmp_eq_zero_iff _ _).1 e)
      simp only [find_target, h0, ne_eq, not_false_eq_true, if_true, List.mem_cons, forall_eq_or_imp]
      cases hf : find_target student_id rest with
      | none => simpa [h] using ih.1 hf
      | some r =>
        obtain ⟨b, t, a⟩ := r
        simp only [false_iff, not_and, reduceCtorEq]
        intro _ hall
        rw [ih.2 hall] at hf
        cases hf

theorem find_target_some (student_id : CStr) (l : List Student) (b a : List Student)
    (t : Student) (h : find_target student_id l = some (b, t, a)) :
    l = b ++ t :: a ∧ t.student_id = student_id ∧ ∀ s ∈ b, s.student_id ≠ student_id := by
  induction l generalizing b with
  | nil => simp [find_target] at h
  | cons c rest ih =>
    by_cases hc : c.student_id = student_id
    · simp [find_target, hc, strcmp_self] at h
      obtain ⟨rfl, rfl, rfl⟩ := h
      simp [hc]
    · have h0 : strcmp c.student_id student_id ≠ 0 := fun e => hc ((strcmp_eq_zero_iff _ _).1 e)
      simp only [find_target, h0, ne_eq, not_false_eq_true, if_true] at h
      cases hf : find_target student_id rest with
      | none => simp [hf] at h
      | some r =>
        obtain ⟨b1, t1, a1⟩ := r
        simp only [hf, Option.some.injEq, Prod.mk.injEq] at h
        obtain ⟨rfl, rfl, rfl⟩ := h
        obtain ⟨e1, e2, e3⟩ := ih b1 hf
        refine ⟨by simp [e1], e2, ?_⟩
        intro s hs
        rcases List.mem_cons.1 hs with rfl | hs
        · exact hc
        · exact e3 s hs

theorem update_points_found (student_id round points : CStr) (l b a : List Student)
    (t : Student) (h : find_target student_id l = some (b, t, a)) :
    update_points student_id round points l =
      (0, place_into_list (updated t round points) (b ++ a)) := by
  cases l with
  | nil => simp [find_target] at h
  | cons c rest => simp [update_points, h, updated]

theorem update_points_absent (student_id round points : CStr) (l : List Student)
    (h : ∀ s ∈ l, s.student_id ≠ student_id) :
    update_points student_id round points l =
      (if l = [] then ERR_UPD_PTS_ON_EMPT else ERR_STDNT_NOT_FND, l) := by
  cases l with
  | nil => simp [update_points]
  | cons c rest => simp [update_points, (find_target_none student_id (c :: rest)).2 h]

/-- With distinct ids, the search finds the one student carrying the id, wherever the roster
is split around it. -/
theorem find_target_of_split (student_id : CStr) (l1 l2 : List Student) (t : Student)
    (ht : t.student_id = student_id) (hd : DistinctIds (l1 ++ t :: l2)) :
    find_target student_id (l1 ++ t :: l2) = some (l1, t, l2) := by
  induction l1 with
  | nil => simp [find_target, ht, strcmp_self]
  | cons c rest ih =>
    have hd' := (distinct_cons c (rest ++ t :: l2)).1 hd
    have hc : c.student_id ≠ student_id := by
      intro e
      exact hd'.1 t (by simp) (by rw [ht, e])
    have h0 : strcmp c.student_id student_id ≠ 0 := fun e => hc ((strcmp_eq_zero_iff _ _).1 e)
    simp [find_target, h0, ih hd'.2]

theorem validate_int_input_cases (str : CStr) (allow_neg : Bool) :
    validate_int_input str allow_neg = ERR_INT_CNV ∨
    validate_int_input str allow_neg = ERR_INT_OOB ∨
    validate_int_input str allow_neg = ERR_INT_NEG ∨
    (validate_int_input str allow_neg = (strtol str).1 ∧ INT_MIN ≤ (strtol str).1 ∧
      (strtol str).1 ≤ INT_MAX) := by
  unfold validate_int_input
  simp only
  split_ifs with h1 h2 h3
  · exact Or.inl rfl
  · exact Or.inr (Or.inl rfl)
  · exact Or.inr (Or.inr (Or.inl rfl))
  · refine Or.inr (Or.inr (Or.inr ⟨rfl, ?_, ?_⟩)) <;> omega

theorem validate_points_ok (str : CStr) (h : 0 ≤ validate_points str) :
    validate_points str = atoi str ∧ atoi str ≤ 999 := by
  unfold validate_points at h ⊢
  simp only at h ⊢
  unfold atoi long_to_int
  rcases validate_int_input_cases str false with e | e | e | ⟨e, h1, h2⟩
  · rw [e] at h; simp [ERR_INT_CNV, ERR_POINTS_CNV, INT_MIN] at h
  · rw [e] at h; simp [ERR_INT_CNV, ERR_INT_OOB, INT_ERR_BOUND, INT_MIN] at h
  · rw [e] at h; simp [ERR_INT_CNV, ERR_INT_NEG, INT_ERR_BOUND, INT_MIN] at h
  · rw [e] at h ⊢
    simp only [ERR_INT_CNV, ERR_POINTS_CNV, INT_ERR_BOUND, INT_MIN, INT_MAX, EXCRS_PTS,
      ERR_PTS_OOB] at h h1 h2 ⊢
    split_ifs at h ⊢ with c1 c2 c3
    · omega
    · omega
    · omega
    · omega

theorem validate_rounds_ok (str : CStr) (h : 1 ≤ validate_rounds str) :
    validate_rounds str = atoi str ∧ 1 ≤ atoi str ∧ atoi str ≤ 6 := by
  unfold validate_rounds at h ⊢
  simp only at h ⊢
  unfold atoi long_to_int
  rcases validate_int_input_cases str false with e | e | e | ⟨e, h1, h2⟩
  · rw [e] at h; simp [ERR_INT_CNV, ERR_ROUND_CNV, INT_MIN] at h
  · rw [e] at h; simp [ERR_INT_CNV, ERR_INT_OOB, INT_ERR_BOUND, INT_MIN] at h
  · rw [e] at h; simp [ERR_INT_CNV, ERR_INT_NEG, INT_ERR_BOUND, INT_MIN] at h
  · rw [e] at h ⊢
    simp only [ERR_INT_CNV, ERR_ROUND_CNV, INT_ERR_BOUND, INT_MIN, INT_MAX, EXCRS_RNDS,
      ERR_RND_NUM_OOB, Nat.cast_ofNat] at h h1 h2 ⊢
    split_ifs at h ⊢ with c1 c2 c3
    · omega
    · omega
    · omega
    · omega

theorem arg_of_slots (n : Int) (c : Char) (toks : List CStr) (i : Nat) (hi : i < 10) :
    Input.arg ⟨n, c, (List.range MAX_ARGS).map (fun i => toks[i]?)⟩ i = toks.getD i [] := by
  have : i < MAX_ARGS := hi
  simp [Input.arg, List.getD, List.getElem?_map, List.getElem?_range, this]

theorem parse_command_snd (line : CStr) :
    (parse_command line 0).2 = if starts_unknown_command line then ERR_INV_CMND_CHAR else 0 := by
  unfold parse_command starts_unknown_command
  simp only [ADD, UPDATE, LIST, WRITE, LOAD, QUIT]
  by_cases h1 : isupper (charAt line 0) = true <;> by_cases h2 : isspace (charAt line 1) = true <;>
    simp [h1, h2]
  split_ifs <;> simp_all

theorem parse_file_short (line : CStr) (h : line.length ≤ 1) :
    parse_input line 0 false = (none, ERR_FILE_CORR) := by
  simp [parse_input, h]

theorem parse_file_unknown (line : CStr) (h : 1 < line.length)
    (hu : starts_unknown_command line = true) :
    ∃ inp : Input, parse_input line 0 false = (some inp, ERR_INV_CMND_CHAR) ∧
      validate_input inp = ERR_UNKNOWN := by
  have h' : ¬ line.length ≤ 1 := by omega
  have hp := parse_command_snd line
  rw [hu] at hp
  simp only [if_true] at hp
  refine ⟨⟨0, (parse_command line 0).1, List.replicate MAX_ARGS none⟩, ?_, ?_⟩
  · simp only [parse_input, h', hp, if_true, if_false]
  have hc : (parse_command line 0).1 = charAt line 0 := by
    unfold starts_unknown_command at hu
    unfold parse_command
    simp only [ADD, UPDATE, LIST, WRITE, LOAD, QUIT]
    simp at hu
    simp [hu]
  unfold starts_unknown_command at hu
  simp at hu
  have hstar : charAt line 0 ≠ '*' := by
    intro e
    have := hu.1.1
    rw [e] at this
    simp [isupper] at this
  simp [validate_input, hc, NO_CMND_CHAR, ADD, UPDATE, LIST, WRITE, LOAD, QUIT, hu, hstar]

theorem parse_file_no_token (line : CStr) (h : 1 < line.length)
    (hu : starts_unknown_command line = false) (ht : tokens line = []) :
    parse_input line 0 false = (none, ERR_NON_VIABLE_INP) := by
  have h' : ¬ line.length ≤ 1 := by omega
  have hp := parse_command_snd line
  rw [hu] at hp
  simp [parse_input, h', hp, count_arguments, ht, ERR_INV_CMND_CHAR, ERR_NON_VIABLE_INP]

theorem parse_file_tokens (line : CStr) (h : 1 < line.length)
    (hu : starts_unknown_command line = false) (ht : tokens line ≠ []) :
    parse_input line 0 false =
      (some ⟨((tokens line).length : Int), NO_CMND_CHAR,
        (List.range MAX_ARGS).map (fun i => (tokens line)[i]?)⟩, 0) := by
  have h' : ¬ line.length ≤ 1 := by omega
  have hp := parse_command_snd line
  rw [hu] at hp
  have hc : count_arguments line = ((tokens line).length : Int) := by
    unfold count_arguments
    cases hx : tokens line with
    | nil => exact absurd hx ht
    | cons t ts => rfl
  have hn : ¬ ((tokens line).length : Int) < 0 := by omega
  simp [parse_input, h', hp, hc, ERR_INV_CMND_CHAR, hn]

theorem validate_file_points_cases (inp : Input) (is : List Nat) :
    (validate_file_points inp is = 0 ∧ ∀ i ∈ is, 0 ≤ validate_points (inp.arg (i + 3))) ∨
    (validate_file_points inp is = ERR_FILE_CORR ∧
      ∃ i ∈ is, validate_points (inp.arg (i + 3)) < 0) := by
  induction is with
  | nil => simp [validate_file_points]
  | cons i rest ih =>
    by_cases h : validate_points (inp.arg (i + 3)) < 0
    · right
      simp [validate_file_points, h]
    · rcases ih with ⟨e, hall⟩ | ⟨e, hex⟩
      · left
        simp only [validate_file_points, h, if_false, e, true_and]
        intro j hj
        rcases List.mem_cons.1 hj with rfl | hj
        · omega
        · exact hall j hj
      · right
        simp only [validate_file_points, h, if_false, e, true_and]
        obtain ⟨j, hj, hlt⟩ := hex
        exact ⟨j, List.mem_cons_of_mem _ hj, hlt⟩

theorem validate_file_record (line : CStr) :
    validate_input ⟨((tokens line).length : Int), NO_CMND_CHAR,
        (List.range MAX_ARGS).map (fun i => (tokens line)[i]?)⟩ =
      if valid_record line then 0 else ERR_FILE_CORR := by
  set inp : Input := ⟨((tokens line).length : Int), NO_CMND_CHAR,
        (List.range MAX_ARGS).map (fun i => (tokens line)[i]?)⟩ with hinp
  have harg : ∀ i, i < 10 → inp.arg i = field line i := fun i hi =>
    arg_of_slots _ _ _ i hi
  unfold validate_input valid_record
  simp only [hinp, ne_eq, not_true_eq_false, if_false]
  rw [← hinp, harg 0 (by omega)]
  by_cases h10 : (tokens line).length = 10
  · by_cases hid : validate_id (field line 0) = 0
    · have h10' : ((tokens line).length : Int) = (MAX_ARGS : Int) := by
        simp [h10, MAX_ARGS]
      simp only [h10', not_true_eq_false, if_false, hid, h10, decide_True, Bool.true_and,
        MAX_ARGS, Nat.cast_ofNat]
      rcases validate_file_points_cases inp (List.range (EXCRS_RNDS + 1)) with ⟨e, hall⟩ | ⟨e, hex⟩
      · rw [e]
        have : (List.range 7).all
            (fun i => decide (0 ≤ validate_points (field line (3 + i)))) = true := by
          rw [List.all_eq_true]
          intro i hi
          have hi' : i < 7 := List.mem_range.1 hi
          have := hall i (by simpa [EXCRS_RNDS] using hi')
          rw [harg (i + 3) (by omega)] at this
          rw [Nat.add_comm 3 i]
          simpa using this
        simp [this]
      · rw [e]
        have : ¬ ((List.range 7).all
            (fun i => decide (0 ≤ validate_points (field line (3 + i)))) = true) := by
          rw [List.all_eq_true]
          intro hall
          obtain ⟨i, hi, hlt⟩ := hex
          have hi' : i < 7 := by simpa [EXCRS_RNDS] using List.mem_range.1 hi
          have := hall i (List.mem_range.2 hi')
          rw [harg (i + 3) (by omega)] at hlt
          rw [Nat.add_comm 3 i] at this
          simp at this
          omega
        simp [this]
    · have h10' : ((tokens line).length : Int) = (MAX_ARGS : Int) := by
        simp [h10, MAX_ARGS]
      simp [h10', hid]
  · have h10' : ¬ ((tokens line).length : Int) = (MAX_ARGS : Int) := by
      simp only [MAX_ARGS]
      omega
    simp [h10', h10]

theorem sorted_remove {l1 l2 : List Student} {t : Student} (h : Sorted (l1 ++ t :: l2)) :
    Sorted (l1 ++ l2) := by
  unfold Sorted at *
  exact h.sublist (List.Sublist.append_left (List.sublist_cons_self t l2) l1)

theorem distinct_remove {l1 l2 : List Student} {t : Student} (h : DistinctIds (l1 ++ t :: l2)) :
    (∀ c ∈ l1 ++ l2, c.student_id ≠ t.student_id) ∧ DistinctIds (l1 ++ l2) := by
  have hp : (l1 ++ t :: l2).Perm (t :: (l1 ++ l2)) := List.perm_middle
  exact (distinct_cons t (l1 ++ l2)).1 (distinct_of_perm hp.symm h)

theorem update_points_invariant (student_id round points : CStr) (l : List Student)
    (hs : Sorted l) (hd : DistinctIds l) :
    Sorted (update_points student_id round points l).2 ∧
      DistinctIds (update_points student_id round points l).2 := by
  cases hf : find_target student_id l with
  | none =>
    rw [update_points_absent _ _ _ _ ((find_target_none _ _).1 hf)]
    exact ⟨hs, hd⟩
  | some r =>
    obtain ⟨b, t, a⟩ := r
    obtain ⟨e, _, _⟩ := find_target_some _ _ _ _ _ hf
    rw [update_points_found _ _ _ _ _ _ _ hf]
    subst e
    have hr := distinct_remove hd
    exact ⟨place_into_list_sorted _ _ (sorted_remove hs) hr.1,
      place_into_list_distinct _ _ hr.2 hr.1⟩

theorem add_student_invariant (student_id lastname firstname : CStr) (l : List Student)
    (hs : Sorted l) (hd : DistinctIds l) :
    Sorted (add_student student_id lastname firstname l).2 ∧
      DistinctIds (add_student student_id lastname firstname l).2 := by
  by_cases h : ∃ s ∈ l, s.student_id = student_id
  · rw [add_student_dup _ _ _ _ h]
    exact ⟨hs, hd⟩
  · have h' : ∀ s ∈ l, s.student_id ≠ student_id := fun s hs e => h ⟨s, hs, e⟩
    rw [add_student_new _ _ _ _ h']
    exact ⟨place_into_list_sorted _ _ hs h', place_into_list_distinct _ _ hd h'⟩

/-- One update of a roster that holds `t` (the student with the id) and, apart from it, the
students `others`. -/
theorem update_points_perm (student_id round points : CStr) (l others : List Student)
    (t : Student) (hp : l.Perm (t :: others)) (ht : t.student_id = student_id)
    (hs : Sorted l) (hd : DistinctIds l) :
    ∃ l2, update_points student_id round points l = (0, l2) ∧
      l2.Perm (updated t round points :: others) ∧ Sorted l2 ∧ DistinctIds l2 := by
  have hdo := (distinct_cons t others).1 (distinct_of_perm hp.symm hd)
  cases hf : find_target student_id l with
  | none =>
    exact absurd ht ((find_target_none _ _).1 hf t (hp.mem_iff.2 (List.mem_cons_self _ _)))
  | some r =>
    obtain ⟨b, t0, a⟩ := r
    obtain ⟨e, e2, _⟩ := find_target_some _ _ _ _ _ hf
    have ht0 : t0 = t := by
      have hm : t0 ∈ l := by rw [e]; simp
      rcases List.mem_cons.1 (hp.mem_iff.1 hm) with h | h
      · exact h
      · exact absurd (e2.trans ht.symm) (hdo.1 t0 h)
    subst ht0
    have hinv := update_points_invariant student_id round points l hs hd
    rw [update_points_found _ _ _ _ _ _ _ hf] at hinv ⊢
    refine ⟨_, rfl, ?_, hinv.1, hinv.2⟩
    have hba : (b ++ a).Perm others := by
      have h1 : (t0 :: (b ++ a)).Perm (t0 :: others) := by
        rw [e] at hp
        exact (List.perm_middle.symm).trans hp
      exact h1.cons_inv
    exact (place_into_list_perm _ _).trans (hba.cons _)

theorem updated_id (t : Student) (round points : CStr) :
    (updated t round points).student_id = t.student_id := rfl

theorem load_points_perm (inp : Input) (is : List Nat) (l others : List Student) (t : Student)
    (hp : l.Perm (t :: others)) (ht : t.student_id = inp.arg 0)
    (hs : Sorted l) (hd : DistinctIds l) :
    ∃ l2, load_points inp is l = (0, l2) ∧
      l2.Perm (load_points_student inp is t :: others) ∧ Sorted l2 ∧ DistinctIds l2 := by
  induction is generalizing l t with
  | nil => exact ⟨l, rfl, hp, hs, hd⟩
  | cons i rest ih =>
    obtain ⟨l2, e, hp2, hs2, hd2⟩ :=
      update_points_perm (inp.arg 0) (print_int ((i : Int) + 1)) (inp.arg (3 + i)) l others t
        hp ht hs hd
    obtain ⟨l3, e3, hp3, hs3, hd3⟩ := ih l2 _ hp2 (by rw [updated_id]; exact ht) hs2 hd2
    refine ⟨l3, ?_, hp3, hs3, hd3⟩
    simp [load_points, e, e3]

theorem load_points_student_init (inp : Input) :
    load_points_student inp (List.range EXCRS_RNDS)
        (init_student (inp.arg 0) (inp.arg 1) (inp.arg 2)) =
      ⟨inp.arg 0, inp.arg 1, inp.arg 2,
        ⟨atoi (inp.arg 3), atoi (inp.arg 4), atoi (inp.arg 5), atoi (inp.arg 6),
          atoi (inp.arg 7), atoi (inp.arg 8)⟩⟩ := by
  have h1 : atoi (print_int 1) - 1 = 0 := by decide
  have h2 : atoi (print_int 2) - 1 = 1 := by decide
  have h3 : atoi (print_int 3) - 1 = 2 := by decide
  have h4 : atoi (print_int 4) - 1 = 3 := by decide
  have h5 : atoi (print_int 5) - 1 = 4 := by decide
  have h6 : atoi (print_int 6) - 1 = 5 := by decide
  have hr : List.range EXCRS_RNDS = [0, 1, 2, 3, 4, 5] := by decide
  simp [load_points_student, hr, updated, init_student, Points.zero, Points.set,
    h1, h2, h3, h4, h5, h6]

theorem line_error_ne_zero (line : CStr) : line_error line ≠ 0 := by
  unfold line_error
  split_ifs <;> decide

theorem tokens_short (line : CStr) (h : line.length ≤ 1) : (tokens line).length ≤ 1 := by
  match line, h with
  | [], _ => simp [tokens, strtok_all]
  | [c], _ =>
    by_cases hc : is_delim c = true <;> simp [tokens, strtok_all, hc]

theorem valid_record_length (line : CStr) (h : valid_record line = true) :
    (tokens line).length = 10 := by
  unfold valid_record at h
  simp only [Bool.and_eq_true, decide_eq_true_eq] at h
  exact h.1.1

theorem load_lines_stop (line : CStr) (rest : List CStr) (st : List Student)
    (h : starts_unknown_command line = true ∨
      ¬ (valid_record line = true ∧ ∀ s ∈ st, s.student_id ≠ field line 0)) :
    load_lines (line :: rest) st = (line_error line, st) := by
  by_cases h1 : line.length ≤ 1
  · simp [load_lines, parse_file_short line h1, line_error, h1]
  have h1' : 1 < line.length := by omega
  by_cases hu : starts_unknown_command line = true
  · obtain ⟨inp, e1, e2⟩ := parse_file_unknown line h1' hu
    simp [load_lines, e1, e2, line_error, h1, hu, ERR_UNKNOWN]
  have hu' : starts_unknown_command line = false := by simpa using hu
  by_cases ht : tokens line = []
  · simp [load_lines, parse_file_no_token line h1' hu' ht, line_error, h1, hu', ht]
  have hle : line_error line = ERR_FILE_CORR := by simp [line_error, h1, hu', ht]
  rw [hle]
  have hparse := parse_file_tokens line h1' hu' ht
  have hval := validate_file_record line
  by_cases hv : valid_record line = true
  · rw [hv] at hval
    simp only [if_true] at hval
    have hdup : ∃ s ∈ st, s.student_id = field line 0 := by
      rcases h with h | h
      · exact absurd h hu
      · by_contra hc
        exact h ⟨hv, fun s hs e => hc ⟨s, hs, e⟩⟩
    have ha := add_student_dup (field line 0) (field line 1) (field line 2) st hdup
    have a0 := arg_of_slots ((tokens line).length : Int) NO_CMND_CHAR (tokens line) 0 (by omega)
    have a1 := arg_of_slots ((tokens line).length : Int) NO_CMND_CHAR (tokens line) 1 (by omega)
    have a2 := arg_of_slots ((tokens line).length : Int) NO_CMND_CHAR (tokens line) 2 (by omega)
    simp only [load_lines, hparse, hval, ne_eq, not_true_eq_false, if_false]
    rw [a0, a1, a2]
    unfold field at ha
    rw [ha]
    simp [ERR_STDNT_IN_LIST]
  · have hv' : valid_record line = false := by simpa using hv
    rw [hv'] at hval
    simp only [Bool.false_eq_true, if_false] at hval
    simp [load_lines, hparse, hval, ERR_FILE_CORR]

theorem load_lines_step (line : CStr) (rest : List CStr) (st : List Student)
    (hs : Sorted st) (hd : DistinctIds st)
    (hu : starts_unknown_command line = false) (hv : valid_record line = true)
    (hnew : ∀ s ∈ st, s.student_id ≠ field line 0) :
    ∃ st2, load_lines (line :: rest) st = load_lines rest st2 ∧
      st2.Perm (record_of line :: st) ∧ Sorted st2 ∧ DistinctIds st2 := by
  have h10 := valid_record_length line hv
  have h1' : 1 < line.length := by
    by_contra hc
    have := tokens_short line (by omega)
    omega
  have ht : tokens line ≠ [] := by
    intro e
    rw [e] at h10
    simp at h10
  have hparse := parse_file_tokens line h1' hu ht
  have hval := validate_file_record line
  rw [hv] at hval
  simp only [if_true] at hval
  set inp : Input := ⟨((tokens line).length : Int), NO_CMND_CHAR,
        (List.range MAX_ARGS).map (fun i => (tokens line)[i]?)⟩ with hinp
  have harg : ∀ i, i < 10 → inp.arg i = field line i := fun i hi =>
    arg_of_slots _ _ _ i hi
  have ha := add_student_new (inp.arg 0) (inp.arg 1) (inp.arg 2) st
    (by rw [harg 0 (by omega)]; exact hnew)
  have hinv := add_student_invariant (inp.arg 0) (inp.arg 1) (inp.arg 2) st hs hd
  rw [ha] at hinv
  obtain ⟨l2, e, hp2, hs2, hd2⟩ := load_points_perm inp (List.range EXCRS_RNDS)
    (place_into_list (init_student (inp.arg 0) (inp.arg 1) (inp.arg 2)) st) st
    (init_student (inp.arg 0) (inp.arg 1) (inp.arg 2)) (place_into_list_perm _ _) rfl
    hinv.1 hinv.2
  refine ⟨l2, ?_, ?_, hs2, hd2⟩
  · simp only [load_lines, hparse, hval, ne_eq, not_true_eq_false, if_false]
    rw [ha]
    simp only [not_true_eq_false, if_false, e]
  · rw [load_points_student_init] at hp2
    simp only [harg 0 (by omega), harg 1 (by omega), harg 2 (by omega), harg 3 (by omega),
      harg 4 (by omega), harg 5 (by omega), harg 6 (by omega), harg 7 (by omega),
      harg 8 (by omega)] at hp2
    exact hp2

/-- A loading loop that ends without error has read only valid record lines, and has
built the sorted roster of their students on top of the list it started with. -/
theorem load_lines_ok (lines : List CStr) (st : List Student) (hs : Sorted st)
    (hd : DistinctIds st) (h0 : (load_lines lines st).1 = 0) :
    (∀ l ∈ lines, valid_record l = true) ∧
      (load_lines lines st).2.Perm (lines.map record_of ++ st) ∧
      Sorted (load_lines lines st).2 ∧ DistinctIds (load_lines lines st).2 := by
  induction lines generalizing st with
  | nil => exact ⟨by simp, by simp [load_lines], hs, hd⟩
  | cons line rest ih =>
    by_cases hstop : starts_unknown_command line = true ∨
      ¬ (valid_record line = true ∧ ∀ s ∈ st, s.student_id ≠ field line 0)
    · rw [load_lines_stop line rest st hstop] at h0
      exact absurd h0 (line_error_ne_zero line)
    · have hu : starts_unknown_command line = false := by
        by_contra hc
        exact hstop (Or.inl (by simpa using hc))
      have hv : valid_record line = true ∧ ∀ s ∈ st, s.student_id ≠ field line 0 := by
        by_contra hc
        exact hstop (Or.inr hc)
      obtain ⟨st2, e, hp, hs2, hd2⟩ := load_lines_step line rest st hs hd hu hv.1 hv.2
      rw [e] at h0 ⊢
      obtain ⟨i1, i2, i3, i4⟩ := ih st2 hs2 hd2 h0
      refine ⟨?_, ?_, i3, i4⟩
      · intro l hl
        rcases List.mem_cons.1 hl with rfl | hl
        · exact hv.1
        · exact i1 l hl
      · refine i2.trans ?_
        rw [List.map_cons, List.cons_append]
        exact (List.Perm.append_left _ hp).trans List.perm_middle

/-- The loading loop stops at the first line that is not a valid record or repeats an id,
with the error of that line, when no line starts like an unknown command. -/
theorem load_lines_bad (lines : List CStr) (st : List Student) (seen : List CStr)
    (bad : CStr) (hs : Sorted st) (hd : DistinctIds st)
    (hseen : ∀ x, x ∈ seen ↔ ∃ s ∈ st, s.student_id = x)
    (hu : ∀ l ∈ lines, starts_unknown_command l = false)
    (hb : first_bad seen lines = some bad) :
    (load_lines lines st).1 = line_error bad := by
  induction lines generalizing st seen with
  | nil => simp [first_bad] at hb
  | cons line rest ih =>
    have hnew_iff : field line 0 ∉ seen ↔ ∀ s ∈ st, s.student_id ≠ field line 0 := by
      rw [hseen]
      constructor
      · intro h s hs e
        exact h ⟨s, hs, e⟩
      · rintro h ⟨s, hs, e⟩
        exact h s hs e
    by_cases hv : valid_record line = true ∧ field line 0 ∉ seen
    · simp only [first_bad, hv, not_false_eq_true, and_self, if_true] at hb
      obtain ⟨st2, e, hp, hs2, hd2⟩ := load_lines_step line rest st hs hd
        (hu line (List.mem_cons_self _ _)) hv.1 (hnew_iff.1 hv.2)
      rw [e]
      refine ih st2 (field line 0 :: seen) hs2 hd2 ?_
        (fun l hl => hu l (List.mem_cons_of_mem _ hl)) hb
      intro x
      rw [List.mem_cons, hseen]
      constructor
      · rintro (rfl | ⟨s, hs, e⟩)
        · exact ⟨record_of line, hp.mem_iff.2 (List.mem_cons_self _ _), rfl⟩
        · exact ⟨s, hp.mem_iff.2 (List.mem_cons_of_mem _ hs), e⟩
      · rintro ⟨s, hs, e⟩
        rcases List.mem_cons.1 (hp.mem_iff.1 hs) with rfl | hs
        · exact Or.inl e.symm
        · exact Or.inr ⟨s, hs, e⟩
    · have hb' : first_bad seen (line :: rest) = some line := by
        simp only [first_bad]
        rw [if_neg hv]
      rw [hb'] at hb
      have hbl : line = bad := Option.some.inj hb
      have : ¬ (valid_record line = true ∧ ∀ s ∈ st, s.student_id ≠ field line 0) := by
        rw [← hnew_iff]
        exact hv
      rw [load_lines_stop line rest st (Or.inr this), hbl]

theorem sorted_nil : Sorted [] := List.Pairwise.nil

theorem distinct_nil : DistinctIds [] := List.nodup_nil

theorem load_file_invariant (file : Option (List Char)) (st : List Student)
    (hs : Sorted st) (hd : DistinctIds st) :
    Sorted (load_file file st).2 ∧ DistinctIds (load_file file st).2 := by
  cases file with
  | none => exact ⟨hs, hd⟩
  | some content =>
    by_cases h0 : (load_lines (file_lines content) []).1 = 0
    · obtain ⟨_, _, i3, i4⟩ := load_lines_ok (file_lines content) [] sorted_nil distinct_nil h0
      simp only [load_file, h0, ne_eq, not_true_eq_false, if_false]
      exact ⟨i3, i4⟩
    · simp only [load_file, h0, ne_eq, not_false_eq_true, if_true]
      exact ⟨hs, hd⟩

theorem load_file_error (file : Option (List Char)) (st : List Student)
    (h : (load_file file st).1 ≠ 0) : (load_file file st).2 = st := by
  cases file with
  | none => rfl
  | some content =>
    by_cases h0 : (load_lines (file_lines content) []).1 = 0
    · simp [load_file, h0] at h
    · simp [load_file, h0]

/-- The roster `run` leaves is the old one, or the one `add_student`, `update_points` or
`load_file` returned together with the return value. -/
theorem run_cases (files : Files) (input : CStr) (st : List Student) (o : Outcome)
    (ho : o = run files input st) :
    o.students = st ∨
      (∃ a b c, o.students = (add_student a b c st).2 ∧ o.ret = (add_student a b c st).1) ∨
      (∃ a b c, o.students = (update_points a b c st).2 ∧
        o.ret = (update_points a b c st).1) ∨
      (∃ f, o.students = (load_file f st).2 ∧ o.ret = (load_file f st).1) := by
  unfold run at ho
  cases hp : (parse_input input 0 true).1 with
  | none =>
    simp only [hp] at ho
    split_ifs at ho <;> subst ho <;> exact Or.inl rfl
  | some inp =>
    simp only [hp] at ho
    split_ifs at ho <;> subst ho <;>
      first
      | exact Or.inl rfl
      | exact Or.inr (Or.inl ⟨_, _, _, rfl, rfl⟩)
      | exact Or.inr (Or.inr (Or.inl ⟨_, _, _, rfl, rfl⟩))
      | exact Or.inr (Or.inr (Or.inr ⟨_, rfl, rfl⟩))

theorem add_student_error (a b c : CStr) (st : List Student)
    (h : (add_student a b c st).1 ≠ 0) : (add_student a b c st).2 = st := by
  by_cases hdup : ∃ s ∈ st, s.student_id = a
  · rw [add_student_dup _ _ _ _ hdup]
  · have hnew : ∀ s ∈ st, s.student_id ≠ a := fun s hs e => hdup ⟨s, hs, e⟩
    rw [add_student_new _ _ _ _ hnew] at h
    exact absurd rfl h

theorem update_points_error (a b c : CStr) (st : List Student)
    (h : (update_points a b c st).1 ≠ 0) : (update_points a b c st).2 = st := by
  cases hf : find_target a st with
  | none => rw [update_points_absent _ _ _ _ ((find_target_none _ _).1 hf)]
  | some r =>
    obtain ⟨x, t, y⟩ := r
    rw [update_points_found _ _ _ _ _ _ _ hf] at h
    exact absurd rfl h

theorem add_all_length (adds : List (CStr × CStr × CStr)) (st : List Student)
    (hn : (adds.map (fun a => a.1)).Nodup)
    (hnew : ∀ a ∈ adds, ∀ s ∈ st, s.student_id ≠ a.1) :
    (adds.foldl (fun st a => (add_student a.1 a.2.1 a.2.2 st).2) st).length =
      st.length + adds.length := by
  induction adds generalizing st with
  | nil => simp
  | cons a rest ih =>
    rw [List.map_cons, List.nodup_cons] at hn
    have ha := add_student_new a.1 a.2.1 a.2.2 st (hnew a (List.mem_cons_self _ _))
    rw [List.foldl_cons, ha]
    have hp := place_into_list_perm (init_student a.1 a.2.1 a.2.2) st
    rw [ih _ hn.2, hp.length_eq]
    · simp only [List.length_cons]; omega
    · intro b hb s hs
      rcases List.mem_cons.1 (hp.mem_iff.1 hs) with rfl | hs
      · intro e
        apply hn.1
        have : (init_student a.1 a.2.1 a.2.2).student_id = a.1 := rfl
        rw [← this, e]
        exact List.mem_map_of_mem _ hb
      · exact hnew b (List.mem_cons_of_mem _ hb) s hs

theorem field_take (line : CStr) (i : Nat) (hi : i < 9) :
    field line i = ((tokens line).take 9).getD i [] := by
  simp [field, List.getD, List.getElem?_take, hi]

theorem record_of_take (l1 l2 : CStr) (h : (tokens l1).take 9 = (tokens l2).take 9) :
    record_of l1 = record_of l2 := by
  simp only [record_of, field_take l1 _ (by omega : 0 < 9), field_take l1 _ (by omega : 1 < 9),
    field_take l1 _ (by omega : 2 < 9), field_take l1 _ (by omega : 3 < 9),
    field_take l1 _ (by omega : 4 < 9), field_take l1 _ (by omega : 5 < 9),
    field_take l1 _ (by omega : 6 < 9), field_take l1 _ (by omega : 7 < 9),
    field_take l1 _ (by omega : 8 < 9), field_take l2 _ (by omega : 0 < 9),
    field_take l2 _ (by omega : 1 < 9),
    field_take l2 _ (by omega : 2 < 9), field_take l2 _ (by omega : 3 < 9),
    field_take l2 _ (by omega : 4 < 9), field_take l2 _ (by omega : 5 < 9),
    field_take l2 _ (by omega : 6 < 9), field_take l2 _ (by omega : 7 < 9),
    field_take l2 _ (by omega : 8 < 9), h]

theorem load_file_ok (content : List Char) (st : List Student)
    (h0 : (load_file (some content) st).1 = 0) :
    (load_lines (file_lines content) []).1 = 0 ∧
      (load_file (some content) st).2 = (load_lines (file_lines content) []).2 := by
  by_cases h : (load_lines (file_lines content) []).1 = 0
  · simp [load_file, h]
  · simp [load_file, h] at h0

theorem valid_record_points (line : CStr) (h : valid_record line = true) (i : Nat)
    (hi : i < 7) : 0 ≤ validate_points (field line (3 + i)) := by
  unfold valid_record at h
  simp only [Bool.and_eq_true, decide_eq_true_eq, List.all_eq_true, List.mem_range] at h
  exact h.2 i hi

theorem points_get_set_same (p : Points) (i v : Int) (h0 : 0 ≤ i) (h5 : i ≤ 5) :
    (p.set i v).get i.toNat = v := by
  have : i = 0 ∨ i = 1 ∨ i = 2 ∨ i = 3 ∨ i = 4 ∨ i = 5 := by omega
  rcases this with rfl | rfl | rfl | rfl | rfl | rfl <;> simp [Points.set, Points.get]

theorem points_get_set_other (p : Points) (i v : Int) (j : Nat) (hj : j < 6)
    (hne : (j : Int) ≠ i) : (p.set i v).get j = p.get j := by
  unfold Points.set
  split_ifs with h0 h1 h2 h3 h4 h5
  all_goals
    first
    | rfl
    | (subst_vars
       interval_cases j <;> first | rfl | exact absurd rfl hne)

theorem count_points_sum (p : Points) :
    count_points p = p.p0 + p.p1 + p.p2 + p.p3 + p.p4 + p.p5 := by
  have hr : List.range EXCRS_RNDS = [0, 1, 2, 3, 4, 5] := by decide
  simp [count_points, hr, Points.get]

/-- C1: a roster that is ordered by `sort_students` and has pairwise distinct ids is, after
`run` on any input line and with any files, again ordered and with distinct ids. -/
theorem C1_roster_invariant (files : Files) (input : CStr) (students : List Student)
    (hs : Sorted students) (hd : DistinctIds students) :
    Sorted (run files input students).students ∧
      DistinctIds (run files input students).students := by
  rcases run_cases files input students _ rfl with h | ⟨a, b, c, h, _⟩ | ⟨a, b, c, h, _⟩ | ⟨f, h, _⟩
  · rw [h]; exact ⟨hs, hd⟩
  · rw [h]; exact add_student_invariant a b c students hs hd
  · rw [h]; exact update_points_invariant a b c students hs hd
  · rw [h]; exact load_file_invariant f students hs hd

/-- C1 at a concrete roster and line: adding `A1` to the roster that holds `B`. -/
theorem C1_roster_invariant_witness :
    Sorted [⟨"B".toList, "Doe".toList, "Jane".toList, Points.zero⟩] ∧
      DistinctIds [⟨"B".toList, "Doe".toList, "Jane".toList, Points.zero⟩] ∧
      Sorted (run (Files.single []) "A A1 Roe Al\n".toList
        [⟨"B".toList, "Doe".toList, "Jane".toList, Points.zero⟩]).students ∧
      DistinctIds (run (Files.single []) "A A1 Roe Al\n".toList
        [⟨"B".toList, "Doe".toList, "Jane".toList, Points.zero⟩]).students :=
  ⟨by decide, by decide,
    C1_roster_invariant (Files.single []) "A A1 Roe Al\n".toList
      [⟨"B".toList, "Doe".toList, "Jane".toList, Points.zero⟩] (by decide) (by decide)⟩

/-- C2: when `run` returns a negative value the roster is the one before the call, and the
same holds for `load_file` called directly, whatever the file. -/
theorem C2_atomic (files : Files) (input : CStr) (file : Option (List Char))
    (students : List Student) :
    ((run files input students).ret < 0 → (run files input students).students = students) ∧
      ((load_file file students).1 < 0 → (load_file file students).2 = students) := by
  constructor
  · intro hneg
    rcases run_cases files input students _ rfl with
      h | ⟨a, b, c, h, e⟩ | ⟨a, b, c, h, e⟩ | ⟨f, h, e⟩
    · exact h
    · rw [h]; exact add_student_error a b c students (by rw [← e]; omega)
    · rw [h]; exact update_points_error a b c students (by rw [← e]; omega)
    · rw [h]; exact load_file_error f students (by rw [← e]; omega)
  · intro hneg
    exact load_file_error file students (by omega)

/-- C2 at a concrete roster: loading a file whose only line has two fields fails, through
`run` and directly, and the roster stays. -/
theorem C2_atomic_witness :
    (run (Files.single "A1 Doe\n".toList) "O f.txt\n".toList
        [⟨"B".toList, "Doe".toList, "Jane".toList, Points.zero⟩]).ret < 0 ∧
      (run (Files.single "A1 Doe\n".toList) "O f.txt\n".toList
        [⟨"B".toList, "Doe".toList, "Jane".toList, Points.zero⟩]).students =
        [⟨"B".toList, "Doe".toList, "Jane".toList, Points.zero⟩] ∧
      (load_file (some "A1 Doe\n".toList)
        [⟨"B".toList, "Doe".toList, "Jane".toList, Points.zero⟩]).1 < 0 ∧
      (load_file (some "A1 Doe\n".toList)
        [⟨"B".toList, "Doe".toList, "Jane".toList, Points.zero⟩]).2 =
        [⟨"B".toList, "Doe".toList, "Jane".toList, Points.zero⟩] :=
  ⟨by decide,
    (C2_atomic (Files.single "A1 Doe\n".toList) "O f.txt\n".toList (some "A1 Doe\n".toList)
      [⟨"B".toList, "Doe".toList, "Jane".toList, Points.zero⟩]).1 (by decide),
    by decide,
    (C2_atomic (Files.single "A1 Doe\n".toList) "O f.txt\n".toList (some "A1 Doe\n".toList)
      [⟨"B".toList, "Doe".toList, "Jane".toList, Points.zero⟩]).2 (by decide)⟩

/-- C3, at the input where the code departs from it: the command `A B Doe Jane` puts the
student `B` into the empty roster; `write_to_file` writes the line
`B Doe Jane 0 0 0 0 0 0 0`; loading that line fails with `ERR_UNKNOWN`, because the line
starts with an upper-case letter and a space, and leaves the roster it was called with (here
the empty one) instead of the written one. -/
theorem C3_round_trip_fails_on_letter_id :
    (run (Files.single []) "A B Doe Jane\n".toList []).ret = 0 ∧
      (run (Files.single []) "A B Doe Jane\n".toList []).students =
        [⟨"B".toList, "Doe".toList, "Jane".toList, Points.zero⟩] ∧
      write_to_file true [⟨"B".toList, "Doe".toList, "Jane".toList, Points.zero⟩] =
        (0, some "B Doe Jane 0 0 0 0 0 0 0\n".toList) ∧
      valid_record "B Doe Jane 0 0 0 0 0 0 0\n".toList = true ∧
      load_file (some "B Doe Jane 0 0 0 0 0 0 0\n".toList) [] = (ERR_UNKNOWN, []) := by
  decide

theorem free_parsed_input_iff (inp : Input) :
    free_parsed_input inp = true ↔ inp.arg_count ≤ MAX_ARGS := by
  unfold free_parsed_input MAX_ARGS
  rw [List.all_eq_true]
  constructor
  · intro h
    by_contra hc
    have := h 10 (by rw [List.mem_range]; omega)
    simp at this
  · intro h i hi
    rw [List.mem_range] at hi
    simp only [decide_eq_true_eq]
    omega

/-- A line that ends the loading loop, does not start like an unknown command and has at
most ten tokens: every `free_parsed_input` of the iteration stays inside the struct. -/
theorem load_lines_returns_stop (line : CStr) (rest : List CStr) (st : List Student)
    (hu : starts_unknown_command line = false) (h10 : (tokens line).length ≤ 10)
    (h : ¬ (valid_record line = true ∧ ∀ s ∈ st, s.student_id ≠ field line 0)) :
    load_lines_returns (line :: rest) st = true := by
  by_cases h1 : line.length ≤ 1
  · simp [load_lines_returns, parse_file_short line h1]
  have h1' : 1 < line.length := by omega
  by_cases ht : tokens line = []
  · simp [load_lines_returns, parse_file_no_token line h1' hu ht]
  have hparse := parse_file_tokens line h1' hu ht
  have hval := validate_file_record line
  have hfree : free_parsed_input ⟨((tokens line).length : Int), NO_CMND_CHAR,
      (List.range MAX_ARGS).map (fun i => (tokens line)[i]?)⟩ = true := by
    rw [free_parsed_input_iff]
    show ((tokens line).length : Int) ≤ 10
    omega
  have hz : ¬ (0 : Int) = ERR_INV_CMND_CHAR := by decide
  by_cases hv : valid_record line = true
  · rw [hv] at hval
    simp only [if_true] at hval
    have hdup : ∃ s ∈ st, s.student_id = field line 0 := by
      by_contra hc
      exact h ⟨hv, fun s hs e => hc ⟨s, hs, e⟩⟩
    have ha := add_student_dup (field line 0) (field line 1) (field line 2) st hdup
    have a0 := arg_of_slots ((tokens line).length : Int) NO_CMND_CHAR (tokens line) 0 (by omega)
    have a1 := arg_of_slots ((tokens line).length : Int) NO_CMND_CHAR (tokens line) 1 (by omega)
    have a2 := arg_of_slots ((tokens line).length : Int) NO_CMND_CHAR (tokens line) 2 (by omega)
    simp only [load_lines_returns, hparse, hval, ne_eq, not_true_eq_false, if_false, hz]
    rw [a0, a1, a2]
    unfold field at ha
    rw [ha]
    simp [ERR_STDNT_IN_LIST, hfree]
  · have hv' : valid_record line = false := by simpa using hv
    rw [hv'] at hval
    simp only [Bool.false_eq_true, if_false] at hval
    simp [load_lines_returns, hparse, hval, ERR_FILE_CORR, hfree, hz]

/-- A valid record line with a new id: the loop goes on with the next line, and the
`free_parsed_input` at the end of the iteration stays inside the struct. -/
theorem load_lines_returns_step (line : CStr) (rest : List CStr) (st : List Student)
    (hs : Sorted st) (hd : DistinctIds st)
    (hu : starts_unknown_command line = false) (hv : valid_record line = true)
    (hnew : ∀ s ∈ st, s.student_id ≠ field line 0) :
    ∃ st2, load_lines_returns (line :: rest) st = load_lines_returns rest st2 ∧
      st2.Perm (record_of line :: st) ∧ Sorted st2 ∧ DistinctIds st2 := by
  have h10 := valid_record_length line hv
  have h1' : 1 < line.length := by
    by_contra hc
    have := tokens_short line (by omega)
    omega
  have ht : tokens line ≠ [] := by
    intro e
    rw [e] at h10
    simp at h10
  have hparse := parse_file_tokens line h1' hu ht
  have hval := validate_file_record line
  rw [hv] at hval
  simp only [if_true] at hval
  have hfree : free_parsed_input ⟨((tokens line).length : Int), NO_CMND_CHAR,
      (List.range MAX_ARGS).map (fun i => (tokens line)[i]?)⟩ = true := by
    rw [free_parsed_input_iff]
    show ((tokens line).length : Int) ≤ 10
    omega
  have hz : ¬ (0 : Int) = ERR_INV_CMND_CHAR := by decide
  set inp : Input := ⟨((tokens line).length : Int), NO_CMND_CHAR,
        (List.range MAX_ARGS).map (fun i => (tokens line)[i]?)⟩ with hinp
  have harg : ∀ i, i < 10 → inp.arg i = field line i := fun i hi =>
    arg_of_slots _ _ _ i hi
  have ha := add_student_new (inp.arg 0) (inp.arg 1) (inp.arg 2) st
    (by rw [harg 0 (by omega)]; exact hnew)
  have hinv := add_student_invariant (inp.arg 0) (inp.arg 1) (inp.arg 2) st hs hd
  rw [ha] at hinv
  obtain ⟨l2, e, hp2, hs2, hd2⟩ := load_points_perm inp (List.range EXCRS_RNDS)
    (place_into_list (init_student (inp.arg 0) (inp.arg 1) (inp.arg 2)) st) st
    (init_student (inp.arg 0) (inp.arg 1) (inp.arg 2)) (place_into_list_perm _ _) rfl
    hinv.1 hinv.2
  refine ⟨l2, ?_, ?_, hs2, hd2⟩
  · simp only [load_lines_returns, hparse, hval, ne_eq, not_true_eq_false, if_false, hz]
    rw [ha]
    simp only [not_true_eq_false, if_false, e, hfree, Bool.true_and]
  · rw [load_points_student_init] at hp2
    simp only [harg 0 (by omega), harg 1 (by omega), harg 2 (by omega), harg 3 (by omega),
      harg 4 (by omega), harg 5 (by omega), harg 6 (by omega), harg 7 (by omega),
      harg 8 (by omega)] at hp2
    exact hp2

/-- The loading loop reaches its end when it stops at a line of at most ten tokens and no
line starts like an unknown command. -/
theorem load_lines_returns_bad (lines : List CStr) (st : List Student) (seen : List CStr)
    (bad : CStr) (hs : Sorted st) (hd : DistinctIds st)
    (hseen : ∀ x, x ∈ seen ↔ ∃ s ∈ st, s.student_id = x)
    (hu : ∀ l ∈ lines, starts_unknown_command l = false)
    (hb : first_bad seen lines = some bad) (h10 : (tokens bad).length ≤ 10) :
    load_lines_returns lines st = true := by
  induction lines generalizing st seen with
  | nil => simp [first_bad] at hb
  | cons line rest ih =>
    have hnew_iff : field line 0 ∉ seen ↔ ∀ s ∈ st, s.student_id ≠ field line 0 := by
      rw [hseen]
      constructor
      · intro h s hs e
        exact h ⟨s, hs, e⟩
      · rintro h ⟨s, hs, e⟩
        exact h s hs e
    by_cases hv : valid_record line = true ∧ field line 0 ∉ seen
    · simp only [first_bad, hv, not_false_eq_true, and_self, if_true] at hb
      obtain ⟨st2, e, hp, hs2, hd2⟩ := load_lines_returns_step line rest st hs hd
        (hu line (List.mem_cons_self _ _)) hv.1 (hnew_iff.1 hv.2)
      rw [e]
      refine ih st2 (field line 0 :: seen) hs2 hd2 ?_
        (fun l hl => hu l (List.mem_cons_of_mem _ hl)) hb
      intro x
      rw [List.mem_cons, hseen]
      constructor
      · rintro (rfl | ⟨s, hs, e⟩)
        · exact ⟨record_of line, hp.mem_iff.2 (List.mem_cons_self _ _), rfl⟩
        · exact ⟨s, hp.mem_iff.2 (List.mem_cons_of_mem _ hs), e⟩
      · rintro ⟨s, hs, e⟩
        rcases List.mem_cons.1 (hp.mem_iff.1 hs) with rfl | hs
        · exact Or.inl e.symm
        · exact Or.inr ⟨s, hs, e⟩
    · have hb' : first_bad seen (line :: rest) = some line := by
        simp only [first_bad]
        rw [if_neg hv]
      rw [hb'] at hb
      have hbl : line = bad := Option.some.inj hb
      have : ¬ (valid_record line = true ∧ ∀ s ∈ st, s.student_id ≠ field line 0) := by
        rw [← hnew_iff]
        exact hv
      exact load_lines_returns_stop line rest st (hu line (List.mem_cons_self _ _))
        (by rw [hbl]; exact h10) this

/-- The inputs at which a `free_parsed_input` leaves the struct: a file line of eleven
tokens, a file line that starts like an unknown command, and a command line of eleven
tokens. -/
theorem free_parsed_input_past_array :
    load_file_returns (some "A1 Doe Jane 1 2 3 4 5 6 21 x\n".toList) = false ∧
      load_file_returns (some "B Doe Jane 0 0 0 0 0 0 0\n".toList) = false ∧
      run_returns (Files.single []) "L 1 2 3 4 5 6 7 8 9 10\n".toList = false ∧
      run_returns (Files.single []) "L extra\n".toList = true := by
  decide

/-- C4 as stated fails: the file whose only line is two spaces and a newline has a line
that is not a valid record, and `load_file` returns `ERR_NON_VIABLE_INP`, not
`ERR_FILE_CORR`. -/
theorem C4_counterexample :
    ¬ (∀ (content : List Char) (students : List Student) (bad : CStr),
        first_bad [] (file_lines content) = some bad →
          (load_file (some content) students).1 = ERR_FILE_CORR) := by
  intro h
  have := h "  \n".toList [] "  \n".toList (by decide)
  revert this
  decide

/-- C4, amended: when some line of the file is not a valid record or repeats an earlier id,
no line starts with an upper-case letter other than a command character followed by white
space, and the first such line has at most ten tokens, `load_file` returns, fails and leaves
the roster as it was; the error is `ERR_NON_VIABLE_INP` when the first such line is longer
than one byte and holds no token, and `ERR_FILE_CORR` otherwise. -/
theorem C4_corrupt_file_error (content : List Char) (students : List Student) (bad : CStr)
    (hu : ∀ l ∈ file_lines content, starts_unknown_command l = false)
    (hb : first_bad [] (file_lines content) = some bad)
    (h10 : (tokens bad).length ≤ 10) :
    load_file_returns (some content) = true ∧
      (load_file (some content) students).1 =
        (if 1 < bad.length ∧ tokens bad = [] then ERR_NON_VIABLE_INP else ERR_FILE_CORR) ∧
      (load_file (some content) students).2 = students := by
  have hbad : bad ∈ file_lines content := by
    have key : ∀ (lines : List CStr) (seen : List CStr),
        first_bad seen lines = some bad → bad ∈ lines := by
      intro lines
      induction lines with
      | nil => intro seen h; simp [first_bad] at h
      | cons l rest ih =>
        intro seen h
        simp only [first_bad] at h
        split_ifs at h with hc
        · exact List.mem_cons_of_mem _ (ih _ h)
        · rw [Option.some.inj h]; exact List.mem_cons_self _ _
    exact key _ _ hb
  have hret : load_file_returns (some content) = true :=
    load_lines_returns_bad (file_lines content) [] [] bad sorted_nil distinct_nil
      (by simp) hu hb h10
  have hl := load_lines_bad (file_lines content) [] [] bad sorted_nil distinct_nil
    (by simp) hu hb
  have hne := line_error_ne_zero bad
  have herr : (load_file (some content) students).1 = line_error bad := by
    simp only [load_file, hl, ne_eq, hne, not_false_eq_true, if_true]
  refine ⟨hret, ?_, load_file_error _ _ (by rw [herr]; exact hne)⟩
  rw [herr]
  unfold line_error
  rw [hu bad hbad]
  by_cases h1 : bad.length ≤ 1
  · have : ¬ (1 < bad.length ∧ tokens bad = []) := by omega
    simp [h1, this]
  · by_cases ht : tokens bad = []
    · have : 1 < bad.length ∧ tokens bad = [] := ⟨by omega, ht⟩
      simp [h1, ht, this]
    · simp [h1, ht]

/-- C4 (amended) at a concrete file: the second line repeats the id of the first. -/
theorem C4_corrupt_file_error_witness :
    (∀ l ∈ file_lines "A1 Doe Jane 1 2 3 4 5 6 21\nA1 Roe Al 0 0 0 0 0 0 0\n".toList,
        starts_unknown_command l = false) ∧
      first_bad [] (file_lines "A1 Doe Jane 1 2 3 4 5 6 21\nA1 Roe Al 0 0 0 0 0 0 0\n".toList) =
        some "A1 Roe Al 0 0 0 0 0 0 0\n".toList ∧
      (tokens "A1 Roe Al 0 0 0 0 0 0 0\n".toList).length ≤ 10 ∧
      load_file_returns
          (some "A1 Doe Jane 1 2 3 4 5 6 21\nA1 Roe Al 0 0 0 0 0 0 0\n".toList) = true ∧
      (load_file (some "A1 Doe Jane 1 2 3 4 5 6 21\nA1 Roe Al 0 0 0 0 0 0 0\n".toList)
        [⟨"B".toList, "Doe".toList, "Jane".toList, Points.zero⟩]).1 = ERR_FILE_CORR ∧
      (load_file (some "A1 Doe Jane 1 2 3 4 5 6 21\nA1 Roe Al 0 0 0 0 0 0 0\n".toList)
        [⟨"B".toList, "Doe".toList, "Jane".toList, Points.zero⟩]).2 =
        [⟨"B".toList, "Doe".toList, "Jane".toList, Points.zero⟩] :=
  ⟨by decide, by decide, by decide,
    C4_corrupt_file_error "A1 Doe Jane 1 2 3 4 5 6 21\nA1 Roe Al 0 0 0 0 0 0 0\n".toList
      [⟨"B".toList, "Doe".toList, "Jane".toList, Points.zero⟩]
      "A1 Roe Al 0 0 0 0 0 0 0\n".toList (by decide) (by decide) (by decide)⟩

/-- C5: when `load_file` returns 0, the new roster holds exactly the students of the lines
of the file (id, names and the integer values of fields 3 to 8), one for each line, in
`sort_students` order; each of these values is the one `validate_points` accepted, in
`[0, 999]`; the total of a student is the sum of its six values; the result is the same
for every roster present before the load and for every file whose lines have the same first
nine fields. -/
theorem C5_load_result (content : List Char) (students : List Student)
    (h0 : (load_file (some content) students).1 = 0) :
    (load_file (some content) students).2.Perm ((file_lines content).map record_of) ∧
      (load_file (some content) students).2.length = (file_lines content).length ∧
      Sorted (load_file (some content) students).2 ∧
      (∀ l ∈ file_lines content, ∀ i, i < 6 →
        atoi (field l (3 + i)) = validate_points (field l (3 + i)) ∧
          0 ≤ atoi (field l (3 + i)) ∧ atoi (field l (3 + i)) ≤ 999) ∧
      (∀ s ∈ (load_file (some content) students).2,
        count_points s.points =
          s.points.p0 + s.points.p1 + s.points.p2 + s.points.p3 + s.points.p4 + s.points.p5) ∧
      (∀ other : List Student,
        load_file (some content) other = (0, (load_file (some content) students).2)) ∧
      (∀ (content2 : List Char) (other : List Student),
        (file_lines content2).map (fun l => (tokens l).take 9) =
            (file_lines content).map (fun l => (tokens l).take 9) →
          (load_file (some content2) other).1 = 0 →
          (load_file (some content2) other).2 = (load_file (some content) students).2) := by
  obtain ⟨hl0, hl2⟩ := load_file_ok content students h0
  obtain ⟨hv, hperm, hsorted, _⟩ :=
    load_lines_ok (file_lines content) [] sorted_nil distinct_nil hl0
  rw [List.append_nil] at hperm
  rw [hl2]
  refine ⟨hperm, ?_, hsorted, ?_, fun s _ => count_points_sum s.points, ?_, ?_⟩
  · rw [hperm.length_eq, List.length_map]
  · intro l hl i hi
    have hp := valid_record_points l (hv l hl) i (by omega)
    have := validate_points_ok _ hp
    exact ⟨this.1.symm, by rw [← this.1]; exact hp, this.2⟩
  · intro other
    simp [load_file, hl0]
  · intro content2 other hsame h2
    obtain ⟨hm0, hm2⟩ := load_file_ok content2 other h2
    obtain ⟨_, hperm2, hsorted2, _⟩ :=
      load_lines_ok (file_lines content2) [] sorted_nil distinct_nil hm0
    rw [List.append_nil] at hperm2
    rw [hm2]
    have hrec : (file_lines content2).map record_of = (file_lines content).map record_of := by
      have key : ∀ (xs ys : List CStr),
          xs.map (fun l => (tokens l).take 9) = ys.map (fun l => (tokens l).take 9) →
            xs.map record_of = ys.map record_of := by
        intro xs
        induction xs with
        | nil =>
          intro ys h
          cases ys with
          | nil => rfl
          | cons y ys => simp at h
        | cons x xs ih =>
          intro ys h
          cases ys with
          | nil => simp at h
          | cons y ys =>
            simp only [List.map_cons, List.cons.injEq] at h ⊢
            exact ⟨record_of_take x y h.1, ih ys h.2⟩
      exact key _ _ hsame
    rw [hrec] at hperm2
    haveI := before_antisymm
    exact List.eq_of_perm_of_sorted (hperm2.trans hperm.symm) hsorted2 hsorted

/-- C5 at a concrete file of two records whose stored totals are wrong. -/
theorem C5_load_result_witness :
    (load_file (some "A1 Doe Jane 1 2 3 4 5 6 999\nA2 Roe Al 1 2 3 4 5 7 0\n".toList)
        [⟨"B".toList, "Doe".toList, "Jane".toList, Points.zero⟩]).1 = 0 ∧
      (load_file (some "A1 Doe Jane 1 2 3 4 5 6 999\nA2 Roe Al 1 2 3 4 5 7 0\n".toList)
        [⟨"B".toList, "Doe".toList, "Jane".toList, Points.zero⟩]).2 =
        [⟨"A2".toList, "Roe".toList, "Al".toList, ⟨1, 2, 3, 4, 5, 7⟩⟩,
          ⟨"A1".toList, "Doe".toList, "Jane".toList, ⟨1, 2, 3, 4, 5, 6⟩⟩] ∧
      Sorted (load_file (some "A1 Doe Jane 1 2 3 4 5 6 999\nA2 Roe Al 1 2 3 4 5 7 0\n".toList)
        [⟨"B".toList, "Doe".toList, "Jane".toList, Points.zero⟩]).2 :=
  ⟨by decide, by decide,
    (C5_load_result "A1 Doe Jane 1 2 3 4 5 6 999\nA2 Roe Al 1 2 3 4 5 7 0\n".toList
      [⟨"B".toList, "Doe".toList, "Jane".toList, Points.zero⟩] (by decide)).2.2.1⟩

/-- C6: `add_student` returns `ERR_STDNT_IN_LIST` exactly when a student of the roster has
the given id, and then the roster is unchanged; adding `A1 Doe Jane` and then `A1 X Y` to the
empty roster fails the second time and leaves one student. -/
theorem C6_add_duplicate (student_id lastname firstname : CStr) (students : List Student) :
    ((add_student student_id lastname firstname students).1 = ERR_STDNT_IN_LIST ↔
        ∃ s ∈ students, s.student_id = student_id) ∧
      ((add_student student_id lastname firstname students).1 = ERR_STDNT_IN_LIST →
        (add_student student_id lastname firstname students).2 = students) ∧
      add_student "A1".toList "X".toList "Y".toList
          (add_student "A1".toList "Doe".toList "Jane".toList []).2 =
        (ERR_STDNT_IN_LIST, [⟨"A1".toList, "Doe".toList, "Jane".toList, ⟨0, 0, 0, 0, 0, 0⟩⟩]) := by
  refine ⟨?_, ?_, by decide⟩
  · by_cases hdup : ∃ s ∈ students, s.student_id = student_id
    · simp [add_student_dup _ _ _ _ hdup, hdup]
    · have hnew : ∀ s ∈ students, s.student_id ≠ student_id := fun s hs e => hdup ⟨s, hs, e⟩
      rw [add_student_new _ _ _ _ hnew]
      simp only [hdup, iff_false]
      decide
  · intro h
    exact add_student_error _ _ _ _ (by rw [h]; decide)

/-- C6 at a concrete roster: a second `B`. -/
theorem C6_add_duplicate_witness :
    (add_student "B".toList "Roe".toList "Al".toList
        [⟨"B".toList, "Doe".toList, "Jane".toList, Points.zero⟩]).1 = ERR_STDNT_IN_LIST ∧
      (add_student "B".toList "Roe".toList "Al".toList
        [⟨"B".toList, "Doe".toList, "Jane".toList, Points.zero⟩]).2 =
        [⟨"B".toList, "Doe".toList, "Jane".toList, Points.zero⟩] :=
  ⟨by decide,
    (C6_add_duplicate "B".toList "Roe".toList "Al".toList
      [⟨"B".toList, "Doe".toList, "Jane".toList, Points.zero⟩]).2.1 (by decide)⟩

/-- C7: for an id that no student of the roster has, `add_student` returns 0 and the new
list is the old one with one student put in somewhere, carrying the given id and names and
six zero points; the length grows by one, and adding students with pairwise distinct ids to
the empty roster gives a list as long as the number of adds. -/
theorem C7_add_effect (student_id lastname firstname : CStr) (students : List Student)
    (hnew : ∀ s ∈ students, s.student_id ≠ student_id) :
    (add_student student_id lastname firstname students).1 = 0 ∧
      (∃ l1 l2, students = l1 ++ l2 ∧
        (add_student student_id lastname firstname students).2 =
          l1 ++ ⟨student_id, lastname, firstname, ⟨0, 0, 0, 0, 0, 0⟩⟩ :: l2) ∧
      (add_student student_id lastname firstname students).2.length = students.length + 1 ∧
      (∀ adds : List (CStr × CStr × CStr), (adds.map (fun a => a.1)).Nodup →
        (adds.foldl (fun st a => (add_student a.1 a.2.1 a.2.2 st).2) []).length =
          adds.length) := by
  rw [add_student_new _ _ _ _ hnew]
  obtain ⟨l1, l2, e1, e2, _, _⟩ :=
    place_into_list_split (init_student student_id lastname firstname) students
  refine ⟨rfl, ⟨l1, l2, e1, e2⟩, ?_, ?_⟩
  · simp only [(place_into_list_perm _ students).length_eq, List.length_cons]
  · intro adds hn
    have := add_all_length adds [] hn (by simp)
    simpa using this

/-- C7 at a concrete roster: the new student has no points and goes behind `B`. -/
theorem C7_add_effect_witness :
    (∀ s ∈ [(⟨"B".toList, "Doe".toList, "Jane".toList, ⟨0, 0, 5, 0, 0, 0⟩⟩ : Student)],
        s.student_id ≠ "A1".toList) ∧
      add_student "A1".toList "Roe".toList "Al".toList
          [⟨"B".toList, "Doe".toList, "Jane".toList, ⟨0, 0, 5, 0, 0, 0⟩⟩] =
        (0, [⟨"B".toList, "Doe".toList, "Jane".toList, ⟨0, 0, 5, 0, 0, 0⟩⟩,
          ⟨"A1".toList, "Roe".toList, "Al".toList, ⟨0, 0, 0, 0, 0, 0⟩⟩]) ∧
      (add_student "A1".toList "Roe".toList "Al".toList
          [⟨"B".toList, "Doe".toList, "Jane".toList, ⟨0, 0, 5, 0, 0, 0⟩⟩]).2.length = 2 :=
  ⟨by decide, by decide,
    (C7_add_effect "A1".toList "Roe".toList "Al".toList
      [⟨"B".toList, "Doe".toList, "Jane".toList, ⟨0, 0, 5, 0, 0, 0⟩⟩] (by decide)).2.2.1⟩

/-- C8: `update_points` returns `ERR_UPD_PTS_ON_EMPT` exactly when the roster has no student,
`ERR_STDNT_NOT_FND` exactly when the roster has students and none has the given id, and 0
exactly when some student has the id; this holds for every round and points text. -/
theorem C8_update_failures (student_id round points : CStr) (students : List Student) :
    ((update_points student_id round points students).1 = ERR_UPD_PTS_ON_EMPT ↔
        students = []) ∧
      ((update_points student_id round points students).1 = ERR_STDNT_NOT_FND ↔
        students ≠ [] ∧ ∀ s ∈ students, s.student_id ≠ student_id) ∧
      ((update_points student_id round points students).1 = 0 ↔
        ∃ s ∈ students, s.student_id = student_id) := by
  cases hf : find_target student_id students with
  | none =>
    have habs := (find_target_none _ _).1 hf
    rw [update_points_absent _ _ _ _ habs]
    have hno : ¬ ∃ s ∈ students, s.student_id = student_id := by
      rintro ⟨s, hs, e⟩
      exact habs s hs e
    by_cases he : students = []
    · subst he
      simp [ERR_UPD_PTS_ON_EMPT, ERR_STDNT_NOT_FND]
    · simp only [he, if_false, false_iff, ne_eq, not_false_eq_true, true_and, hno, iff_false]
      refine ⟨by decide, ?_, by decide⟩
      simp only [true_iff]
      exact habs
  | some r =>
    obtain ⟨b, t, a⟩ := r
    obtain ⟨e, e2, _⟩ := find_target_some _ _ _ _ _ hf
    rw [update_points_found _ _ _ _ _ _ _ hf]
    have hne : students ≠ [] := by rw [e]; simp
    have hex : ∃ s ∈ students, s.student_id = student_id := ⟨t, by rw [e]; simp, e2⟩
    have hnall : ¬ ∀ s ∈ students, s.student_id ≠ student_id := by
      intro h
      obtain ⟨s, hs, es⟩ := hex
      exact h s hs es
    simp only [hne, hex, iff_true, iff_false, ne_eq, not_false_eq_true, true_and, hnall]
    exact ⟨by decide, by decide, trivial⟩

/-- C9: in a roster with distinct ids that holds a student `t` with the given id, an update
with a round in `[1, 6]` returns 0 and replaces `t` by a student with the same id and names
whose value for that round is the new one and whose other five values are those of `t`; all
other students are the same and keep their relative order, only the updated student may
have moved. -/
theorem C9_update_effect (student_id round points : CStr) (students : List Student)
    (t : Student) (hd : DistinctIds students) (ht : t ∈ students)
    (hid : t.student_id = student_id) (hr : 1 ≤ atoi round ∧ atoi round ≤ 6) :
    (update_points student_id round points students).1 = 0 ∧
      ∃ t2 : Student,
        t2.student_id = t.student_id ∧ t2.lastname = t.lastname ∧
        t2.firstname = t.firstname ∧
        t2.points.get (atoi round - 1).toNat = atoi points ∧
        (∀ i : Nat, i < 6 → (i : Int) ≠ atoi round - 1 → t2.points.get i = t.points.get i) ∧
        ∃ l1 l2 m1 m2, students = l1 ++ t :: l2 ∧ l1 ++ l2 = m1 ++ m2 ∧
          (update_points student_id round points students).2 = m1 ++ t2 :: m2 := by
  obtain ⟨l1, l2, hsplit⟩ := List.append_of_mem ht
  subst hsplit
  have hf := find_target_of_split student_id l1 l2 t hid hd
  rw [update_points_found _ _ _ _ _ _ _ hf]
  obtain ⟨m1, m2, e1, e2, _, _⟩ := place_into_list_split (updated t round points) (l1 ++ l2)
  refine ⟨rfl, updated t round points, rfl, rfl, rfl, ?_, ?_, l1, l2, m1, m2, rfl, e1, e2⟩
  · exact points_get_set_same t.points (atoi round - 1) (atoi points) (by omega) (by omega)
  · intro i hi hne
    exact points_get_set_other t.points (atoi round - 1) (atoi points) i hi hne

/-- C9 at a concrete roster: `B` gets 45 points for round 3 and moves to the front. -/
theorem C9_update_effect_witness :
    DistinctIds [⟨"A1".toList, "Roe".toList, "Al".toList, ⟨0, 0, 7, 0, 0, 0⟩⟩,
        ⟨"B".toList, "Doe".toList, "Jane".toList, ⟨0, 0, 5, 0, 0, 0⟩⟩] ∧
      atoi "3".toList = 3 ∧ atoi "45".toList = 45 ∧
      update_points "B".toList "3".toList "45".toList
          [⟨"A1".toList, "Roe".toList, "Al".toList, ⟨0, 0, 7, 0, 0, 0⟩⟩,
            ⟨"B".toList, "Doe".toList, "Jane".toList, ⟨0, 0, 5, 0, 0, 0⟩⟩] =
        (0, [⟨"B".toList, "Doe".toList, "Jane".toList, ⟨0, 0, 45, 0, 0, 0⟩⟩,
          ⟨"A1".toList, "Roe".toList, "Al".toList, ⟨0, 0, 7, 0, 0, 0⟩⟩]) ∧
      (update_points "B".toList "3".toList "45".toList
          [⟨"A1".toList, "Roe".toList, "Al".toList, ⟨0, 0, 7, 0, 0, 0⟩⟩,
            ⟨"B".toList, "Doe".toList, "Jane".toList, ⟨0, 0, 5, 0, 0, 0⟩⟩]).1 = 0 :=
  ⟨by decide, by decide, by decide, by decide,
    (C9_update_effect "B".toList "3".toList "45".toList
      [⟨"A1".toList, "Roe".toList, "Al".toList, ⟨0, 0, 7, 0, 0, 0⟩⟩,
        ⟨"B".toList, "Doe".toList, "Jane".toList, ⟨0, 0, 5, 0, 0, 0⟩⟩]
      ⟨"B".toList, "Doe".toList, "Jane".toList, ⟨0, 0, 5, 0, 0, 0⟩⟩
      (by decide) (by decide) (by decide) (by decide)).1⟩

/-- C10: for two students of the roster, `sort_students(a, b)` is negative exactly when `a`
has the greater total, or the totals are equal and the last name of `a` is byte-wise
smaller, or these are equal too and the first name of `a` is smaller, or all three are equal
and the id of `a` is smaller; it is positive exactly in the mirrored cases; and the dummy
head compared with a student ranks first from either side. -/
theorem C10_ordering_rule (a b : Student) (uninit : Points) :
    (sort_students (some a.node) (some b.node) < 0 ↔
        count_points a.points > count_points b.points ∨
        (count_points a.points = count_points b.points ∧
          byte_less a.lastname b.lastname) ∨
        (count_points a.points = count_points b.points ∧ a.lastname = b.lastname ∧
          byte_less a.firstname b.firstname) ∨
        (count_points a.points = count_points b.points ∧ a.lastname = b.lastname ∧
          a.firstname = b.firstname ∧ byte_less a.student_id b.student_id)) ∧
      (sort_students (some a.node) (some b.node) > 0 ↔
        count_points b.points > count_points a.points ∨
        (count_points a.points = count_points b.points ∧
          byte_less b.lastname a.lastname) ∨
        (count_points a.points = count_points b.points ∧ a.lastname = b.lastname ∧
          byte_less b.firstname a.firstname) ∨
        (count_points a.points = count_points b.points ∧ a.lastname = b.lastname ∧
          a.firstname = b.firstname ∧ byte_less b.student_id a.student_id)) ∧
      sort_students (some (list_head uninit)) (some a.node) < 0 ∧
      sort_students (some a.node) (some (list_head uninit)) > 0 := by
  have key : ∀ x y : Student, sort_students (some x.node) (some y.node) < 0 ↔
      (count_points x.points > count_points y.points ∨
        (count_points x.points = count_points y.points ∧
          byte_less x.lastname y.lastname) ∨
        (count_points x.points = count_points y.points ∧ x.lastname = y.lastname ∧
          byte_less x.firstname y.firstname) ∨
        (count_points x.points = count_points y.points ∧ x.lastname = y.lastname ∧
          x.firstname = y.firstname ∧ byte_less x.student_id y.student_id)) := by
    intro x y
    have := before_iff x y
    unfold before at this
    rw [this, strcmp_neg_iff, strcmp_neg_iff, strcmp_neg_iff]
    tauto
  refine ⟨key a b, ?_, ?_, ?_⟩
  · have hswap : sort_students (some a.node) (some b.node) > 0 ↔
        sort_students (some b.node) (some a.node) < 0 := by
      rw [sort_students_swap a b]; omega
    rw [hswap, key b a]
    constructor
    · rintro (h | ⟨h1, h2⟩ | ⟨h1, h2, h3⟩ | ⟨h1, h2, h3, h4⟩)
      · exact Or.inl h
      · exact Or.inr (Or.inl ⟨h1.symm, h2⟩)
      · exact Or.inr (Or.inr (Or.inl ⟨h1.symm, h2.symm, h3⟩))
      · exact Or.inr (Or.inr (Or.inr ⟨h1.symm, h2.symm, h3.symm, h4⟩))
    · rintro (h | ⟨h1, h2⟩ | ⟨h1, h2, h3⟩ | ⟨h1, h2, h3, h4⟩)
      · exact Or.inl h
      · exact Or.inr (Or.inl ⟨h1.symm, h2⟩)
      · exact Or.inr (Or.inr (Or.inl ⟨h1.symm, h2.symm, h3⟩))
      · exact Or.inr (Or.inr (Or.inr ⟨h1.symm, h2.symm, h3.symm, h4⟩))
  · simp [sort_students, list_head]
  · simp [sort_students, list_head, Student.node]

/-! ## Validation and parsing -/

theorem isdigit_eq (c : Char) : isdigit c = c.isDigit := by
  unfold isdigit Char.isDigit Char.toNat
  rfl

theorem strtol_digits_all (acc : Nat) (ds : CStr) (h : ds.all Char.isDigit = true) :
    strtol_digits acc ds = (ds.foldl (fun acc c => acc * 10 + (c.toNat - 48)) acc, []) := by
  induction ds generalizing acc with
  | nil => rfl
  | cons c cs ih =>
    simp only [List.all_cons, Bool.and_eq_true] at h
    have hc : isdigit c = true := by rw [isdigit_eq]; exact h.1
    simp only [strtol_digits, hc, if_true, List.foldl_cons]
    exact ih _ h.2

theorem strtol_digits_rest (acc : Nat) (ds : CStr) (h : ¬ ds.all Char.isDigit = true) :
    (strtol_digits acc ds).2 ≠ [] := by
  induction ds generalizing acc with
  | nil => simp at h
  | cons c cs ih =>
    by_cases hc : isdigit c = true
    · have hcs : ¬ cs.all Char.isDigit = true := by
        intro hall
        apply h
        simp only [List.all_cons, Bool.and_eq_true]
        exact ⟨by rw [← isdigit_eq]; exact hc, hall⟩
      simp only [strtol_digits, hc, if_true]
      exact ih _ hcs
    · simp [strtol_digits, hc]

theorem strtol_digits_length (acc : Nat) (ds : CStr) :
    (strtol_digits acc ds).2.length ≤ ds.length := by
  induction ds generalizing acc with
  | nil => simp [strtol_digits]
  | cons c cs ih =>
    by_cases hc : isdigit c = true
    · simp only [strtol_digits, hc, if_true, List.length_cons]
      exact Nat.le_succ_of_le (ih _)
    · simp [strtol_digits, hc]

theorem skip_space_length (s : CStr) : (skip_space s).length ≤ s.length := by
  induction s with
  | nil => simp [skip_space]
  | cons c cs ih =>
    by_cases hc : isspace c = true
    · simp only [skip_space, hc, if_true, List.length_cons]
      exact Nat.le_succ_of_le ih
    · simp [skip_space, hc]

/-- The sign and the digit part that `strtol` and `integer_value` both split a string into. -/
theorem integer_value_sign (t : CStr) :
    integer_value t =
      (digits_value (strtol_sign t).2).map
        (fun n : Nat => if (strtol_sign t).1 = true then -(n : Int) else (n : Int)) ∧
      (strtol_sign t).2.length ≤ t.length := by
  match t with
  | [] => simp [integer_value, strtol_sign]
  | c :: cs =>
    by_cases h1 : c = '-'
    · subst h1; simp [integer_value, strtol_sign]
    · by_cases h2 : c = '+'
      · subst h2; simp [integer_value, strtol_sign]
      · have e1 : strtol_sign (c :: cs) = (false, c :: cs) := by
          unfold strtol_sign
          split
          · rename_i h; exact absurd (List.cons.inj h).1 h1
          · rename_i h; exact absurd (List.cons.inj h).1 h2
          · rfl
        have e2 : integer_value (c :: cs) =
            (digits_value (c :: cs)).map (fun n : Nat => (n : Int)) := by
          unfold integer_value
          split
          · rename_i h; exact absurd (List.cons.inj h).1 h1
          · rename_i h; exact absurd (List.cons.inj h).1 h2
          · rfl
        rw [e1, e2]
        simp

theorem strtol_not_integer (str : CStr) (h : integer_value (skip_space str) = none) :
    (strtol str).2.length = str.length ∨ (strtol str).2 ≠ [] := by
  obtain ⟨hv, _⟩ := integer_value_sign (skip_space str)
  rw [h] at hv
  have hd : digits_value (strtol_sign (skip_space str)).2 = none := by
    cases hx : digits_value (strtol_sign (skip_space str)).2 with
    | none => rfl
    | some v => rw [hx] at hv; simp at hv
  unfold strtol
  simp only
  cases hu : (strtol_sign (skip_space str)).2 with
  | nil => exact Or.inl rfl
  | cons d ds =>
    simp only
    by_cases hdig : isdigit d = true
    · simp only [hdig, if_true]
      right
      apply strtol_digits_rest
      intro hall
      rw [hu] at hd
      simp [digits_value, hall] at hd
    · simp only [hdig]
      exact Or.inl rfl

theorem strtol_integer (str : CStr) (n : Int) (h : integer_value (skip_space str) = some n) :
    (strtol str).1 = clamp_long n ∧ (strtol str).2 = [] ∧ str ≠ [] := by
  obtain ⟨hv, _⟩ := integer_value_sign (skip_space str)
  rw [h] at hv
  cases hx : digits_value (strtol_sign (skip_space str)).2 with
  | none => rw [hx] at hv; simp at hv
  | some v =>
    rw [hx] at hv
    simp only [Option.map_some', Option.some.injEq] at hv
    have hne : str ≠ [] := by
      intro e
      rw [e] at h
      simp [skip_space, integer_value, digits_value] at h
    unfold digits_value at hx
    split_ifs at hx with hc
    simp only [Option.some.injEq] at hx
    cases hu : (strtol_sign (skip_space str)).2 with
    | nil => exact absurd hu (by rw [hu] at hc; exact absurd rfl hc.1)
    | cons d ds =>
      rw [hu] at hc hx
      have hall := hc.2
      have hdig : isdigit d = true := by
        rw [isdigit_eq]
        simp only [List.all_cons, Bool.and_eq_true] at hall
        exact hall.1
      have hr := strtol_digits_all 0 (d :: ds) hall
      rw [hx] at hr
      unfold strtol
      simp only [hu, hdig, if_true, hr]
      refine ⟨?_, trivial, hne⟩
      rw [hv]

theorem clamp_long_int (n : Int) :
    (clamp_long n < INT_MIN ∨ clamp_long n > INT_MAX ↔ n < INT_MIN ∨ n > INT_MAX) ∧
      (¬ (n < INT_MIN ∨ n > INT_MAX) → clamp_long n = n) := by
  unfold clamp_long INT_MIN INT_MAX LONG_MIN LONG_MAX
  split_ifs <;> constructor <;> omega

/-- The whole of `validate_int_input`: white space at the start is skipped; what follows must
be a base-10 integer. -/
theorem validate_int_input_eq (str : CStr) (allow_neg : Bool) :
    (integer_value (skip_space str) = none → validate_int_input str allow_neg = ERR_INT_CNV) ∧
      (∀ n, integer_value (skip_space str) = some n →
        validate_int_input str allow_neg =
          if n < INT_MIN ∨ n > INT_MAX then ERR_INT_OOB
          else if allow_neg = false ∧ n < 0 then ERR_INT_NEG
          else n) := by
  constructor
  · intro h
    have := strtol_not_integer str h
    simp [validate_int_input, this]
  · intro n h
    obtain ⟨h1, h2, h3⟩ := strtol_integer str n h
    have hlen : ¬ (0 = str.length) := by
      intro e
      exact h3 (List.length_eq_zero.1 e.symm)
    obtain ⟨c1, c2⟩ := clamp_long_int n
    unfold validate_int_input
    simp only [h1, h2, List.length_nil, hlen, ne_eq, not_true_eq_false, or_self, if_false]
    by_cases hr : n < INT_MIN ∨ n > INT_MAX
    · rw [if_pos (c1.2 hr), if_pos hr]
    · rw [if_neg (fun hc => hr (c1.1 hc)), if_neg hr, c2 hr]

theorem validate_rounds_eq (str : CStr) :
    (integer_value (skip_space str) = none → validate_rounds str = ERR_ROUND_CNV) ∧
      (∀ n, integer_value (skip_space str) = some n →
        validate_rounds str =
          if n < INT_MIN ∨ n > INT_MAX then ERR_INT_OOB
          else if n < 0 then ERR_INT_NEG
          else if n < 1 ∨ n > 6 then ERR_RND_NUM_OOB
          else n) := by
  obtain ⟨h1, h2⟩ := validate_int_input_eq str false
  constructor
  · intro h
    simp [validate_rounds, h1 h]
  · intro n h
    unfold validate_rounds
    simp only [h2 n h]
    unfold ERR_INT_CNV ERR_INT_OOB ERR_INT_NEG INT_ERR_BOUND ERR_ROUND_CNV ERR_RND_NUM_OOB
      INT_MIN INT_MAX EXCRS_RNDS
    simp only [true_and, Nat.cast_ofNat]
    split_ifs <;> first | rfl | omega

theorem validate_points_eq (str : CStr) :
    (integer_value (skip_space str) = none → validate_points str = ERR_POINTS_CNV) ∧
      (∀ n, integer_value (skip_space str) = some n →
        validate_points str =
          if n < INT_MIN ∨ n > INT_MAX then ERR_INT_OOB
          else if n < 0 then ERR_INT_NEG
          else if n > 999 then ERR_PTS_OOB
          else n) := by
  obtain ⟨h1, h2⟩ := validate_int_input_eq str false
  constructor
  · intro h
    simp [validate_points, h1 h]
  · intro n h
    unfold validate_points
    simp only [h2 n h]
    unfold ERR_INT_CNV ERR_INT_OOB ERR_INT_NEG INT_ERR_BOUND ERR_POINTS_CNV ERR_PTS_OOB
      INT_MIN INT_MAX EXCRS_PTS
    simp only [true_and]
    split_ifs <;> first | rfl | omega

/-- C11: on students of the roster `sort_students` is a strict total order: it is 0 exactly
when totals, last names, first names and ids are equal, so never for two different ids;
swapping the arguments swaps the sign; one of two students with different ids sorts before
the other; and sorting before is transitive. -/
theorem C11_strict_total_order (a b c : Student) :
    (sort_students (some a.node) (some b.node) = 0 ↔
        count_points a.points = count_points b.points ∧ a.lastname = b.lastname ∧
          a.firstname = b.firstname ∧ a.student_id = b.student_id) ∧
      (a.student_id ≠ b.student_id → sort_students (some a.node) (some b.node) ≠ 0) ∧
      (sort_students (some b.node) (some a.node) < 0 ↔
        sort_students (some a.node) (some b.node) > 0) ∧
      (sort_students (some b.node) (some a.node) > 0 ↔
        sort_students (some a.node) (some b.node) < 0) ∧
      (sort_students (some b.node) (some a.node) = 0 ↔
        sort_students (some a.node) (some b.node) = 0) ∧
      (a.student_id ≠ b.student_id →
        sort_students (some a.node) (some b.node) < 0 ∨
          sort_students (some b.node) (some a.node) < 0) ∧
      (sort_students (some a.node) (some b.node) < 0 →
        sort_students (some b.node) (some c.node) < 0 →
        sort_students (some a.node) (some c.node) < 0) := by
  have hz := sort_students_eq_zero_iff a b
  have hsw := sort_students_swap a b
  refine ⟨hz, fun hid e => hid (hz.1 e).2.2.2, ?_, ?_, ?_, ?_, fun h1 h2 => before_trans h1 h2⟩
  · rw [hsw]; omega
  · rw [hsw]; omega
  · rw [hsw]; omega
  · intro hid
    by_cases h : before a b
    · exact Or.inl h
    · exact Or.inr (before_of_not_before hid h)

/-- C11 at three concrete students: `a` before `b` before `c`, hence `a` before `c`. -/
theorem C11_strict_total_order_witness :
    sort_students (some (Student.node ⟨"A1".toList, "Roe".toList, "Al".toList, ⟨0, 0, 7, 0, 0, 0⟩⟩))
        (some (Student.node ⟨"B".toList, "Doe".toList, "Jane".toList, ⟨0, 0, 5, 0, 0, 0⟩⟩)) < 0 ∧
      sort_students (some (Student.node ⟨"B".toList, "Doe".toList, "Jane".toList, ⟨0, 0, 5, 0, 0, 0⟩⟩))
        (some (Student.node ⟨"C".toList, "Doe".toList, "John".toList, ⟨0, 0, 5, 0, 0, 0⟩⟩)) < 0 ∧
      sort_students (some (Student.node ⟨"A1".toList, "Roe".toList, "Al".toList, ⟨0, 0, 7, 0, 0, 0⟩⟩))
        (some (Student.node ⟨"C".toList, "Doe".toList, "John".toList, ⟨0, 0, 5, 0, 0, 0⟩⟩)) < 0 :=
  ⟨by decide, by decide,
    (C11_strict_total_order ⟨"A1".toList, "Roe".toList, "Al".toList, ⟨0, 0, 7, 0, 0, 0⟩⟩
      ⟨"B".toList, "Doe".toList, "Jane".toList, ⟨0, 0, 5, 0, 0, 0⟩⟩
      ⟨"C".toList, "Doe".toList, "John".toList, ⟨0, 0, 5, 0, 0, 0⟩⟩).2.2.2.2.2.2
      (by decide) (by decide)⟩

/-- C12 as stated fails twice. With `allow_neg` set, the string `-2147483648` is a base-10
integer in range, and the value returned for it is the number `ERR_INT_CNV`. With
`allow_neg` clear, a tab followed by `5` is not in its entirety a base-10 integer, and the
function returns 5. -/
theorem C12_counterexample :
    ¬ (∀ str : CStr, validate_int_input str true = ERR_INT_CNV ↔ integer_value str = none) ∧
      ¬ (∀ str : CStr, validate_int_input str false = ERR_INT_CNV ↔
        integer_value str = none) := by
  constructor
  · intro h
    have := (h "-2147483648".toList).1 (by decide)
    revert this
    decide
  · intro h
    have := (h "\t5".toList).2 (by decide)
    revert this
    decide

/-- C12, amended: `validate_int_input` skips the white space at the start of the string, as
`strtol` does. When the rest is not in its entirety a base-10 integer the result is
`ERR_INT_CNV`; when it is an integer outside the 32-bit range, `ERR_INT_OOB`; when it is
negative, in range, and `allow_neg` is clear, `ERR_INT_NEG`; otherwise the integer. With
`allow_neg` clear each of the three codes is returned in its case only, every result
below `INT_ERR_BOUND` is one of the three codes, and every other result is at least 0. -/
theorem C12_validate_int_input (str : CStr) (allow_neg : Bool) :
    (integer_value (skip_space str) = none → validate_int_input str allow_neg = ERR_INT_CNV) ∧
      (∀ n, integer_value (skip_space str) = some n →
        validate_int_input str allow_neg =
          if n < INT_MIN ∨ n > INT_MAX then ERR_INT_OOB
          else if allow_neg = false ∧ n < 0 then ERR_INT_NEG
          else n) ∧
      (allow_neg = false →
        (validate_int_input str allow_neg = ERR_INT_CNV ↔
          integer_value (skip_space str) = none) ∧
        (validate_int_input str allow_neg = ERR_INT_OOB ↔
          ∃ n, integer_value (skip_space str) = some n ∧ (n < INT_MIN ∨ n > INT_MAX)) ∧
        (validate_int_input str allow_neg = ERR_INT_NEG ↔
          ∃ n, integer_value (skip_space str) = some n ∧ INT_MIN ≤ n ∧ n < 0) ∧
        (validate_int_input str allow_neg < INT_ERR_BOUND ↔
          validate_int_input str allow_neg = ERR_INT_CNV ∨
          validate_int_input str allow_neg = ERR_INT_OOB ∨
          validate_int_input str allow_neg = ERR_INT_NEG) ∧
        (INT_ERR_BOUND ≤ validate_int_input str allow_neg →
          0 ≤ validate_int_input str allow_neg ∧
            integer_value (skip_space str) = some (validate_int_input str allow_neg))) := by
  obtain ⟨h1, h2⟩ := validate_int_input_eq str allow_neg
  refine ⟨h1, h2, ?_⟩
  intro hf
  subst hf
  cases hv : integer_value (skip_space str) with
  | none =>
    rw [h1 hv]
    simp [ERR_INT_CNV, ERR_INT_OOB, ERR_INT_NEG, INT_ERR_BOUND, INT_MIN]
  | some n =>
    rw [h2 n hv]
    simp only [Option.some.injEq, exists_eq_left', true_and, reduceCtorEq, iff_false]
    unfold ERR_INT_CNV ERR_INT_OOB ERR_INT_NEG INT_ERR_BOUND INT_MIN INT_MAX
    split_ifs with c1 c2
    · refine ⟨by omega, ?_, ?_, by omega, by omega⟩
      · simp only [true_iff]; exact c1
      · constructor
        · intro h; omega
        · intro h; omega
    · refine ⟨by omega, ?_, ?_, by omega, by omega⟩
      · constructor
        · intro h; omega
        · intro h; omega
      · simp only [true_iff]; omega
    · refine ⟨by omega, ?_, ?_, ?_, ?_⟩
      · constructor
        · intro h; omega
        · intro h; omega
      · constructor
        · intro h; omega
        · intro h; omega
      · constructor
        · intro h; omega
        · intro h; omega
      · intro _
        exact ⟨by omega, rfl⟩

/-- C12 (amended) at concrete strings, with `allow_neg` clear. -/
theorem C12_validate_int_input_witness :
    integer_value (skip_space "abc".toList) = none ∧
      validate_int_input "abc".toList false = ERR_INT_CNV ∧
      validate_int_input "-7".toList false = ERR_INT_NEG ∧
      validate_int_input "4294967296".toList false = ERR_INT_OOB ∧
      validate_int_input "\t+42".toList false = 42 :=
  ⟨by decide, (C12_validate_int_input "abc".toList false).1 (by decide),
    by decide, by decide, by decide⟩

/-- C13 as stated fails twice: `-1` is an integer outside `[1, 6]` and `validate_rounds`
returns `ERR_INT_NEG` for it, not `ERR_RND_NUM_OOB`; a tab followed by `5` is not in its
entirety a base-10 integer and `validate_rounds` returns 5, not `ERR_ROUND_CNV`. -/
theorem C13_counterexample :
    ¬ (∀ (str : CStr) (n : Int), integer_value str = some n → (n < 1 ∨ 6 < n) →
        validate_rounds str = ERR_RND_NUM_OOB) ∧
      ¬ (∀ str : CStr, integer_value str = none → validate_rounds str = ERR_ROUND_CNV) := by
  constructor
  · intro h
    have := h "-1".toList (-1) (by decide) (by decide)
    revert this
    decide
  · intro h
    have := h "\t5".toList (by decide)
    revert this
    decide

/-- C13, amended: `validate_rounds` skips the white space at the start of the string. When
the rest is not in its entirety a base-10 integer the result is `ERR_ROUND_CNV`; for an
integer outside the 32-bit range it is `ERR_INT_OOB`, for a negative one in that range
`ERR_INT_NEG`, for 0 and for one above 6 `ERR_RND_NUM_OOB`, and otherwise the integer; so
`n` in `[1, 6]` is returned exactly when the rest denotes `n`. The texts `7` and `0` give
`ERR_RND_NUM_OOB`. -/
theorem C13_validate_rounds (str : CStr) :
    (integer_value (skip_space str) = none → validate_rounds str = ERR_ROUND_CNV) ∧
      (∀ n, integer_value (skip_space str) = some n →
        validate_rounds str =
          if n < INT_MIN ∨ n > INT_MAX then ERR_INT_OOB
          else if n < 0 then ERR_INT_NEG
          else if n < 1 ∨ n > 6 then ERR_RND_NUM_OOB
          else n) ∧
      (∀ n : Int, 1 ≤ n → n ≤ 6 →
        (validate_rounds str = n ↔ integer_value (skip_space str) = some n)) ∧
      validate_rounds "7".toList = ERR_RND_NUM_OOB ∧
      validate_rounds "0".toList = ERR_RND_NUM_OOB := by
  obtain ⟨h1, h2⟩ := validate_rounds_eq str
  refine ⟨h1, h2, ?_, by decide, by decide⟩
  intro n hn1 hn6
  cases hv : integer_value (skip_space str) with
  | none =>
    rw [h1 hv]
    simp only [reduceCtorEq, iff_false]
    unfold ERR_ROUND_CNV
    omega
  | some m =>
    rw [h2 m hv]
    simp only [Option.some.injEq]
    unfold ERR_INT_OOB ERR_INT_NEG ERR_RND_NUM_OOB INT_MIN INT_MAX
    split_ifs <;> constructor <;> intro h <;> omega

/-- C14 as stated fails twice: `-1` is an integer outside `[0, 999]` and `validate_points`
returns `ERR_INT_NEG` for it, not `ERR_PTS_OOB`; a tab followed by `5` is not in its
entirety a base-10 integer and `validate_points` returns 5, not `ERR_POINTS_CNV`. -/
theorem C14_counterexample :
    ¬ (∀ (str : CStr) (n : Int), integer_value str = some n → (n < 0 ∨ 999 < n) →
        validate_points str = ERR_PTS_OOB) ∧
      ¬ (∀ str : CStr, integer_value str = none → validate_points str = ERR_POINTS_CNV) := by
  constructor
  · intro h
    have := h "-1".toList (-1) (by decide) (by decide)
    revert this
    decide
  · intro h
    have := h "\t5".toList (by decide)
    revert this
    decide

/-- C14, amended: `validate_points` skips the white space at the start of the string. When
the rest is not in its entirety a base-10 integer the result is `ERR_POINTS_CNV`; for an
integer outside the 32-bit range it is `ERR_INT_OOB`, for a negative one in that range
`ERR_INT_NEG`, for one above 999 `ERR_PTS_OOB`, and otherwise the integer; so `n` in
`[0, 999]` is returned exactly when the rest denotes `n`. The text `1000` gives
`ERR_PTS_OOB`. -/
theorem C14_validate_points (str : CStr) :
    (integer_value (skip_space str) = none → validate_points str = ERR_POINTS_CNV) ∧
      (∀ n, integer_value (skip_space str) = some n →
        validate_points str =
          if n < INT_MIN ∨ n > INT_MAX then ERR_INT_OOB
          else if n < 0 then ERR_INT_NEG
          else if n > 999 then ERR_PTS_OOB
          else n) ∧
      (∀ n : Int, 0 ≤ n → n ≤ 999 →
        (validate_points str = n ↔ integer_value (skip_space str) = some n)) ∧
      validate_points "1000".toList = ERR_PTS_OOB := by
  obtain ⟨h1, h2⟩ := validate_points_eq str
  refine ⟨h1, h2, ?_, by decide⟩
  intro n hn1 hn6
  cases hv : integer_value (skip_space str) with
  | none =>
    rw [h1 hv]
    simp only [reduceCtorEq, iff_false]
    unfold ERR_POINTS_CNV
    omega
  | some m =>
    rw [h2 m hv]
    simp only [Option.some.injEq]
    unfold ERR_INT_OOB ERR_INT_NEG ERR_PTS_OOB INT_MIN INT_MAX
    split_ifs <;> constructor <;> intro h <;> omega

theorem isalnum_eq (c : Char) : isalnum c = c.isAlphanum := by
  unfold isalnum isupper islower isdigit Char.isAlphanum Char.isAlpha Char.isUpper
    Char.isLower Char.isDigit Char.toNat
  rfl

/-- C15: `validate_id` returns 0 exactly for a string of 1 to 6 characters that are all ASCII
letters or digits, `ERR_ID_EMPTY` for the empty string, `ERR_ID_TOO_LONG` for every string
of more than 6 characters, and `ERR_ID_NOT_ALNUM` for a string of 1 to 6 characters one of
which is not a letter or digit. -/
theorem C15_validate_id (student_id : CStr) :
    (validate_id student_id = 0 ↔
        1 ≤ student_id.length ∧ student_id.length ≤ 6 ∧
          ∀ c ∈ student_id, c.isAlphanum = true) ∧
      (student_id = [] → validate_id student_id = ERR_ID_EMPTY) ∧
      (6 < student_id.length → validate_id student_id = ERR_ID_TOO_LONG) ∧
      (1 ≤ student_id.length → student_id.length ≤ 6 →
        (∃ c ∈ student_id, c.isAlphanum = false) →
        validate_id student_id = ERR_ID_NOT_ALNUM) := by
  have hall : student_id.all isalnum = true ↔ ∀ c ∈ student_id, c.isAlphanum = true := by
    rw [List.all_eq_true]
    constructor
    · intro h c hc
      rw [← isalnum_eq]
      exact h c hc
    · intro h c hc
      rw [isalnum_eq]
      exact h c hc
  unfold validate_id STDNT_ID_LEN
  refine ⟨?_, ?_, ?_, ?_⟩
  · by_cases h6 : student_id.length > 6
    · simp only [h6, if_true]
      constructor
      · intro h; exact absurd h (by decide)
      · intro h; omega
    · by_cases h0 : student_id.length = 0
      · simp only [h6, if_false, h0, if_true]
        constructor
        · intro h; exact absurd h (by decide)
        · intro h; omega
      · by_cases ha : student_id.all isalnum = true
        · simp only [h6, if_false, h0, ha, if_true, true_iff]
          exact ⟨by omega, by omega, hall.1 ha⟩
        · simp only [h6, if_false, h0, ha]
          constructor
          · intro h; exact absurd h (by decide)
          · intro h; exact absurd (hall.2 h.2.2) ha
  · intro h
    subst h
    rfl
  · intro h
    simp [h]
  · intro h1 h6 hex
    have h6' : ¬ student_id.length > 6 := by omega
    have h0 : ¬ student_id.length = 0 := by omega
    have ha : ¬ student_id.all isalnum = true := by
      intro hc
      obtain ⟨c, hc1, hc2⟩ := hex
      have := hall.1 hc c hc1
      rw [hc2] at this
      exact absurd this (by decide)
    simp [h6', h0, ha]

/-- C15 at concrete ids. -/
theorem C15_validate_id_witness :
    validate_id "A1b2C3".toList = 0 ∧ validate_id [] = ERR_ID_EMPTY ∧
      validate_id "abc-efg".toList = ERR_ID_TOO_LONG ∧
      validate_id "ab-c".toList = ERR_ID_NOT_ALNUM :=
  ⟨by decide, (C15_validate_id []).2.1 rfl,
    (C15_validate_id "abc-efg".toList).2.2.1 (by decide),
    (C15_validate_id "ab-c".toList).2.2.2 (by decide) (by decide) (by decide)⟩

theorem isupper_eq (c : Char) : isupper c = c.isUpper := by
  unfold isupper Char.isUpper Char.toNat
  rfl

theorem isspace_iff (c : Char) : isspace c = true ↔ c ∈ white_space := by
  constructor
  · intro h
    simp only [isspace, Bool.or_eq_true, decide_eq_true_eq, Bool.and_eq_true] at h
    have hc : c.toNat = 32 ∨ c.toNat = 9 ∨ c.toNat = 10 ∨ c.toNat = 11 ∨ c.toNat = 12 ∨
        c.toNat = 13 := by omega
    rcases hc with e | e | e | e | e | e
    · have : c = ' ' := char_eq_of_toNat_eq (by rw [e]; rfl)
      subst this; decide
    · have : c = '\t' := char_eq_of_toNat_eq (by rw [e]; rfl)
      subst this; decide
    · have : c = '\n' := char_eq_of_toNat_eq (by rw [e]; rfl)
      subst this; decide
    · have : c = Char.ofNat 11 := char_eq_of_toNat_eq (by rw [e]; rfl)
      subst this; decide
    · have : c = Char.ofNat 12 := char_eq_of_toNat_eq (by rw [e]; rfl)
      subst this; decide
    · have : c = '\r' := char_eq_of_toNat_eq (by rw [e]; rfl)
      subst this; decide
  · intro h
    simp only [white_space, List.mem_cons, List.mem_singleton, List.not_mem_nil, or_false] at h
    rcases h with rfl | rfl | rfl | rfl | rfl | rfl <;> decide

theorem getLast_dot_iff (filename : CStr) :
    filename.getLast? = some '.' ↔ ∃ init, filename = init ++ ['.'] := by
  constructor
  · intro h
    exact ⟨filename.dropLast, (List.dropLast_append_getLast? _ h).symm⟩
  · rintro ⟨init, rfl⟩
    simp

/-- C16: for a non-empty string `validate_filename` returns 0 exactly when the string has
none of the characters `<>:"/\|?*`, is at most 255 long and does not end in a period; it
returns `ERR_FILENAME_INV` when the string has one of those characters, whatever its
length, and when it has none, is at most 255 long and ends in a period; it returns
`ERR_FILENAME_LEN` when it has none and is longer than 255. The names `a/b.txt` and
`report.` are rejected. -/
theorem C16_validate_filename (filename : CStr) (_hne : filename ≠ []) :
    (validate_filename filename = 0 ↔
        (∀ c ∈ filename, c ∉ invalid_chars) ∧ filename.length ≤ 255 ∧
          ¬ ∃ init, filename = init ++ ['.']) ∧
      ((∃ c ∈ filename, c ∈ invalid_chars) → validate_filename filename = ERR_FILENAME_INV) ∧
      ((∀ c ∈ filename, c ∉ invalid_chars) → filename.length ≤ 255 →
        (∃ init, filename = init ++ ['.']) → validate_filename filename = ERR_FILENAME_INV) ∧
      ((∀ c ∈ filename, c ∉ invalid_chars) → 255 < filename.length →
        validate_filename filename = ERR_FILENAME_LEN) ∧
      validate_filename "a/b.txt".toList = ERR_FILENAME_INV ∧
      validate_filename "report.".toList = ERR_FILENAME_INV := by
  have hany : filename.any (fun c => invalid_chars.contains c) = true ↔
      ∃ c ∈ filename, c ∈ invalid_chars := by
    simp [List.any_eq_true]
  have hdot := getLast_dot_iff filename
  unfold validate_filename
  refine ⟨?_, ?_, ?_, ?_, by decide, by decide⟩
  · by_cases h1 : filename.any (fun c => invalid_chars.contains c) = true
    · rw [if_pos h1]
      constructor
      · intro h; exact absurd h (by decide)
      · intro h
        obtain ⟨c, hc1, hc2⟩ := hany.1 h1
        exact absurd hc2 (h.1 c hc1)
    · have hnone : ∀ c ∈ filename, c ∉ invalid_chars := fun c hc hi => h1 (hany.2 ⟨c, hc, hi⟩)
      rw [if_neg h1]
      by_cases h2 : filename.length > 255
      · rw [if_pos h2]
        constructor
        · intro h; exact absurd h (by decide)
        · intro h; omega
      · rw [if_neg h2]
        by_cases h3 : filename.getLast? = some '.'
        · rw [if_pos h3]
          constructor
          · intro h; exact absurd h (by decide)
          · intro h; exact absurd (hdot.1 h3) h.2.2
        · rw [if_neg h3]
          simp only [true_iff]
          exact ⟨hnone, by omega, fun h => h3 (hdot.2 h)⟩
  · intro h
    rw [if_pos (hany.2 h)]
  · intro h hl hd
    have h1 : ¬ filename.any (fun c => invalid_chars.contains c) = true := by
      intro hc
      obtain ⟨c, hc1, hc2⟩ := hany.1 hc
      exact h c hc1 hc2
    have h2 : ¬ filename.length > 255 := by omega
    rw [if_neg h1, if_neg h2, if_pos (hdot.2 hd)]
  · intro h hl
    have h1 : ¬ filename.any (fun c => invalid_chars.contains c) = true := by
      intro hc
      obtain ⟨c, hc1, hc2⟩ := hany.1 hc
      exact h c hc1 hc2
    rw [if_neg h1, if_pos hl]

/-- C16 at concrete names. -/
theorem C16_validate_filename_witness :
    "a.txt".toList ≠ [] ∧ validate_filename "a.txt".toList = 0 ∧
      validate_filename "a:b".toList = ERR_FILENAME_INV :=
  ⟨by decide, by decide,
    (C16_validate_filename "a:b".toList (by decide)).2.1 ⟨':', by decide, by decide⟩⟩

/-- C17: for a line of at most one byte `parse_input` returns NULL and sets the error to
`ERR_EMPTY_INP` for an interactive line and to `ERR_FILE_CORR` for a line of a file,
whatever the error variable held before. -/
theorem C17_empty_line (input : CStr) (error : Int) (h : input.length ≤ 1) :
    parse_input input error true = (none, ERR_EMPTY_INP) ∧
      parse_input input error false = (none, ERR_FILE_CORR) := by
  simp [parse_input, h]

/-- C17 at the line that holds only a newline. -/
theorem C17_empty_line_witness :
    "\n".toList.length ≤ 1 ∧
      parse_input "\n".toList 0 true = (none, ERR_EMPTY_INP) ∧
      parse_input "\n".toList 0 false = (none, ERR_FILE_CORR) :=
  ⟨by decide, C17_empty_line "\n".toList 0 (by decide)⟩

theorem strtok_all_ne_nil (cur rest : CStr) (h : cur ≠ []) : strtok_all cur rest ≠ [] := by
  induction rest generalizing cur with
  | nil =>
    have : cur.isEmpty = false := by
      cases cur with
      | nil => exact absurd rfl h
      | cons c cs => rfl
    simp [strtok_all, this]
  | cons c cs ih =>
    by_cases hc : is_delim c = true
    · have : cur.isEmpty = false := by
        cases cur with
        | nil => exact absurd rfl h
        | cons c cs => rfl
      simp [strtok_all, hc, this]
    · simp only [strtok_all, hc]
      exact ih (c :: cur) (by simp)

theorem tokens_ne_nil_of_upper (c : Char) (rest : CStr) (h : isupper c = true) :
    tokens (c :: rest) ≠ [] := by
  have hd : is_delim c = false := by
    simp only [isupper, Bool.and_eq_true, decide_eq_true_eq] at h
    simp only [is_delim, Bool.or_eq_false_iff, decide_eq_false_iff_not]
    constructor
    · intro e; subst e; revert h; decide
    · intro e; subst e; revert h; decide
  unfold tokens
  simp only [strtok_all, hd]
  exact strtok_all_ne_nil [c] rest (by simp)

theorem count_arguments_tokens (line : CStr) (h : tokens line ≠ []) :
    count_arguments line = ((tokens line).length : Int) := by
  unfold count_arguments
  cases hx : tokens line with
  | nil => exact absurd hx h
  | cons t ts => rfl

theorem count_arguments_neg_iff (line : CStr) : count_arguments line < 0 ↔ tokens line = [] := by
  unfold count_arguments
  cases hx : tokens line with
  | nil => simp [ERR_NON_VIABLE_INP]
  | cons t ts =>
    simp only [reduceCtorEq, iff_false, not_lt]
    omega

theorem parse_command_eq (c0 c1 : Char) (rest : CStr) (error : Int) :
    parse_command (c0 :: c1 :: rest) error =
      if isupper c0 = false ∨ isspace c1 = false then (ERR_CHAR, error)
      else if c0 ∈ command_chars then (c0, error)
      else (c0, ERR_INV_CMND_CHAR) := by
  have h0 : charAt (c0 :: c1 :: rest) 0 = c0 := rfl
  have h1 : charAt (c0 :: c1 :: rest) 1 = c1 := rfl
  unfold parse_command
  rw [h0, h1]
  simp only [ADD, UPDATE, LIST, WRITE, LOAD, QUIT, command_chars, List.mem_cons,
    List.mem_singleton, List.not_mem_nil, or_false]
  by_cases hu : isupper c0 = true <;> by_cases hs : isspace c1 = true <;> simp [hu, hs]
  split_ifs <;> simp_all

/-- The three ways an interactive line of two bytes or more is parsed. -/
theorem parse_user_line (c0 c1 : Char) (rest : CStr) :
    ((isupper c0 = false ∨ isspace c1 = false) →
        parse_input (c0 :: c1 :: rest) 0 true = (none, ERR_NO_CMND_CHAR)) ∧
      (isupper c0 = true → isspace c1 = true → c0 ∈ command_chars →
        parse_input (c0 :: c1 :: rest) 0 true =
          (some ⟨((tokens (c0 :: c1 :: rest)).length : Int), c0,
            (List.range MAX_ARGS).map (fun i => (tokens (c0 :: c1 :: rest))[i]?)⟩, 0)) ∧
      (isupper c0 = true → isspace c1 = true → c0 ∉ command_chars →
        parse_input (c0 :: c1 :: rest) 0 true =
          (some ⟨0, c0, List.replicate MAX_ARGS none⟩, ERR_INV_CMND_CHAR)) := by
  have hlen : ¬ (c0 :: c1 :: rest).length ≤ 1 := by simp
  have hpc := parse_command_eq c0 c1 rest 0
  refine ⟨?_, ?_, ?_⟩
  · intro h
    rw [if_pos h] at hpc
    simp [parse_input, hpc, ERR_INV_CMND_CHAR]
  · intro hu hs hc
    have hn : ¬ (isupper c0 = false ∨ isspace c1 = false) := by simp [hu, hs]
    rw [if_neg hn, if_pos hc] at hpc
    have hne : c0 ≠ ERR_CHAR := by
      intro e
      rw [e] at hu
      revert hu
      decide
    have htok := tokens_ne_nil_of_upper c0 (c1 :: rest) hu
    have hcount := count_arguments_tokens _ htok
    have hnn : ¬ ((tokens (c0 :: c1 :: rest)).length : Int) < 0 := by omega
    simp only [parse_input, hlen, if_false, hpc, hcount, hnn, if_true]
    simp [ERR_INV_CMND_CHAR, hne]
  · intro hu hs hc
    have hn : ¬ (isupper c0 = false ∨ isspace c1 = false) := by simp [hu, hs]
    rw [if_neg hn, if_neg hc] at hpc
    simp [parse_input, hpc]

/-- C18: for an interactive line of at least two bytes, read with the error variable at 0 as
`run` does, `parse_input` sets `ERR_NO_CMND_CHAR` exactly when the first byte is not an
upper-case letter or the second is not a white-space character, and then returns NULL; when
the first byte is one of `A U L W O Q` and the second is white space, it returns a parsed
input whose `cmnd` is that byte and leaves the error at 0. -/
theorem C18_command_character (c0 c1 : Char) (rest : CStr) :
    ((parse_input (c0 :: c1 :: rest) 0 true).2 = ERR_NO_CMND_CHAR ↔
        (c0.isUpper = false ∨ c1 ∉ white_space)) ∧
      ((c0.isUpper = false ∨ c1 ∉ white_space) →
        (parse_input (c0 :: c1 :: rest) 0 true).1 = none) ∧
      (c0 ∈ command_chars → c1 ∈ white_space →
        ∃ inp, parse_input (c0 :: c1 :: rest) 0 true = (some inp, 0) ∧ inp.cmnd = c0) := by
  obtain ⟨p1, p2, p3⟩ := parse_user_line c0 c1 rest
  have hcond : (c0.isUpper = false ∨ c1 ∉ white_space) ↔
      (isupper c0 = false ∨ isspace c1 = false) := by
    rw [← isupper_eq, ← isspace_iff]
    simp
  have hup : c0 ∈ command_chars → isupper c0 = true := by
    intro h
    simp only [command_chars, List.mem_cons, List.mem_singleton, List.not_mem_nil,
      or_false] at h
    rcases h with rfl | rfl | rfl | rfl | rfl | rfl <;> decide
  refine ⟨?_, ?_, ?_⟩
  · rw [hcond]
    constructor
    · intro h
      by_contra hn
      have hu : isupper c0 = true := by
        by_contra hc
        exact hn (Or.inl (by simpa using hc))
      have hs : isspace c1 = true := by
        by_contra hc
        exact hn (Or.inr (by simpa using hc))
      by_cases hc : c0 ∈ command_chars
      · rw [p2 hu hs hc] at h
        have h2 : (0 : Int) = ERR_NO_CMND_CHAR := h
        exact absurd h2 (by decide)
      · rw [p3 hu hs hc] at h
        have h2 : ERR_INV_CMND_CHAR = ERR_NO_CMND_CHAR := h
        exact absurd h2 (by decide)
    · intro h
      rw [p1 h]
  · intro h
    rw [p1 (hcond.1 h)]
  · intro hc hs
    exact ⟨_, p2 (hup hc) ((isspace_iff c1).2 hs) hc, rfl⟩

/-- C18 at the line `A A1 Roe Al`. -/
theorem C18_command_character_witness :
    ∃ inp, parse_input "A A1 Roe Al\n".toList 0 true = (some inp, 0) ∧ inp.cmnd = 'A' :=
  (C18_command_character 'A' ' ' "A1 Roe Al\n".toList).2.2 (by decide) (by decide)

/-- C19, at the input where the code departs from it: the record line
`B Doe Jane 0 0 0 0 0 0 0` has ten tokens, and in file mode `parse_input` takes its first
byte for an unknown command: it sets `ERR_INV_CMND_CHAR`, puts `B` into `cmnd` instead of
`NO_CMND_CHAR`, and fills no argument slot. -/
theorem C19_file_line_taken_for_command :
    2 ≤ "B Doe Jane 0 0 0 0 0 0 0\n".toList.length ∧
      (tokens "B Doe Jane 0 0 0 0 0 0 0\n".toList).length = 10 ∧
      parse_input "B Doe Jane 0 0 0 0 0 0 0\n".toList 0 false =
        (some ⟨0, 'B', List.replicate 10 none⟩, ERR_INV_CMND_CHAR) := by
  decide

theorem strtok_all_eq_split (cur rest : CStr) :
    strtok_all cur rest =
      (List.splitOnP.go is_delim rest cur).filter (fun t => !t.isEmpty) := by
  induction rest generalizing cur with
  | nil =>
    cases cur with
    | nil => rfl
    | cons c cs =>
      have h1 : (c :: cs).isEmpty = false := rfl
      have h2 : ((c :: cs).reverse).isEmpty = false := by
        simp [List.isEmpty_iff]
      simp [strtok_all, List.splitOnP.go, h2]
  | cons c cs ih =>
    by_cases hc : is_delim c = true
    · cases cur with
      | nil => simp [strtok_all, List.splitOnP.go, hc, ih]
      | cons d ds =>
        have h2 : ((d :: ds).reverse).isEmpty = false := by
          simp [List.isEmpty_iff]
        simp [strtok_all, List.splitOnP.go, hc, ih, h2]
    · simp [strtok_all, List.splitOnP.go, hc, ih]

theorem strtok_all_clean (cur rest : CStr) (hcur : ∀ c ∈ cur, is_delim c = false) :
    ∀ t ∈ strtok_all cur rest, t ≠ [] ∧ ∀ c ∈ t, is_delim c = false := by
  induction rest generalizing cur with
  | nil =>
    intro t ht
    cases cur with
    | nil => simp [strtok_all] at ht
    | cons d ds =>
      simp only [strtok_all, List.isEmpty_cons, Bool.false_eq_true, if_false,
        List.mem_singleton] at ht
      subst ht
      refine ⟨by simp, ?_⟩
      intro c hc
      exact hcur c (List.mem_reverse.1 hc)
  | cons c cs ih =>
    intro t ht
    by_cases hc : is_delim c = true
    · cases cur with
      | nil =>
        simp only [strtok_all, hc, if_true, List.isEmpty_nil] at ht
        exact ih [] (by simp) t ht
      | cons d ds =>
        simp only [strtok_all, hc, if_true, List.isEmpty_cons, Bool.false_eq_true, if_false,
          List.mem_cons] at ht
        rcases ht with rfl | ht
        · refine ⟨by simp, ?_⟩
          intro x hx
          exact hcur x (List.mem_reverse.1 hx)
        · exact ih [] (by simp) t ht
    · simp only [strtok_all, hc] at ht
      refine ih (c :: cur) ?_ t ht
      intro x hx
      rcases List.mem_cons.1 hx with rfl | hx
      · simpa using hc
      · exact hcur x hx

/-- A full parse: the result of `parse_input`, entered with the error at 0, when it returns a
parsed input and leaves the error at 0. -/
theorem parse_input_full (line : CStr) (user_input : Bool) (inp : Input)
    (h : parse_input line 0 user_input = (some inp, 0)) :
    inp.arg_count = ((tokens line).length : Int) ∧
      inp.arg_arr = (List.range MAX_ARGS).map (fun i => (tokens line)[i]?) := by
  by_cases h1 : line.length ≤ 1
  · simp [parse_input, h1] at h
  by_cases h2 : (parse_command line 0).2 = ERR_INV_CMND_CHAR
  · simp only [parse_input, h1, if_false, h2, if_true, Prod.mk.injEq] at h
    exact absurd h.2 (by decide)
  by_cases h3 : (user_input && decide ((parse_command line 0).1 = ERR_CHAR)) = true
  · simp only [parse_input, h1, if_false, h2, h3, if_true, Prod.mk.injEq] at h
    exact absurd h.1 (by simp)
  by_cases h4 : count_arguments line < 0
  · simp only [parse_input, h1, if_false, h2, h3, h4, if_true, Prod.mk.injEq,
      Bool.false_eq_true] at h
    exact absurd h.1 (by simp)
  simp only [parse_input, h1, if_false, h2, h3, h4, Prod.mk.injEq, Option.some.injEq,
    Bool.false_eq_true] at h
  have ht : tokens line ≠ [] := fun e => h4 ((count_arguments_neg_iff line).2 e)
  rw [← h.1]
  exact ⟨count_arguments_tokens line ht, rfl⟩

/-- C20: after a full parse (a parsed input is returned and no error is set), in either
mode, `arg_count` is the number of tokens of the line, the tokens being the non-empty
pieces between the bytes space and newline, also when there are more than 10; there are 10
slots, slot `i < 10` holds token `i` when the line has one and is NULL when it has not;
and a token is not empty and holds no space and no newline. -/
theorem C20_argument_slots (line : CStr) (user_input : Bool) (inp : Input)
    (h : parse_input line 0 user_input = (some inp, 0)) :
    tokens line = (line.splitOnP is_delim).filter (fun t => !t.isEmpty) ∧
      inp.arg_count = ((tokens line).length : Int) ∧
      inp.arg_arr.length = 10 ∧
      (∀ i, i < 10 → inp.arg_arr[i]? = some ((tokens line)[i]?)) ∧
      (∀ i, i < 10 → (tokens line).length ≤ i → inp.arg_arr[i]? = some none) ∧
      (∀ t ∈ tokens line, t ≠ [] ∧ ' ' ∉ t ∧ '\n' ∉ t) := by
  obtain ⟨h1, h2⟩ := parse_input_full line user_input inp h
  have hslot : ∀ i, i < 10 → inp.arg_arr[i]? = some ((tokens line)[i]?) := by
    intro i hi
    have : i < MAX_ARGS := hi
    rw [h2]
    simp [List.getElem?_map, List.getElem?_range, this]
  refine ⟨strtok_all_eq_split [] line, h1, by rw [h2]; simp [MAX_ARGS], hslot, ?_, ?_⟩
  · intro i hi hlen
    rw [hslot i hi, List.getElem?_eq_none hlen]
  · intro t ht
    obtain ⟨hne, hclean⟩ := strtok_all_clean [] line (by simp) t ht
    refine ⟨hne, ?_, ?_⟩
    · intro hm
      have := hclean ' ' hm
      revert this
      decide
    · intro hm
      have := hclean '\n' hm
      revert this
      decide

/-- C20 at an interactive line of twelve tokens. -/
theorem C20_argument_slots_witness :
    parse_input "A a b c d e f g h i j k\n".toList 0 true =
        (some ⟨12, 'A', ["A", "a", "b", "c", "d", "e", "f", "g", "h", "i"].map
          (fun s => some s.toList)⟩, 0) ∧
      (tokens "A a b c d e f g h i j k\n".toList).length = 12 ∧
      (∀ t ∈ tokens "A a b c d e f g h i j k\n".toList, t ≠ [] ∧ ' ' ∉ t ∧ '\n' ∉ t) :=
  ⟨by decide, by decide,
    (C20_argument_slots "A a b c d e f g h i j k\n".toList true
      ⟨12, 'A', ["A", "a", "b", "c", "d", "e", "f", "g", "h", "i"].map
        (fun s => some s.toList)⟩ (by decide)).2.2.2.2.2⟩

/-! ## Dispatch, writing, insertion and reachable rosters -/

theorem run_soft (files : Files) (input : CStr) (st : List Student) (inp : Input) (e : Int)
    (hp : parse_input input 0 true = (some inp, e)) (he : e ≠ 0) :
    run files input st =
      ⟨0, st, "Invalid command ".toList ++ [inp.cmnd, '\n'], none⟩ := by
  unfold run
  simp only [hp, ne_eq, he, not_false_eq_true, if_true]

theorem run_invalid (files : Files) (input : CStr) (st : List Student) (inp : Input)
    (hp : parse_input input 0 true = (some inp, 0)) (hv : validate_input inp ≠ 0) :
    run files input st = ⟨validate_input inp, st, [], none⟩ := by
  unfold run
  simp only [hp, ne_eq, not_true_eq_false, if_false, hv, not_false_eq_true, if_true]

theorem run_update (files : Files) (input : CStr) (st : List Student) (inp : Input)
    (hp : parse_input input 0 true = (some inp, 0)) (hv : validate_input inp = 0)
    (hc : inp.cmnd = UPDATE) :
    run files input st =
      ⟨(update_points (inp.arg 1) (inp.arg 2) (inp.arg 3) st).1,
        (update_points (inp.arg 1) (inp.arg 2) (inp.arg 3) st).2,
        if (update_points (inp.arg 1) (inp.arg 2) (inp.arg 3) st).1 = 0 then
          "SUCCESS\n".toList else [], none⟩ := by
  have hne : ¬ UPDATE = ADD := by decide
  unfold run
  simp only [hp, ne_eq, not_true_eq_false, if_false, hv, hc, hne, if_true]

theorem tokens_of_delims (cur line : CStr) (h : ∀ c ∈ line, c = ' ' ∨ c = '\n') :
    strtok_all cur line = if cur.isEmpty then [] else [cur.reverse] := by
  induction line generalizing cur with
  | nil => rfl
  | cons c cs ih =>
    have hc : is_delim c = true := by
      rcases h c (List.mem_cons_self _ _) with rfl | rfl <;> decide
    have := ih [] (fun x hx => h x (List.mem_cons_of_mem _ hx))
    simp only [strtok_all, hc, if_true, this, List.isEmpty_nil]

/-- C21 as stated fails for interactive lines: the line of two spaces and a newline holds no
token and `parse_input` sets `ERR_NO_CMND_CHAR` for it, not `ERR_NON_VIABLE_INP`. -/
theorem C21_counterexample :
    ¬ (∀ line : CStr, 1 < line.length → (∀ c ∈ line, c = ' ' ∨ c = '\n') →
        parse_input line 0 true = (none, ERR_NON_VIABLE_INP)) := by
  intro h
  have := h "  \n".toList (by decide) (by decide)
  revert this
  decide

/-- C21, amended: for a line of more than one byte that consists only of spaces and newlines
(so holds no token), `parse_input` returns NULL; it sets `ERR_NON_VIABLE_INP` when the line
comes from a file, and `ERR_NO_CMND_CHAR` when the line is interactive, where the command
character is looked for before the tokens are counted. -/
theorem C21_zero_tokens (line : CStr) (hlen : 1 < line.length)
    (hd : ∀ c ∈ line, c = ' ' ∨ c = '\n') :
    tokens line = [] ∧
      parse_input line 0 false = (none, ERR_NON_VIABLE_INP) ∧
      parse_input line 0 true = (none, ERR_NO_CMND_CHAR) := by
  have ht : tokens line = [] := by
    unfold tokens
    rw [tokens_of_delims [] line hd]
    rfl
  match line, hlen, hd, ht with
  | c0 :: c1 :: rest, _, hd, ht =>
    have hc : c0 = ' ' ∨ c0 = '\n' := hd c0 (List.mem_cons_self _ _)
    have hup : isupper c0 = false := by
      rcases hc with rfl | rfl <;> decide
    have hu : starts_unknown_command (c0 :: c1 :: rest) = false := by
      have h0 : charAt (c0 :: c1 :: rest) 0 = c0 := rfl
      simp [starts_unknown_command, h0, hup]
    refine ⟨ht, parse_file_no_token _ (by simp) hu ht, ?_⟩
    exact (parse_user_line c0 c1 rest).1 (Or.inl hup)

/-- C21 (amended) at the line of two spaces and a newline. -/
theorem C21_zero_tokens_witness :
    parse_input "  \n".toList 0 false = (none, ERR_NON_VIABLE_INP) ∧
      parse_input "  \n".toList 0 true = (none, ERR_NO_CMND_CHAR) :=
  (C21_zero_tokens "  \n".toList (by decide) (by decide)).2

/-- An interactive line that is parsed in full starts with a command character and white
space; the parsed input holds that character and the tokens of the line. -/
theorem parse_user_full (line : CStr) (inp : Input)
    (h : parse_input line 0 true = (some inp, 0)) :
    inp.cmnd ∈ command_chars ∧ inp.arg_count = ((tokens line).length : Int) ∧
      1 ≤ inp.arg_count ∧
      inp.arg_arr = (List.range MAX_ARGS).map (fun i => (tokens line)[i]?) := by
  match line, h with
  | [], h => simp [parse_input] at h
  | [c], h => simp [parse_input] at h
  | c0 :: c1 :: rest, h =>
    obtain ⟨p1, p2, p3⟩ := parse_user_line c0 c1 rest
    by_cases hcond : isupper c0 = false ∨ isspace c1 = false
    · rw [p1 hcond] at h
      simp at h
    · have hu : isupper c0 = true := by
        by_contra hc
        exact hcond (Or.inl (by simpa using hc))
      have hs : isspace c1 = true := by
        by_contra hc
        exact hcond (Or.inr (by simpa using hc))
      by_cases hc : c0 ∈ command_chars
      · rw [p2 hu hs hc] at h
        simp only [Prod.mk.injEq, Option.some.injEq, and_true] at h
        have htok := tokens_ne_nil_of_upper c0 (c1 :: rest) hu
        have hpos : 0 < (tokens (c0 :: c1 :: rest)).length := List.length_pos.2 htok
        rw [← h]
        exact ⟨hc, rfl, by simp only; omega, rfl⟩
      · rw [p3 hu hs hc] at h
        simp only [Prod.mk.injEq] at h
        exact absurd h.2 (by decide)

theorem validate_input_count (inp : Input) (hc : inp.cmnd ∈ command_chars) :
    (expected_args inp.cmnd < inp.arg_count → validate_input inp = ERR_TOO_MANY_ARGS) ∧
      (1 ≤ inp.arg_count → inp.arg_count < expected_args inp.cmnd →
        validate_input inp = ERR_TOO_FEW_ARGS) := by
  simp only [command_chars, List.mem_cons, List.mem_singleton, List.not_mem_nil,
    or_false] at hc
  have hA : ¬ ('A' : Char) = '*' := by decide
  rcases hc with h | h | h | h | h | h
  all_goals
    constructor
    · intro hgt
      simp only [h, expected_args] at hgt
      simp only [validate_input, h, NO_CMND_CHAR, ADD, UPDATE, LIST, WRITE, LOAD, QUIT,
        ADD_ARGS, UPDATE_ARGS, LIST_ARGS, WRITE_ARGS, LOAD_ARGS, QUIT_ARGS]
      simp at hgt
      simp [hgt]
    · intro h1 hlt
      simp only [h, expected_args] at hlt
      simp only [validate_input, h, NO_CMND_CHAR, ADD, UPDATE, LIST, WRITE, LOAD, QUIT,
        ADD_ARGS, UPDATE_ARGS, LIST_ARGS, WRITE_ARGS, LOAD_ARGS, QUIT_ARGS]
      simp at hlt
      first
      | omega
      | (have hng : ¬ inp.arg_count > 2 := by omega
         simp [hlt, hng])
      | (have hng : ¬ inp.arg_count > 4 := by omega
         simp [hlt, hng])

/-- C22: for an interactive line that is parsed in full, so with command character `A`, `U`,
`L`, `W`, `O` or `Q`, `validate_input` returns `ERR_TOO_MANY_ARGS` when the line has more
tokens than the command takes and `ERR_TOO_FEW_ARGS` when it has fewer, whatever the
tokens are; and `run` on `L extra` returns `ERR_TOO_MANY_ARGS`, prints nothing and leaves
the roster as it was. -/
theorem C22_argument_count_first (line : CStr) (inp : Input)
    (h : parse_input line 0 true = (some inp, 0)) :
    inp.cmnd ∈ command_chars ∧ inp.arg_count = ((tokens line).length : Int) ∧
      (expected_args inp.cmnd < inp.arg_count → validate_input inp = ERR_TOO_MANY_ARGS) ∧
      (inp.arg_count < expected_args inp.cmnd → validate_input inp = ERR_TOO_FEW_ARGS) ∧
      (∀ (files : Files) (students : List Student),
        run files "L extra\n".toList students = ⟨ERR_TOO_MANY_ARGS, students, [], none⟩) := by
  obtain ⟨hc, hcount, hpos, _⟩ := parse_user_full line inp h
  obtain ⟨v1, v2⟩ := validate_input_count inp hc
  refine ⟨hc, hcount, v1, v2 hpos, ?_⟩
  intro files students
  have hp : parse_input "L extra\n".toList 0 true =
      (some ⟨2, 'L', ["L", "extra"].map (fun s => some s.toList) ++ List.replicate 8 none⟩,
        0) := by decide
  have hv : validate_input
      ⟨2, 'L', ["L", "extra"].map (fun s => some s.toList) ++ List.replicate 8 none⟩ =
        ERR_TOO_MANY_ARGS := by decide
  have := run_invalid files "L extra\n".toList students _ hp (by rw [hv]; decide)
  rw [this, hv]

/-- C22 at the line `U x`: two tokens where `U` takes four, and the id is not checked. -/
theorem C22_argument_count_first_witness :
    parse_input "U ?\n".toList 0 true =
        (some ⟨2, 'U', ["U", "?"].map (fun s => some s.toList) ++ List.replicate 8 none⟩, 0) ∧
      validate_input ⟨2, 'U', ["U", "?"].map (fun s => some s.toList) ++ List.replicate 8 none⟩ =
        ERR_TOO_FEW_ARGS :=
  ⟨by decide,
    (C22_argument_count_first "U ?\n".toList
      ⟨2, 'U', ["U", "?"].map (fun s => some s.toList) ++ List.replicate 8 none⟩
      (by decide)).2.2.2.1 (by decide)⟩

/-- C24: for an interactive line whose first byte is an upper-case letter other than
`A U L W O Q` and whose second byte is white space, `parse_input` returns a parsed input
whose `cmnd` is that letter and sets `ERR_INV_CMND_CHAR`; `run` prints
`Invalid command <letter>`, returns 0 (which is neither negative nor the quit flag), writes
no file and leaves the roster as it was, whatever follows on the line. -/
theorem C24_unknown_command (files : Files) (c0 c1 : Char) (rest : CStr)
    (students : List Student) (hu : c0.isUpper = true) (hn : c0 ∉ command_chars)
    (hs : c1 ∈ white_space) :
    (∃ inp, parse_input (c0 :: c1 :: rest) 0 true = (some inp, ERR_INV_CMND_CHAR) ∧
        inp.cmnd = c0) ∧
      run files (c0 :: c1 :: rest) students =
        ⟨0, students, "Invalid command ".toList ++ [c0, '\n'], none⟩ ∧
      (0 : Int) ≠ QUIT_FLAG := by
  have hu2 : isupper c0 = true := by rw [isupper_eq]; exact hu
  have hs2 : isspace c1 = true := (isspace_iff c1).2 hs
  have hp := (parse_user_line c0 c1 rest).2.2 hu2 hs2 hn
  refine ⟨⟨_, hp, rfl⟩, ?_, by decide⟩
  exact run_soft files _ students _ _ hp (by decide)

/-- C24 at the line `X B 3 45`. -/
theorem C24_unknown_command_witness :
    run (Files.single []) "X B 3 45\n".toList
        [⟨"B".toList, "Doe".toList, "Jane".toList, Points.zero⟩] =
      ⟨0, [⟨"B".toList, "Doe".toList, "Jane".toList, Points.zero⟩],
        "Invalid command X\n".toList, none⟩ :=
  (C24_unknown_command (Files.single []) 'X' ' ' "B 3 45\n".toList
    [⟨"B".toList, "Doe".toList, "Jane".toList, Points.zero⟩]
    (by decide) (by decide) (by decide)).2.1

theorem print_int_eq_toString (v : Int) : print_int v = (toString v).toList := by
  unfold print_int
  cases v with
  | ofNat n =>
    have : ¬ (Int.ofNat n < 0) := not_lt.2 (Int.ofNat_nonneg n)
    simp only [this, if_false]
    rfl
  | negSucc n =>
    have : Int.negSucc n < 0 := Int.negSucc_lt_zero n
    simp only [this, if_true]
    rfl

theorem student_line_eq (s : Student) : student_line s = record_line s := by
  have hr : List.range EXCRS_RNDS = [0, 1, 2, 3, 4, 5] := by decide
  unfold student_line record_line
  rw [count_points_sum, hr]
  simp only [List.map_cons, List.map_nil, List.flatten_cons, List.flatten_nil, Points.get,
    print_int_eq_toString, List.append_assoc, List.append_nil]
  rfl

theorem print_all_some (acc : CStr) (st : List Student) :
    print_all (some acc) st = (0, some (acc ++ (st.map student_line).flatten)) := by
  induction st generalizing acc with
  | nil => simp [print_all]
  | cons s rest ih =>
    simp only [print_all, print_to_stream, ne_eq, not_true_eq_false, if_false, ih,
      List.map_cons, List.flatten_cons, List.append_assoc]

theorem write_to_file_open (s : Student) (rest : List Student) :
    write_to_file true (s :: rest) =
      (0, some (((s :: rest).map student_line).flatten)) := by
  have h := print_all_some [] (s :: rest)
  rw [List.nil_append] at h
  unfold write_to_file
  simp only [Bool.not_true, Bool.false_eq_true, if_false, h]

theorem write_to_file_closed (s : Student) (rest : List Student) :
    write_to_file false (s :: rest) = (ERR_FILE_OPEN, none) := by
  unfold write_to_file
  simp only [Bool.not_false, if_true]

/-- C23: `write_to_file` returns `ERR_WRT_EMPT_LST` exactly for the roster without students,
and then opens no file; for a roster with students it returns 0 when the file can be opened,
and the content written is the record lines of the students in the order of the roster,
`ERR_FILE_OPEN` when it cannot. -/
theorem C23_write (students : List Student) (can_open : Bool) :
    ((write_to_file can_open students).1 = ERR_WRT_EMPT_LST ↔ students = []) ∧
      (students = [] → write_to_file can_open students = (ERR_WRT_EMPT_LST, none)) ∧
      (students ≠ [] →
        write_to_file true students = (0, some ((students.map record_line).flatten))) ∧
      (students ≠ [] → write_to_file false students = (ERR_FILE_OPEN, none)) := by
  have hmap : students.map student_line = students.map record_line :=
    List.map_congr_left (fun s _ => student_line_eq s)
  cases students with
  | nil => simp [write_to_file]
  | cons s rest =>
    refine ⟨?_, ?_, ?_, ?_⟩
    · simp only [reduceCtorEq, iff_false]
      cases can_open with
      | false =>
        rw [write_to_file_closed]
        decide
      | true =>
        rw [write_to_file_open]
        show ¬ (0 : Int) = ERR_WRT_EMPT_LST
        decide
    · intro h
      cases h
    · intro _
      rw [write_to_file_open, hmap]
    · intro _
      exact write_to_file_closed s rest

/-- C23 at a roster of two students. -/
theorem C23_write_witness :
    write_to_file true
        [⟨"B".toList, "Doe".toList, "Jane".toList, ⟨0, 0, 45, 0, 0, 0⟩⟩,
          ⟨"A1".toList, "Roe".toList, "Al".toList, ⟨1, 2, 3, 4, 5, 6⟩⟩] =
      (0, some "B Doe Jane 0 0 45 0 0 0 45\nA1 Roe Al 1 2 3 4 5 6 21\n".toList) :=
  (C23_write
    [⟨"B".toList, "Doe".toList, "Jane".toList, ⟨0, 0, 45, 0, 0, 0⟩⟩,
      ⟨"A1".toList, "Roe".toList, "Al".toList, ⟨1, 2, 3, 4, 5, 6⟩⟩] true).2.2.1 (by decide)

/-- C30: for every roster, `load_file` on a file that can be opened and holds nothing
returns 0 and leaves the roster without students; `write_to_file` never produces such a
file: for the roster without students it refuses, and what it writes otherwise is not
empty. -/
theorem C30_load_empty_file (students : List Student) (can_open : Bool) :
    load_file (some []) students = (0, []) ∧
      write_to_file can_open [] = (ERR_WRT_EMPT_LST, none) ∧
      (write_to_file can_open students).2 ≠ some [] := by
  refine ⟨by simp [load_file, file_lines, fgets_all, load_lines], rfl, ?_⟩
  cases students with
  | nil => simp [write_to_file]
  | cons s rest =>
    cases can_open with
    | false => rw [write_to_file_closed]; simp
    | true =>
      rw [write_to_file_open]
      simp only [List.map_cons, List.flatten_cons, ne_eq, Option.some.injEq]
      intro h
      have h2 := congrArg List.length h
      rw [student_line_eq] at h2
      simp [record_line] at h2

theorem sort_congr_left {a b : Student} (x : Student)
    (hz : sort_students (some a.node) (some b.node) = 0) :
    sort_students (some a.node) (some x.node) = sort_students (some b.node) (some x.node) := by
  obtain ⟨e1, e2, e3, e4⟩ := (sort_students_eq_zero_iff a b).1 hz
  rw [sort_students_real, sort_students_real, e1, e2, e3, e4]

theorem sort_congr_right {a b : Student} (x : Student)
    (hz : sort_students (some a.node) (some b.node) = 0) :
    sort_students (some x.node) (some a.node) = sort_students (some x.node) (some b.node) := by
  obtain ⟨e1, e2, e3, e4⟩ := (sort_students_eq_zero_iff a b).1 hz
  rw [sort_students_real, sort_students_real, e1, e2, e3, e4]

theorem sort_le_trans {a b c : Student}
    (h1 : sort_students (some a.node) (some b.node) ≤ 0)
    (h2 : sort_students (some b.node) (some c.node) ≤ 0) :
    sort_students (some a.node) (some c.node) ≤ 0 := by
  by_cases z1 : sort_students (some a.node) (some b.node) = 0
  · rw [sort_congr_left c z1]
    exact h2
  · by_cases z2 : sort_students (some b.node) (some c.node) = 0
    · rw [← sort_congr_right a z2]
      exact h1
    · have l1 : before a b := by unfold before; omega
      have l2 : before b c := by unfold before; omega
      exact le_of_lt (before_trans l1 l2)

theorem weakly_sorted_of_sorted {l : List Student} (hs : Sorted l) : WeaklySorted l :=
  List.Pairwise.imp (fun hab => le_of_lt hab) hs

theorem place_into_list_weak (s : Student) (l : List Student) (hs : WeaklySorted l) :
    WeaklySorted (place_into_list s l) := by
  unfold WeaklySorted at *
  induction l with
  | nil => simp [place_into_list]
  | cons c rest ih =>
    have hc := List.pairwise_cons.1 hs
    by_cases h : before c s
    · have h' : sort_students (some c.node) (some s.node) < 0 := h
      simp only [place_into_list, h', if_true]
      refine List.pairwise_cons.2 ⟨?_, ih hc.2⟩
      intro x hx
      rcases List.mem_cons.1 ((place_into_list_perm s rest).mem_iff.1 hx) with rfl | hx
      · exact le_of_lt h'
      · exact hc.1 x hx
    · have h' : ¬ sort_students (some c.node) (some s.node) < 0 := h
      simp only [place_into_list, h', if_false]
      have hsc : sort_students (some s.node) (some c.node) ≤ 0 := by
        have := sort_students_swap s c
        omega
      refine List.pairwise_cons.2 ⟨?_, hs⟩
      intro x hx
      rcases List.mem_cons.1 hx with rfl | hx
      · exact hsc
      · exact sort_le_trans hsc (hc.1 x hx)

/-- C25: for a list ordered by `sort_students` and any student `s`, `place_into_list` gives
a permutation of `s` and the list in which the old elements keep their order: `s` stands
after the elements that sort before it and immediately before the first element `e` with
`sort_students(e, s) >= 0`, at the end when there is none; the result is ordered again. This
holds for the weak order (no student before one that sorts before it); and when the list
is ordered strictly and no element has the id of `s`, the result is ordered strictly. -/
theorem C25_sorted_insertion (s : Student) (l : List Student) (hs : WeaklySorted l) :
    (place_into_list s l).Perm (s :: l) ∧
      (∃ l1 l2, l = l1 ++ l2 ∧ place_into_list s l = l1 ++ s :: l2 ∧
        (∀ c ∈ l1, sort_students (some c.node) (some s.node) < 0) ∧
        (∀ e, l2.head? = some e → sort_students (some e.node) (some s.node) ≥ 0)) ∧
      WeaklySorted (place_into_list s l) ∧
      (Sorted l → (∀ c ∈ l, c.student_id ≠ s.student_id) →
        Sorted (place_into_list s l)) := by
  obtain ⟨l1, l2, e1, e2, h1, h2⟩ := place_into_list_split s l
  refine ⟨place_into_list_perm s l, ⟨l1, l2, e1, e2, h1, ?_⟩, place_into_list_weak s l hs,
    fun hst hid => place_into_list_sorted s l hst hid⟩
  intro e he
  have := h2 e he
  unfold before at this
  omega

/-- C25 at a concrete list: the new student has more points than `A1` and fewer than `B`. -/
theorem C25_sorted_insertion_witness :
    Sorted [⟨"B".toList, "Doe".toList, "Jane".toList, ⟨0, 0, 45, 0, 0, 0⟩⟩,
        ⟨"A1".toList, "Roe".toList, "Al".toList, ⟨1, 2, 3, 4, 5, 6⟩⟩] ∧
      place_into_list ⟨"C".toList, "Poe".toList, "Ed".toList, ⟨30, 0, 0, 0, 0, 0⟩⟩
          [⟨"B".toList, "Doe".toList, "Jane".toList, ⟨0, 0, 45, 0, 0, 0⟩⟩,
            ⟨"A1".toList, "Roe".toList, "Al".toList, ⟨1, 2, 3, 4, 5, 6⟩⟩] =
        [⟨"B".toList, "Doe".toList, "Jane".toList, ⟨0, 0, 45, 0, 0, 0⟩⟩,
          ⟨"C".toList, "Poe".toList, "Ed".toList, ⟨30, 0, 0, 0, 0, 0⟩⟩,
          ⟨"A1".toList, "Roe".toList, "Al".toList, ⟨1, 2, 3, 4, 5, 6⟩⟩] ∧
      Sorted (place_into_list ⟨"C".toList, "Poe".toList, "Ed".toList, ⟨30, 0, 0, 0, 0, 0⟩⟩
          [⟨"B".toList, "Doe".toList, "Jane".toList, ⟨0, 0, 45, 0, 0, 0⟩⟩,
            ⟨"A1".toList, "Roe".toList, "Al".toList, ⟨1, 2, 3, 4, 5, 6⟩⟩]) :=
  ⟨by decide, by decide,
    (C25_sorted_insertion ⟨"C".toList, "Poe".toList, "Ed".toList, ⟨30, 0, 0, 0, 0, 0⟩⟩
      [⟨"B".toList, "Doe".toList, "Jane".toList, ⟨0, 0, 45, 0, 0, 0⟩⟩,
        ⟨"A1".toList, "Roe".toList, "Al".toList, ⟨1, 2, 3, 4, 5, 6⟩⟩]
      (by decide)).2.2.2 (by decide) (by decide)⟩

/-- C28: for a roster ordered by `sort_students` and two students with different ids that
no student of the roster has, adding the first and then the second succeeds and gives the
same list as adding the second and then the first. -/
theorem C28_adds_commute (students : List Student) (id1 last1 first1 id2 last2 first2 : CStr)
    (hs : Sorted students) (h12 : id1 ≠ id2)
    (h1 : ∀ s ∈ students, s.student_id ≠ id1) (h2 : ∀ s ∈ students, s.student_id ≠ id2) :
    add_student id2 last2 first2 (add_student id1 last1 first1 students).2 =
        add_student id1 last1 first1 (add_student id2 last2 first2 students).2 ∧
      (add_student id1 last1 first1 students).1 = 0 ∧
      (add_student id2 last2 first2 (add_student id1 last1 first1 students).2).1 = 0 := by
  have a1 := add_student_new id1 last1 first1 students h1
  have a2 := add_student_new id2 last2 first2 students h2
  have p1 := place_into_list_perm (init_student id1 last1 first1) students
  have p2 := place_into_list_perm (init_student id2 last2 first2) students
  have n21 : ∀ s ∈ place_into_list (init_student id1 last1 first1) students,
      s.student_id ≠ id2 := by
    intro s hs
    rcases List.mem_cons.1 (p1.mem_iff.1 hs) with rfl | hs
    · exact h12
    · exact h2 s hs
  have n12 : ∀ s ∈ place_into_list (init_student id2 last2 first2) students,
      s.student_id ≠ id1 := by
    intro s hs
    rcases List.mem_cons.1 (p2.mem_iff.1 hs) with rfl | hs
    · exact fun e => h12 e.symm
    · exact h1 s hs
  have b1 := add_student_new id2 last2 first2 _ n21
  have b2 := add_student_new id1 last1 first1 _ n12
  rw [a1, a2, b1, b2]
  refine ⟨?_, rfl, rfl⟩
  have s1 := place_into_list_sorted (init_student id2 last2 first2) _
    (place_into_list_sorted (init_student id1 last1 first1) _ hs h1) n21
  have s2 := place_into_list_sorted (init_student id1 last1 first1) _
    (place_into_list_sorted (init_student id2 last2 first2) _ hs h2) n12
  have q1 := (place_into_list_perm (init_student id2 last2 first2) _).trans (p1.cons _)
  have q2 := (place_into_list_perm (init_student id1 last1 first1) _).trans (p2.cons _)
  have hperm := q1.trans ((List.Perm.swap _ _ _).trans q2.symm)
  haveI := before_antisymm
  rw [List.eq_of_perm_of_sorted hperm s1 s2]

/-- C28 at a concrete roster. -/
theorem C28_adds_commute_witness :
    add_student "C".toList "Poe".toList "Ed".toList
        (add_student "A1".toList "Roe".toList "Al".toList
          [⟨"B".toList, "Doe".toList, "Jane".toList, ⟨0, 0, 45, 0, 0, 0⟩⟩]).2 =
      add_student "A1".toList "Roe".toList "Al".toList
        (add_student "C".toList "Poe".toList "Ed".toList
          [⟨"B".toList, "Doe".toList, "Jane".toList, ⟨0, 0, 45, 0, 0, 0⟩⟩]).2 :=
  (C28_adds_commute [⟨"B".toList, "Doe".toList, "Jane".toList, ⟨0, 0, 45, 0, 0, 0⟩⟩]
    "A1".toList "Roe".toList "Al".toList "C".toList "Poe".toList "Ed".toList
    (by decide) (by decide) (by decide) (by decide)).1

theorem points_set_idem (p : Points) (i v : Int) : (p.set i v).set i v = p.set i v := by
  unfold Points.set
  split_ifs <;> rfl

theorem updated_idem (t : Student) (round points : CStr) :
    updated (updated t round points) round points = updated t round points := by
  unfold updated
  simp only [points_set_idem]

/-- C29: for a roster ordered by `sort_students` with distinct ids on which an update
succeeds, the same update applied to the result succeeds again and returns the same list. -/
theorem C29_update_idempotent (student_id round points : CStr) (students : List Student)
    (hs : Sorted students) (hd : DistinctIds students)
    (hok : (update_points student_id round points students).1 = 0) :
    update_points student_id round points
        (update_points student_id round points students).2 =
      (0, (update_points student_id round points students).2) := by
  cases hf : find_target student_id students with
  | none =>
    rw [update_points_absent _ _ _ _ ((find_target_none _ _).1 hf)] at hok
    simp only at hok
    split_ifs at hok <;> exact absurd hok (by decide)
  | some r =>
    obtain ⟨b, t, a⟩ := r
    obtain ⟨e, e2, _⟩ := find_target_some _ _ _ _ _ hf
    have hinv := update_points_invariant student_id round points students hs hd
    rw [update_points_found _ _ _ _ _ _ _ hf] at hinv ⊢
    simp only at hinv ⊢
    have hp := place_into_list_perm (updated t round points) (b ++ a)
    obtain ⟨l2, e3, hp2, hs2, _⟩ := update_points_perm student_id round points
      (place_into_list (updated t round points) (b ++ a)) (b ++ a) (updated t round points)
      hp (by rw [updated_id]; exact e2) hinv.1 hinv.2
    rw [updated_idem] at hp2
    rw [e3]
    haveI := before_antisymm
    rw [List.eq_of_perm_of_sorted (hp2.trans hp.symm) hs2 hinv.1]

/-- C29 at a concrete roster: `B` gets 45 points for round 3, twice. -/
theorem C29_update_idempotent_witness :
    update_points "B".toList "3".toList "45".toList
        (update_points "B".toList "3".toList "45".toList
          [⟨"A1".toList, "Roe".toList, "Al".toList, ⟨0, 0, 7, 0, 0, 0⟩⟩,
            ⟨"B".toList, "Doe".toList, "Jane".toList, ⟨0, 0, 5, 0, 0, 0⟩⟩]).2 =
      (0, (update_points "B".toList "3".toList "45".toList
          [⟨"A1".toList, "Roe".toList, "Al".toList, ⟨0, 0, 7, 0, 0, 0⟩⟩,
            ⟨"B".toList, "Doe".toList, "Jane".toList, ⟨0, 0, 5, 0, 0, 0⟩⟩]).2) :=
  C29_update_idempotent "B".toList "3".toList "45".toList
    [⟨"A1".toList, "Roe".toList, "Al".toList, ⟨0, 0, 7, 0, 0, 0⟩⟩,
      ⟨"B".toList, "Doe".toList, "Jane".toList, ⟨0, 0, 5, 0, 0, 0⟩⟩]
    (by decide) (by decide) (by decide)

theorem validate_rounds_ne_zero (str : CStr) : validate_rounds str ≠ 0 := by
  unfold validate_rounds
  simp only [ERR_ROUND_CNV, INT_ERR_BOUND, INT_MIN, ERR_RND_NUM_OOB, EXCRS_RNDS]
  split_ifs with c1 c2 c3
  · decide
  · omega
  · decide
  · omega

theorem validate_input_update (inp : Input) (hc : inp.cmnd = UPDATE)
    (hv : validate_input inp = 0) :
    1 ≤ validate_rounds (inp.arg 2) ∧ 0 ≤ validate_points (inp.arg 3) := by
  have h1 : ¬ UPDATE = NO_CMND_CHAR := by decide
  have h2 : ¬ UPDATE = ADD := by decide
  have hr := validate_rounds_ne_zero (inp.arg 2)
  unfold validate_input at hv
  simp only [hc, ne_eq, h1, not_false_eq_true, if_true, h2, if_false] at hv
  split_ifs at hv <;>
    first
    | exact absurd hv (by decide)
    | contradiction
    | exact ⟨by omega, by omega⟩

theorem validate_input_file (inp : Input) (hc : inp.cmnd = NO_CMND_CHAR)
    (hv : validate_input inp = 0) :
    ∀ i, i < 7 → 0 ≤ validate_points (inp.arg (i + 3)) := by
  unfold validate_input at hv
  simp only [hc, ne_eq, not_true_eq_false, if_false] at hv
  rcases validate_file_points_cases inp (List.range (EXCRS_RNDS + 1)) with ⟨_, hall⟩ | ⟨e, _⟩
  · intro i hi
    exact hall i (List.mem_range.2 hi)
  · rw [e] at hv
    split_ifs at hv <;> exact absurd hv (by decide)

/-- A line of a file that is parsed in full gives a parsed input without command character. -/
theorem parse_file_full (line : CStr) (inp : Input)
    (h : parse_input line 0 false = (some inp, 0)) : inp.cmnd = NO_CMND_CHAR := by
  by_cases h1 : line.length ≤ 1
  · rw [parse_file_short line h1] at h
    simp at h
  have h1' : 1 < line.length := by omega
  by_cases hu : starts_unknown_command line = true
  · obtain ⟨inp2, e, _⟩ := parse_file_unknown line h1' hu
    rw [e] at h
    simp only [Prod.mk.injEq] at h
    exact absurd h.2 (by decide)
  have hu' : starts_unknown_command line = false := by simpa using hu
  by_cases ht : tokens line = []
  · rw [parse_file_no_token line h1' hu' ht] at h
    simp at h
  · rw [parse_file_tokens line h1' hu' ht] at h
    simp only [Prod.mk.injEq, Option.some.injEq, and_true] at h
    rw [← h]

theorem run_cases_valid (files : Files) (input : CStr) (st : List Student) (o : Outcome)
    (ho : o = run files input st) :
    o.students = st ∨
      (∃ a b c, o.students = (add_student a b c st).2) ∨
      (∃ a b c, o.students = (update_points a b c st).2 ∧
        1 ≤ validate_rounds b ∧ 0 ≤ validate_points c) ∨
      (∃ f, o.students = (load_file f st).2) := by
  unfold run at ho
  cases hp : (parse_input input 0 true).1 with
  | none =>
    simp only [hp] at ho
    split_ifs at ho <;> subst ho <;> exact Or.inl rfl
  | some inp =>
    simp only [hp] at ho
    split_ifs at ho <;> subst ho <;>
      first
      | exact Or.inl rfl
      | exact Or.inr (Or.inl ⟨_, _, _, rfl⟩)
      | exact Or.inr (Or.inr (Or.inl ⟨_, _, _, rfl,
          validate_input_update inp (by assumption) (not_not.1 (by assumption))⟩))
      | exact Or.inr (Or.inr (Or.inr ⟨_, rfl⟩))

theorem points_set_in_range (p : Points) (i v : Int) (hp : points_in_range p)
    (h0 : 0 ≤ v) (h9 : v ≤ 999) : points_in_range (p.set i v) := by
  intro j hj
  have hpj := hp j hj
  unfold Points.set
  split_ifs <;> interval_cases j <;> simp only [Points.get] at hpj ⊢ <;>
    first | exact hpj | exact ⟨h0, h9⟩

theorem points_zero_in_range : points_in_range Points.zero := by
  intro j hj
  interval_cases j <;> simp [Points.get, Points.zero]

theorem record_of_in_range (line : CStr) (h : valid_record line = true) :
    points_in_range (record_of line).points := by
  have key : ∀ i, i < 6 → 0 ≤ atoi (field line (3 + i)) ∧ atoi (field line (3 + i)) ≤ 999 := by
    intro i hi
    have hp := valid_record_points line h i (by omega)
    have := validate_points_ok _ hp
    exact ⟨by rw [← this.1]; exact hp, this.2⟩
  intro j hj
  interval_cases j
  · exact key 0 (by omega)
  · exact key 1 (by omega)
  · exact key 2 (by omega)
  · exact key 3 (by omega)
  · exact key 4 (by omega)
  · exact key 5 (by omega)

/-- One `run` call keeps every round value of every student in `[0, 999]`. -/
theorem run_keeps_points (files : Files) (input : CStr) (st : List Student)
    (h : ∀ s ∈ st, points_in_range s.points) :
    ∀ s ∈ (run files input st).students, points_in_range s.points := by
  rcases run_cases_valid files input st _ rfl with e | ⟨a, b, c, e⟩ | ⟨a, b, c, e, hr, hp⟩ |
    ⟨f, e⟩
  · rw [e]; exact h
  · rw [e]
    by_cases hdup : ∃ s ∈ st, s.student_id = a
    · rw [add_student_dup _ _ _ _ hdup]; exact h
    · have hnew : ∀ s ∈ st, s.student_id ≠ a := fun s hs e => hdup ⟨s, hs, e⟩
      rw [add_student_new _ _ _ _ hnew]
      intro s hs
      rcases List.mem_cons.1 ((place_into_list_perm _ _).mem_iff.1 hs) with rfl | hs
      · exact points_zero_in_range
      · exact h s hs
  · rw [e]
    cases hf : find_target a st with
    | none =>
      rw [update_points_absent _ _ _ _ ((find_target_none _ _).1 hf)]
      exact h
    | some r =>
      obtain ⟨x, t, y⟩ := r
      obtain ⟨e1, _, _⟩ := find_target_some _ _ _ _ _ hf
      rw [update_points_found _ _ _ _ _ _ _ hf]
      have hpo := validate_points_ok c hp
      intro s hs
      rcases List.mem_cons.1 ((place_into_list_perm _ _).mem_iff.1 hs) with rfl | hs
      · exact points_set_in_range _ _ _ (h t (by rw [e1]; simp))
          (by rw [← hpo.1]; exact hp) hpo.2
      · apply h s
        rw [e1]
        rcases List.mem_append.1 hs with hs | hs
        · exact List.mem_append_left _ hs
        · exact List.mem_append_right _ (List.mem_cons_of_mem _ hs)
  · rw [e]
    cases f with
    | none => exact h
    | some content =>
      by_cases h0 : (load_file (some content) st).1 = 0
      · obtain ⟨hl0, hl2⟩ := load_file_ok content st h0
        obtain ⟨hv, hperm, _, _⟩ :=
          load_lines_ok (file_lines content) [] sorted_nil distinct_nil hl0
        rw [List.append_nil] at hperm
        rw [hl2]
        intro s hs
        obtain ⟨l, hl, rfl⟩ := List.mem_map.1 (hperm.mem_iff.1 hs)
        exact record_of_in_range l (hv l hl)
      · rw [load_file_error _ _ h0]
        exact h

theorem run_all_keeps_points (steps : List (Files × CStr)) (st : List Student)
    (h : ∀ s ∈ st, points_in_range s.points) :
    ∀ s ∈ run_all steps st, points_in_range s.points := by
  induction steps generalizing st with
  | nil => exact h
  | cons step rest ih =>
    unfold run_all
    rw [List.foldl_cons]
    exact ih _ (run_keeps_points step.1 step.2 st h)

/-- C26: in every roster that a sequence of `run` calls builds from the empty roster,
whatever the lines and the files, each of the six round values of every student lies in
`[0, 999]`; hence `count_points` lies in `[0, 5994]`, which is below `INT_MAX`, and is the
plain sum of the six values. -/
theorem C26_points_bound (steps : List (Files × CStr)) :
    ∀ s ∈ run_all steps [],
      points_in_range s.points ∧ 0 ≤ count_points s.points ∧
        count_points s.points ≤ 5994 ∧ (5994 : Int) ≤ INT_MAX ∧
        count_points s.points =
          s.points.p0 + s.points.p1 + s.points.p2 + s.points.p3 + s.points.p4 +
            s.points.p5 := by
  intro s hs
  have hp := run_all_keeps_points steps [] (by simp) s hs
  have h0 := hp 0 (by omega)
  have h1 := hp 1 (by omega)
  have h2 := hp 2 (by omega)
  have h3 := hp 3 (by omega)
  have h4 := hp 4 (by omega)
  have h5 := hp 5 (by omega)
  simp only [Points.get] at h0 h1 h2 h3 h4 h5
  rw [count_points_sum]
  refine ⟨hp, by omega, by omega, by decide, rfl⟩

/-- C26 at a concrete session: two adds, two updates and a load that fails. -/
theorem C26_points_bound_witness :
    run_all
        [(Files.single [], "A B Doe Jane\n".toList), (Files.single [], "U B 3 999\n".toList),
          (Files.single [], "A A1 Roe Al\n".toList), (Files.single [], "U A1 6 1000\n".toList),
          (Files.single "B Doe\n".toList, "O f.txt\n".toList)] [] =
      [⟨"B".toList, "Doe".toList, "Jane".toList, ⟨0, 0, 999, 0, 0, 0⟩⟩,
        ⟨"A1".toList, "Roe".toList, "Al".toList, ⟨0, 0, 0, 0, 0, 0⟩⟩] ∧
      count_points (⟨0, 0, 999, 0, 0, 0⟩ : Points) ≤ 5994 :=
  ⟨by decide,
    (C26_points_bound
      [(Files.single [], "A B Doe Jane\n".toList), (Files.single [], "U B 3 999\n".toList),
        (Files.single [], "A A1 Roe Al\n".toList), (Files.single [], "U A1 6 1000\n".toList),
        (Files.single "B Doe\n".toList, "O f.txt\n".toList)]
      ⟨"B".toList, "Doe".toList, "Jane".toList, ⟨0, 0, 999, 0, 0, 0⟩⟩ (by decide)).2.2.1⟩

/-- C27: when `validate_input` has accepted an interactive `U` line, `run` calls
`update_points` with tokens 1, 2, 3, and the round `atoi` reads from token 2 is the one
`validate_rounds` accepted, so the index `round - 1` lies in `0..5`, and the points `atoi`
reads from token 3 are those `validate_points` accepted, in `[0, 999]`. When it has
accepted a line of a file, `load_file` calls `update_points` for the rounds printed from
`1` to `6`, which `atoi` reads back as `1` to `6`, and with fields 3 to 8, whose `atoi`
values are those `validate_points` accepted. -/
theorem C27_update_index_safety (line : CStr) (inp : Input) :
    (parse_input line 0 true = (some inp, 0) → validate_input inp = 0 → inp.cmnd = UPDATE →
        (∀ (files : Files) (students : List Student),
          (run files line students).students =
              (update_points (inp.arg 1) (inp.arg 2) (inp.arg 3) students).2 ∧
            (run files line students).ret =
              (update_points (inp.arg 1) (inp.arg 2) (inp.arg 3) students).1) ∧
        atoi (inp.arg 2) = validate_rounds (inp.arg 2) ∧
        0 ≤ atoi (inp.arg 2) - 1 ∧ atoi (inp.arg 2) - 1 ≤ 5 ∧
        atoi (inp.arg 3) = validate_points (inp.arg 3) ∧
        0 ≤ atoi (inp.arg 3) ∧ atoi (inp.arg 3) ≤ 999) ∧
      (parse_input line 0 false = (some inp, 0) → validate_input inp = 0 →
        ∀ i : Nat, i < 6 →
          atoi (print_int ((i : Int) + 1)) - 1 = (i : Int) ∧
          atoi (inp.arg (3 + i)) = validate_points (inp.arg (3 + i)) ∧
          0 ≤ atoi (inp.arg (3 + i)) ∧ atoi (inp.arg (3 + i)) ≤ 999) := by
  constructor
  · intro hp hv hc
    obtain ⟨hr, hpt⟩ := validate_input_update inp hc hv
    obtain ⟨r1, r2, r3⟩ := validate_rounds_ok _ hr
    obtain ⟨p1, p2⟩ := validate_points_ok _ hpt
    refine ⟨?_, r1.symm, by omega, by omega, p1.symm, by rw [← p1]; exact hpt, p2⟩
    intro files students
    rw [run_update files line students inp hp hv hc]
    exact ⟨rfl, rfl⟩
  · intro hp hv i hi
    have hc := parse_file_full line inp hp
    have hpt := validate_input_file inp hc hv i (by omega)
    rw [Nat.add_comm i 3] at hpt
    obtain ⟨p1, p2⟩ := validate_points_ok _ hpt
    refine ⟨?_, p1.symm, by rw [← p1]; exact hpt, p2⟩
    interval_cases i <;> decide

/-- C27 at the line `U B +3 045`. -/
theorem C27_update_index_safety_witness :
    parse_input "U B +3 045\n".toList 0 true =
        (some ⟨4, 'U', ["U", "B", "+3", "045"].map (fun s => some s.toList) ++
          List.replicate 6 none⟩, 0) ∧
      atoi "+3".toList - 1 = 2 ∧ atoi "045".toList = 45 ∧
      atoi (Input.arg ⟨4, 'U', ["U", "B", "+3", "045"].map (fun s => some s.toList) ++
          List.replicate 6 none⟩ 2) =
        validate_rounds (Input.arg ⟨4, 'U',
          ["U", "B", "+3", "045"].map (fun s => some s.toList) ++ List.replicate 6 none⟩ 2) :=
  ⟨by decide, by decide, by decide,
    ((C27_update_index_safety "U B +3 045\n".toList
      ⟨4, 'U', ["U", "B", "+3", "045"].map (fun s => some s.toList) ++
        List.replicate 6 none⟩).1 (by decide) (by decide) (by decide)).2.1⟩

end Project
